import Mathlib

/-!
Verification of the DBPF container codec, deduplication analyzer, manifest
serializer and reconstruction engine of the sims-4-power-tools repository.

Byte buffers (`Buffer` in the source) are modelled as `List Nat`, one entry
per byte.  Reads past the end of a buffer return 0 via `getD` only at places
where the source has already bounds-checked; `slice` models
`Buffer.subarray` (clamping), `blit` models `Buffer.copy` /
`TypedArray.set` (described pointwise: the byte at `i` comes from `src` when
`i` falls in the written window, else from `dst`; the copy truncates at the
destination end, which agrees with the source wherever the theorems below
apply because the enclosing code sizes the destination first).  SHA-256 is
the collaborator interface "cryptographic hash function over byte buffers":
the codec is parameterised over an arbitrary digest function `H` instead of
a concrete implementation.
-/

/-- Byte of a buffer at index `i` (0 past the end; all uses are bounds-checked
by the surrounding code, mirroring the source). -/
def byteAt (b : List Nat) (i : Nat) : Nat := b.getD i 0

/-- `buffer.readUInt16LE(off)`. -/
def readU16 (b : List Nat) (off : Nat) : Nat :=
  byteAt b off + 2 ^ 8 * byteAt b (off + 1)

/-- `buffer.readUInt32LE(off)`. -/
def readU32 (b : List Nat) (off : Nat) : Nat :=
  byteAt b off + 2 ^ 8 * byteAt b (off + 1) + 2 ^ 16 * byteAt b (off + 2) +
    2 ^ 24 * byteAt b (off + 3)

/-- Little-endian 4-byte encoding of `v` (stores only the low 32 bits,
exactly as `value >>> 0` / `writeUInt32LE` do). -/
def u32Bytes (v : Nat) : List Nat :=
  [v % 2 ^ 8, v / 2 ^ 8 % 2 ^ 8, v / 2 ^ 16 % 2 ^ 8, v / 2 ^ 24 % 2 ^ 8]

/-- Little-endian 2-byte encoding of `v` (`writeUInt16LE`). -/
def u16Bytes (v : Nat) : List Nat :=
  [v % 2 ^ 8, v / 2 ^ 8 % 2 ^ 8]

/-- `buffer.subarray(start, stop)`: the bytes in `[start, stop)`, clamped to
the buffer exactly as Node clamps. -/
def subarray (b : List Nat) (start stop : Nat) : List Nat :=
  (b.drop start).take (stop - start)

/-- `src.copy(dst, off)` / `dst.set(src, off)`: overwrite `dst` starting at
`off` with the bytes of `src`, truncating at the end of `dst`. -/
def blit (dst src : List Nat) (off : Nat) : List Nat :=
  (List.range dst.length).map fun i =>
    if off ≤ i ∧ i < off + src.length then byteAt src (i - off) else byteAt dst i

/-- `buffer.writeUInt32LE(v, off)`. -/
def writeU32At (b : List Nat) (v off : Nat) : List Nat :=
  blit b (u32Bytes v) off

theorem u32Bytes_length (v : Nat) : (u32Bytes v).length = 4 := rfl

theorem blit_length (dst src : List Nat) (off : Nat) :
    (blit dst src off).length = dst.length := by
  simp [blit]

theorem writeU32At_length (b : List Nat) (v off : Nat) :
    (writeU32At b v off).length = b.length := blit_length ..

theorem byteAt_eq_zero_of_le (b : List Nat) (i : Nat) (h : b.length ≤ i) :
    byteAt b i = 0 := by
  unfold byteAt
  rw [List.getD_eq_getElem?_getD, List.getElem?_eq_none (by omega)]
  rfl

theorem byteAt_blit (dst src : List Nat) (off i : Nat) :
    byteAt (blit dst src off) i =
      if i < dst.length then
        (if off ≤ i ∧ i < off + src.length then byteAt src (i - off)
         else byteAt dst i)
      else 0 := by
  unfold blit byteAt
  rcases lt_or_le i dst.length with h | h
  · rw [List.getD_eq_getElem?_getD, List.getElem?_map, List.getElem?_range h]
    simp [h, byteAt]
  · rw [List.getD_eq_getElem?_getD, List.getElem?_eq_none (by simpa using h)]
    rw [if_neg (by omega)]
    rfl

theorem byteAt_subarray (b : List Nat) (start stop i : Nat) :
    byteAt (subarray b start stop) i =
      if i < stop - start then byteAt b (start + i) else 0 := by
  unfold subarray byteAt
  rcases lt_or_le i (stop - start) with h | h
  · rw [List.getD_eq_getElem?_getD, List.getElem?_take, List.getD_eq_getElem?_getD]
    rw [if_pos h, List.getElem?_drop]
    simp [h]
  · rw [List.getD_eq_getElem?_getD, List.getElem?_take, if_neg (by omega)]
    rw [if_neg (by omega)]
    rfl

theorem subarray_length (b : List Nat) (start stop : Nat)
    (h : stop ≤ b.length) :
    (subarray b start stop).length = stop - start := by
  simp only [subarray, List.length_take, List.length_drop]
  omega

/-! ## Resource model (`src/types/tgi.ts`, `src/types/binary-resource.ts`,
`src/types/dbpf-binary-structure.ts`)

The TS `instance : bigint` field is a Lean keyword, so it is named `inst`
here; it carries the full 64-bit instance number. -/

/-- Identity triple of a resource (`Tgi`). -/
structure Tgi where
  type : Nat
  group : Nat
  inst : Nat
deriving DecidableEq, Repr

/-- One parsed resource (`BinaryResource`). -/
structure BinaryResource where
  tgi : Tgi
  rawData : List Nat
  offset : Nat
  originalOffset : Nat
  compressionFlags : Nat
  size : Nat
  uncompressedSize : Nat
  sizeField : Nat
  isCompressed : Bool
  indexEntry : List Nat
deriving DecidableEq, Repr

/-- Whole-container snapshot (`DbpfBinaryStructure`).  `sha256` holds the
digest produced by the collaborator hash function. -/
structure DbpfBinaryStructure where
  filePath : String
  sha256 : List Nat
  header : List Nat
  resources : List BinaryResource
  indexTable : List Nat
  totalSize : Nat
  indexOffset : Nat
  indexSize : Nat
  indexFlags : Nat
  dataStartOffset : Nat
deriving DecidableEq, Repr

/-! ## Binary container codec (`src/dbpf-binary.ts`) -/

def HEADER_SIZE : Nat := 96

def INDEX_ENTRY_SIZE : Nat := 32

def INDEX_ENTRY_COUNT_OFFSET : Nat := 0x24

def INDEX_SIZE_OFFSET : Nat := 0x2c

def INDEX_OFFSET_LOW : Nat := 0x40

def INDEX_OFFSET_HIGH : Nat := 0x44

def DATA_OFFSET : Nat := 0x30

/-- The four `DBPF` magic bytes. -/
def dbpfMagic : List Nat := [0x44, 0x42, 0x50, 0x46]

/-- `ensureMagic`: the first four bytes must ASCII-decode to `DBPF` (Node's
`ascii` decoding masks each byte to 7 bits). -/
def ensureMagic (b : List Nat) : Bool :=
  (b.take 4).map (· % 128) == dbpfMagic

/-- Index metadata read from the header (`IndexMetadata`). -/
structure IndexMetadata where
  indexFlags : Nat
  entryCount : Nat
  indexSize : Nat
  indexOffset : Nat
  dataStartOffset : Nat
deriving DecidableEq, Repr

/-- `readIndexMetadata`: index fields from fixed header offsets, 64-bit index
offset from two 32-bit halves, data start defaulting to `0x60` when the
header field is zero, and the three bounds checks of the source in order. -/
def readIndexMetadata (b : List Nat) : Except String IndexMetadata :=
  let entryCount := readU32 b INDEX_ENTRY_COUNT_OFFSET
  let indexSize := readU32 b INDEX_SIZE_OFFSET
  let indexOffset := readU32 b INDEX_OFFSET_LOW + readU32 b INDEX_OFFSET_HIGH * 2 ^ 32
  let ds := readU32 b DATA_OFFSET
  let dataStartOffset := if ds = 0 then 0x60 else ds
  if b.length < indexOffset + 4 then
    .error "Index region too small to contain flags"
  else if indexSize < 4 then
    .error "Index too small to contain flags"
  else if b.length < indexOffset + indexSize then
    .error "Index extends beyond file bounds"
  else
    .ok { indexFlags := readU32 b indexOffset, entryCount, indexSize,
          indexOffset, dataStartOffset }

/-- `parseResource`: decode one 32-byte index entry at `entryOffset`.  A set
top bit of the data-offset field means data-start-relative (mask low 31 bits
and add `dataStartOffset`); the size field's top bit means compressed, its
low 31 bits are the byte length.  `readUInt32LE` always yields values below
`2 ^ 32`, so bit 31 tests are `2 ^ 31 ≤ _` / `_ / 2 ^ 31 = 1`. -/
def parseResource (b : List Nat) (entryOffset dataStartOffset : Nat) :
    Except String BinaryResource :=
  let type := readU32 b entryOffset
  let group := readU32 b (entryOffset + 4)
  let instanceHigh := readU32 b (entryOffset + 8)
  let instanceLow := readU32 b (entryOffset + 12)
  let dataOffsetField := readU32 b (entryOffset + 16)
  let sizeField := readU32 b (entryOffset + 20)
  let uncompressedSize := readU32 b (entryOffset + 24)
  let compressionFlags := readU16 b (entryOffset + 28)
  let isCompressed := sizeField / 2 ^ 31 == 1
  let actualSize := sizeField % 2 ^ 31
  let dataOffset :=
    if 2 ^ 31 ≤ dataOffsetField then dataOffsetField % 2 ^ 31 + dataStartOffset
    else dataOffsetField
  if b.length < dataOffset + actualSize then
    .error "Resource data extends beyond file bounds"
  else
    .ok { tgi := { type, group, inst := instanceHigh * 2 ^ 32 + instanceLow },
          rawData := subarray b dataOffset (dataOffset + actualSize),
          offset := dataOffset, originalOffset := dataOffset,
          compressionFlags, size := actualSize, uncompressedSize, sizeField,
          isCompressed,
          indexEntry := subarray b entryOffset (entryOffset + INDEX_ENTRY_SIZE) }

/-- Loop body of `parseResources`, walking entry `i` with structural fuel
(`entryCount - i` steps suffice).  The first guard is the early `break`
(warning, not an error) when the declared count does not fit inside the
declared index byte size. -/
def parseResourcesFrom (b : List Nat) (m : IndexMetadata) :
    Nat → Nat → Except String (List BinaryResource)
  | _, 0 => .ok []
  | i, fuel + 1 =>
    if i < m.entryCount then
      let entryOffset := m.indexOffset + 4 + i * INDEX_ENTRY_SIZE
      if m.indexOffset + m.indexSize < entryOffset + INDEX_ENTRY_SIZE then
        .ok []
      else if b.length < entryOffset + INDEX_ENTRY_SIZE then
        .error "Index entry extends beyond file bounds"
      else
        match parseResource b entryOffset m.dataStartOffset with
        | .error e => .error e
        | .ok r =>
          match parseResourcesFrom b m (i + 1) fuel with
          | .error e => .error e
          | .ok rest => .ok (r :: rest)
    else .ok []

/-- `parseResources`. -/
def parseResources (b : List Nat) (m : IndexMetadata) :
    Except String (List BinaryResource) :=
  parseResourcesFrom b m 0 m.entryCount

/-- `buildStructure`, parameterised over the digest function `H`
(`createHash('sha256')`).  The returned header is a copy with the declared
entry count overwritten by the number of resources actually parsed. -/
def buildStructure (H : List Nat → List Nat) (b : List Nat) :
    Except String DbpfBinaryStructure :=
  if ¬ ensureMagic b then .error "Invalid DBPF magic"
  else
    match readIndexMetadata b with
    | .error e => .error e
    | .ok m =>
      match parseResources b m with
      | .error e => .error e
      | .ok resources =>
        let header := subarray b 0 HEADER_SIZE
        .ok { filePath := "", sha256 := H b,
              header := writeU32At header resources.length INDEX_ENTRY_COUNT_OFFSET,
              resources,
              indexTable := subarray b m.indexOffset (m.indexOffset + m.indexSize),
              totalSize := b.length,
              indexOffset := m.indexOffset, indexSize := m.indexSize,
              indexFlags := m.indexFlags, dataStartOffset := m.dataStartOffset }

/-- `DbpfBinary.read` on the file's bytes: rejects buffers shorter than the
96-byte header, then parses. -/
def dbpfRead (H : List Nat → List Nat) (b : List Nat) :
    Except String DbpfBinaryStructure :=
  if b.length < HEADER_SIZE then .error "File too small to be DBPF"
  else buildStructure H b

/-- `(x | 0x80000000) >>> 0` on the 32-bit truncation of `x`. -/
def orBit31 (x : Nat) : Nat :=
  if x % 2 ^ 32 < 2 ^ 31 then x % 2 ^ 32 + 2 ^ 31 else x % 2 ^ 32

/-- One 32-byte rebuilt index entry for resource `r` at position `i`, given
the already-decided data-offset value `v` (type, group, instance halves,
offset, size field, uncompressed size, compression flags, two padding
bytes left zero by `Buffer.alloc`). -/
def encodeIndexEntry (r : BinaryResource) (v : Nat) : List Nat :=
  u32Bytes r.tgi.type ++ u32Bytes r.tgi.group ++ u32Bytes (r.tgi.inst / 2 ^ 32) ++
    u32Bytes (r.tgi.inst % 2 ^ 32) ++ u32Bytes v ++ u32Bytes r.sizeField ++
    u32Bytes r.uncompressedSize ++ u16Bytes r.compressionFlags ++ [0, 0]

/-- The data-offset value `rebuildIndexTable` writes for entry `i`: under the
sentinel flags value 4 the relative offset is computed (and its negativity
is a hard error) before entry 0 is special-cased to absolute; any other
flags value writes absolute offsets. -/
def rebuildDataOffsetValue (r : BinaryResource) (i indexFlags dataStartOffset : Nat) :
    Except String Nat :=
  if indexFlags = 4 then
    if r.offset < dataStartOffset then
      .error "Resource offset precedes dataStartOffset"
    else if i = 0 then .ok (r.offset % 2 ^ 32)
    else .ok (orBit31 (r.offset - dataStartOffset))
  else .ok (r.offset % 2 ^ 32)

/-- Entry section of `rebuildIndexTable`, one 32-byte entry per resource. -/
def rebuildIndexEntries (indexFlags dataStartOffset : Nat) :
    List BinaryResource → Nat → Except String (List Nat)
  | [], _ => .ok []
  | r :: rest, i =>
    match rebuildDataOffsetValue r i indexFlags dataStartOffset with
    | .error e => .error e
    | .ok v =>
      match rebuildIndexEntries indexFlags dataStartOffset rest (i + 1) with
      | .error e => .error e
      | .ok tail => .ok (encodeIndexEntry r v ++ tail)

/-- `rebuildIndexTable`: 4-byte flags word followed by the rebuilt entries. -/
def rebuildIndexTable (resources : List BinaryResource)
    (indexFlags dataStartOffset : Nat) : Except String (List Nat) :=
  match rebuildIndexEntries indexFlags dataStartOffset resources 0 with
  | .error e => .error e
  | .ok entries => .ok (u32Bytes indexFlags ++ entries)

/-- `DbpfBinary.write` as the bytes it persists: reuse the original index
table only when its length is `4 + 32 × resourceCount`, else rebuild; data
end is the maximum resource end (at least `dataStartOffset`); the header is
copied and patched with the new entry count, index size and 64-bit index
offset; resources are copied at their offsets and the index table at the
new index offset. -/
def writeDataEnd (s : DbpfBinaryStructure) : Nat :=
  s.resources.foldl (fun m r => max m (r.offset + r.size)) s.dataStartOffset

/-- The buffer `DbpfBinary.write` persists once the index table is chosen:
a zeroed allocation of the new total size receives the header, the four
patched header fields, every resource at its offset, and the index table at
the new index offset (the data end). -/
def assembleWrittenBuffer (s : DbpfBinaryStructure) (indexTableToUse : List Nat) :
    List Nat :=
  let newIndexOffset := writeDataEnd s
  let newTotalSize := newIndexOffset + indexTableToUse.length
  let b0 := List.replicate newTotalSize 0
  let b1 := blit b0 (s.header.take HEADER_SIZE) 0
  let b2 := writeU32At b1 s.resources.length INDEX_ENTRY_COUNT_OFFSET
  let b3 := writeU32At b2 indexTableToUse.length INDEX_SIZE_OFFSET
  let b4 := writeU32At b3 (newIndexOffset % 2 ^ 32) INDEX_OFFSET_LOW
  let b5 := writeU32At b4 (newIndexOffset / 2 ^ 32) INDEX_OFFSET_HIGH
  let b6 := s.resources.foldl (fun acc r => blit acc r.rawData r.offset) b5
  blit b6 indexTableToUse newIndexOffset

def dbpfWrite (s : DbpfBinaryStructure) : Except String (List Nat) :=
  let expectedIndexSize := 4 + s.resources.length * INDEX_ENTRY_SIZE
  let tableE : Except String (List Nat) :=
    if s.indexTable.length = expectedIndexSize then .ok s.indexTable
    else rebuildIndexTable s.resources s.indexFlags s.dataStartOffset
  match tableE with
  | .error e => .error e
  | .ok indexTableToUse => .ok (assembleWrittenBuffer s indexTableToUse)

/-- `DbpfBinary.extractResource`: linear scan for the exact triple; the hit's
payload is returned as a fresh copy (`Buffer.from`), which value semantics
renders as the payload itself. -/
def extractResource (s : DbpfBinaryStructure) (tgi : Tgi) : Option (List Nat) :=
  (s.resources.find? fun r =>
    r.tgi.type == tgi.type && r.tgi.group == tgi.group && r.tgi.inst == tgi.inst).map
    (fun r => r.rawData)

/-! ## Metadata model (`src/types/metadata.ts`)

Base64-transported byte strings (`headerBytes`) are held as the bytes
themselves; SHA-256 hex digests are held as the digest bytes returned by the
collaborator hash function.  `SerializableTgi.instance` is a *decimal
string* in the source ("JSON-serializable TGI. BigInt instance is encoded
as a decimal string."); the string representation is kept here because the
distinction between the string and the bigint it denotes is semantically
significant in `src/merge.ts`. -/

/-- `BigInt(s)` on a canonical decimal string (folded over the string's
characters). -/
def decToNat (s : String) : Nat :=
  s.data.foldl (fun a c => a * 10 + (c.toNat - 48)) 0

/-- JSON-serializable TGI (`SerializableTgi`): numeric type and group, the
64-bit instance as its decimal-string encoding. -/
structure SerializableTgi where
  type : Nat
  group : Nat
  inst : String
deriving DecidableEq, Repr, Inhabited

/-- `ResourceInfo`. -/
structure ResourceInfo where
  tgi : Tgi
  rawDataHash : List Nat
  size : Nat
  originalOffset : Nat
  compressionFlags : Nat
deriving DecidableEq, Repr

/-- `OriginalPackageInfo`. -/
structure OriginalPackageInfo where
  filename : String
  sha256 : List Nat
  headerBytes : List Nat
  resources : List ResourceInfo
  totalSize : Nat
deriving DecidableEq, Repr

/-- `PackageSummary`. -/
structure PackageSummary where
  filename : String
  sha256 : List Nat
  headerBytes : List Nat
  resourceCount : Nat
  totalSize : Nat
deriving DecidableEq, Repr

/-- One entry of a unique resource's `occurrences` list: exactly the two
properties `{ filename, tgi }` that `analyzePackagesForDeduplication`
records. -/
structure Occurrence where
  filename : String
  tgi : SerializableTgi
deriving DecidableEq, Repr, Inhabited

/-- `UniqueResourceInfo` (`size` is "intentionally omitted" by the analyzer,
hence optional). -/
structure UniqueResourceInfo where
  tgi : SerializableTgi
  contentHash : List Nat
  size : Option Nat := none
  compressionFlags : Nat
  sourcePackages : List String
  occurrences : List Occurrence
deriving DecidableEq, Repr

/-- `DeduplicatedMergeMetadata`. -/
structure DeduplicatedMergeMetadata where
  version : String
  originalPackages : List PackageSummary
  uniqueResources : List UniqueResourceInfo
  totalOriginalResources : Nat
  uniqueResourceCount : Nat
  mergedAt : String
deriving DecidableEq, Repr

/-- Reserved TGI for embedded merge metadata
(`src/constants/metadata-tgi.ts`). -/
def METADATA_TGI : Tgi := { type := 0x12345678, group := 0x87654321, inst := 0 }

/-! ## Metadata capture and deduplication analysis (`src/metadata.ts`)

File I/O is factored out: a "file" is a `(filename, bytes)` pair, and the
digest function `H` stands for `createHash('sha256')`.  `mergedAt`
timestamps are ambient inputs. -/

/-- `collectPackageMetadata` on an already-parsed structure. -/
def collectPackageMetadata (H : List Nat → List Nat) (filename : String)
    (s : DbpfBinaryStructure) : OriginalPackageInfo :=
  { filename, sha256 := s.sha256, headerBytes := s.header,
    resources := s.resources.map fun r =>
      { tgi := r.tgi, rawDataHash := H r.rawData, size := r.size,
        originalOffset := r.originalOffset, compressionFlags := r.compressionFlags },
    totalSize := s.totalSize }

/-- `collectPackagesMetadata`: read and summarise every file, failing on the
first unreadable package. -/
def collectPackagesMetadata (H : List Nat → List Nat)
    (files : List (String × List Nat)) : Except String (List OriginalPackageInfo) :=
  files.mapM fun nb => (dbpfRead H nb.2).map (collectPackageMetadata H nb.1)

/-- Working value of the analyzer's `deduplicationMap`. -/
structure DedupEntry where
  compressionFlags : Nat
  sourcePackages : List String
  occurrences : List Occurrence
deriving DecidableEq, Repr

/-- The analyzer's map update for one resource occurrence: JS `Map` keeps
insertion order, a missing key is appended at the end with the occurrence's
compression flags, an existing entry gains the filename in its source set
(only if new, `Set` semantics) and the occurrence at the end of its list. -/
def dedupInsert (m : List (List Nat × DedupEntry)) (key : List Nat)
    (cf : Nat) (filename : String) (tgi : SerializableTgi) :
    List (List Nat × DedupEntry) :=
  match m with
  | [] => [(key, { compressionFlags := cf, sourcePackages := [filename],
                   occurrences := [{ filename, tgi }] })]
  | (k, e) :: rest =>
    if k = key then
      (k, { e with
            sourcePackages :=
              if filename ∈ e.sourcePackages then e.sourcePackages
              else e.sourcePackages ++ [filename],
            occurrences := e.occurrences ++ [{ filename, tgi }] }) :: rest
    else (k, e) :: dedupInsert rest key cf filename tgi

/-- Whether a resource carries the reserved metadata TGI
(`0x12345678:0x87654321:0`), which the analyzer skips. -/
def isReservedMetadataTgi (t : Tgi) : Bool :=
  t.type == 0x12345678 && t.group == 0x87654321 && t.inst == 0

/-- Inner loop of `analyzePackagesForDeduplication` over one package's
resources. -/
def analyzePackage (m : List (List Nat × DedupEntry)) (pkg : OriginalPackageInfo) :
    List (List Nat × DedupEntry) :=
  pkg.resources.foldl
    (fun acc ri =>
      if isReservedMetadataTgi ri.tgi then acc
      else
        dedupInsert acc ri.rawDataHash ri.compressionFlags pkg.filename
          { type := ri.tgi.type, group := ri.tgi.group, inst := toString ri.tgi.inst })
    m

/-- Pure core of `analyzePackagesForDeduplication`, applied to the collected
package metadata: builds the content-hash table and the final metadata
value.  `totalOriginalResources` is incremented by each package's full
resource count before the reserved-TGI skip. -/
def analyzeCore (packageMetadata : List OriginalPackageInfo) (mergedAt : String) :
    DeduplicatedMergeMetadata :=
  let dedupMap := packageMetadata.foldl analyzePackage []
  let totalOriginalResources := (packageMetadata.map (·.resources.length)).sum
  let uniqueResources := dedupMap.map fun ke =>
    { tgi := ke.2.occurrences.headI.tgi, contentHash := ke.1,
      compressionFlags := ke.2.compressionFlags,
      sourcePackages := ke.2.sourcePackages, occurrences := ke.2.occurrences }
  { version := "2.0-deduped",
    originalPackages := packageMetadata.map fun pkg =>
      { filename := pkg.filename, sha256 := pkg.sha256,
        headerBytes := pkg.headerBytes, resourceCount := pkg.resources.length,
        totalSize := pkg.totalSize },
    uniqueResources, totalOriginalResources,
    uniqueResourceCount := uniqueResources.length, mergedAt }

/-- `analyzePackagesForDeduplication` on `(filename, bytes)` inputs. -/
def analyzePackagesForDeduplication (H : List Nat → List Nat)
    (files : List (String × List Nat)) (mergedAt : String) :
    Except String DeduplicatedMergeMetadata :=
  (collectPackagesMetadata H files).map (analyzeCore · mergedAt)

/-! ## Merge assembler, deduplication variant (`src/merge.ts`) -/

/-- JavaScript strict equality `r.tgi.instance === uniqueResource.tgi.instance`
in `assembleDeduplicatedStructure`: the left operand is a `bigint`, the right
one the metadata's decimal *string*; `===` between operands of different
runtime types is false whatever their content. -/
def bigintEqDecString (_x : Nat) (_s : String) : Bool := false

/-- Loop body of `assembleDeduplicatedStructure` over the unique resources:
locate the source structure named first in the record's source list, find the
resource by TGI there, and re-offset it sequentially. -/
def assembleUniqueResources
    (packageStructures : List (String × DbpfBinaryStructure)) :
    List UniqueResourceInfo → Nat → Except String (List BinaryResource)
  | [], _ => .ok []
  | u :: rest, currentOffset =>
    let sourcePackageName := u.sourcePackages.headI
    match packageStructures.lookup sourcePackageName with
    | none => .error "Source package not found for resource"
    | some sourceStructure =>
      match sourceStructure.resources.find? (fun r =>
          r.tgi.type == u.tgi.type && r.tgi.group == u.tgi.group &&
          bigintEqDecString r.tgi.inst u.tgi.inst) with
      | none => .error "Resource not found in source package"
      | some sourceResource =>
        match assembleUniqueResources packageStructures rest
            (currentOffset + sourceResource.size) with
        | .error e => .error e
        | .ok tail =>
          .ok ({ sourceResource with
                 offset := currentOffset,
                 originalOffset := sourceResource.offset } :: tail)

/-- `assembleDeduplicatedStructure`: the first package structure supplies the
header, data-start offset and index flags of the merged container. -/
def assembleDeduplicatedStructure
    (packageStructures : List (String × DbpfBinaryStructure))
    (dedupMetadata : DeduplicatedMergeMetadata) :
    Except String DbpfBinaryStructure :=
  match packageStructures with
  | [] => .error "No package structures to merge"
  | (_, baseStructure) :: _ =>
    match assembleUniqueResources packageStructures dedupMetadata.uniqueResources
        baseStructure.dataStartOffset with
    | .error e => .error e
    | .ok mergedResources =>
      .ok { filePath := "", header := baseStructure.header,
            resources := mergedResources, indexTable := [], totalSize := 0,
            sha256 := [], dataStartOffset := baseStructure.dataStartOffset,
            indexOffset := 0, indexSize := 0,
            indexFlags := baseStructure.indexFlags }

/-- `createMetadataResource`, with the JSON text encoding of the metadata
abstracted as the collaborator function `J`. -/
def createMetadataResource (J : DeduplicatedMergeMetadata → List Nat)
    (dedupMetadata : DeduplicatedMergeMetadata) (offset : Nat) : BinaryResource :=
  let metadataBuffer := J dedupMetadata
  { tgi := METADATA_TGI, rawData := metadataBuffer, offset, originalOffset := offset,
    size := metadataBuffer.length, uncompressedSize := metadataBuffer.length,
    compressionFlags := 0, sizeField := metadataBuffer.length,
    isCompressed := false, indexEntry := [] }

/-- `mergePackages` (deduplication variant), pure pipeline on
`(filename, bytes)` inputs: enumerate, analyze, assemble, place the metadata
resource after the last resource (`resources[resources.length - 1]` is
`undefined` when the list is empty, a TypeError), then serialize via the
codec's write. -/
def mergePackagesCore (H : List Nat → List Nat)
    (J : DeduplicatedMergeMetadata → List Nat)
    (files : List (String × List Nat)) (mergedAt : String) :
    Except String (List Nat) :=
  if files.isEmpty then .error "No .package files found in directory"
  else
    match analyzePackagesForDeduplication H files mergedAt with
    | .error e => .error e
    | .ok dedupMetadata =>
      match files.mapM (fun nb => (dbpfRead H nb.2).map ((nb.1, ·))) with
      | .error e => .error e
      | .ok packageStructures =>
        match assembleDeduplicatedStructure packageStructures dedupMetadata with
        | .error e => .error e
        | .ok mergedStructure =>
          match mergedStructure.resources.getLast? with
          | none => .error "TypeError: lastResource is undefined"
          | some lastResource =>
            let metadataResource := createMetadataResource J dedupMetadata
              (lastResource.offset + lastResource.size)
            dbpfWrite { mergedStructure with
                        resources := mergedStructure.resources ++ [metadataResource] }

/-! ## Reconstruction engine (`src/unmerge.ts`)

`extractDeduplicatedMergeMetadata` parses the embedded JSON and rebuilds
numeric TGIs from their hex/decimal string encodings, so the metadata the
reconstruction loop sees carries numeric `Tgi` values; its occurrence
objects carry exactly the two JSON fields the analyzer wrote, `filename`
and `tgi`. -/

/-- Modelled from the spec: `src/utils/standard-constants.ts` is not among
the provided sources (only its importers are); §6 of the spec fixes the
reserved standard-manifest triple as type `0x7FB6AD8A`, group `0`,
instance `0`. -/
def STANDARD_MANIFEST_TYPE : Nat := 0x7FB6AD8A

/-- Modelled from the spec: group of the reserved standard-manifest triple. -/
def STANDARD_MANIFEST_GROUP : Nat := 0

/-- Modelled from the spec: instance of the reserved standard-manifest
triple. -/
def STANDARD_MANIFEST_INSTANCE : Nat := 0

/-- Result of `detectMergeFormat`. -/
inductive MergeFormat where
  | standard
  | deduplication
  | unknown
deriving DecidableEq, Repr

/-- `detectMergeFormat`: the deduplication-metadata triple has priority over
the standard-manifest triple; neither present is `unknown`. -/
def detectMergeFormat (mergedStructure : DbpfBinaryStructure) : MergeFormat :=
  let hasStandardManifest := mergedStructure.resources.any fun r =>
    r.tgi.type == STANDARD_MANIFEST_TYPE && r.tgi.group == STANDARD_MANIFEST_GROUP &&
      r.tgi.inst == STANDARD_MANIFEST_INSTANCE
  let hasDedupMetadata := mergedStructure.resources.any fun r =>
    r.tgi.type == METADATA_TGI.type && r.tgi.group == METADATA_TGI.group &&
      r.tgi.inst == METADATA_TGI.inst
  if hasDedupMetadata then .deduplication
  else if hasStandardManifest then .standard
  else .unknown

/-- One occurrence as `extractDeduplicatedMergeMetadata` rebuilds it: the
`filename` from the JSON and the TGI converted back to numbers. -/
structure RuntimeOccurrence where
  filename : String
  tgi : Tgi
deriving DecidableEq, Repr

/-- One unique-resource record after metadata extraction. -/
structure RuntimeUniqueResource where
  tgi : Tgi
  contentHash : List Nat
  size : Option Nat := none
  compressionFlags : Nat
  sourcePackages : List String
  occurrences : List RuntimeOccurrence
deriving DecidableEq, Repr

/-- The deduplicated merge metadata after extraction/parsing. -/
structure RuntimeDedupMetadata where
  version : String
  originalPackages : List PackageSummary
  uniqueResources : List RuntimeUniqueResource
  totalOriginalResources : Nat
  uniqueResourceCount : Nat
  mergedAt : String
deriving DecidableEq, Repr

/-- The member access `occurrence.packageSha256` performed by
`reconstructPackage` (src/unmerge.ts, occurrence filter): the occurrence
objects carry only `filename` and `tgi` — neither the `UniqueResourceInfo`
schema nor the analyzer nor the metadata extractor ever supplies a
`packageSha256` property — so the JavaScript access evaluates to
`undefined`, modelled as `none`. -/
def occurrencePackageSha256 (_o : RuntimeOccurrence) : Option (List Nat) := none

/-- `occurrence.packageSha256 === packageSummary.sha256`: `undefined`
compared against the summary's digest string. -/
def occurrenceMatchesPackage (o : RuntimeOccurrence) (packageSha256 : List Nat) : Bool :=
  match occurrencePackageSha256 o with
  | some h => h == packageSha256
  | none => false

/-- JS `Map.set` on an association list: overwrite in place if the key is
present, else append (insertion order preserved). -/
def mapSet (m : List (Tgi × BinaryResource)) (k : Tgi) (v : BinaryResource) :
    List (Tgi × BinaryResource) :=
  match m with
  | [] => [(k, v)]
  | (k0, v0) :: rest =>
    if k0 = k then (k0, v) :: rest else (k0, v0) :: mapSet rest k v

/-- `createTgiToResourceMap`: TGI-keyed lookup over the merged container's
resources, skipping the metadata resource itself.  (The source keys the map
by the string `type:group:instance`, which is in bijection with the numeric
triple.) -/
def createTgiToResourceMap (mergedStructure : DbpfBinaryStructure) :
    List (Tgi × BinaryResource) :=
  mergedStructure.resources.foldl
    (fun m r =>
      if r.tgi.type == METADATA_TGI.type && r.tgi.group == METADATA_TGI.group &&
          r.tgi.inst == METADATA_TGI.inst then m
      else mapSet m r.tgi r)
    []

/-- Resolve one filtered occurrence list against the TGI map, failing on a
missing resource; hits are re-based with a zero offset and their merged
offset remembered in `originalOffset`. -/
def resolveOccurrences (tgiMap : List (Tgi × BinaryResource)) :
    List RuntimeOccurrence → Except String (List BinaryResource)
  | [] => .ok []
  | occ :: rest =>
    match tgiMap.lookup occ.tgi with
    | none => .error "Resource not found in merged package"
    | some mergedResource =>
      match resolveOccurrences tgiMap rest with
      | .error e => .error e
      | .ok tail =>
        .ok ({ mergedResource with
               offset := 0
               originalOffset := mergedResource.offset } :: tail)

/-- `reconstructPackage` (deduplication variant): for every unique resource,
keep the occurrences whose `packageSha256` strictly equals the summary's
hash, resolve them against the TGI map, then build the snapshot around the
original package's 96-byte header. -/
def reconstructPackage (packageSummary : PackageSummary)
    (metadata : RuntimeDedupMetadata) (mergedStructure : DbpfBinaryStructure)
    (tgiMap : List (Tgi × BinaryResource)) : Except String DbpfBinaryStructure :=
  let step : List BinaryResource → RuntimeUniqueResource →
      Except String (List BinaryResource) := fun acc u =>
    let packageOccurrences :=
      u.occurrences.filter (occurrenceMatchesPackage · packageSummary.sha256)
    match resolveOccurrences tgiMap packageOccurrences with
    | .error e => .error e
    | .ok rs => .ok (acc ++ rs)
  match metadata.uniqueResources.foldlM step [] with
  | .error e => .error e
  | .ok packageResources =>
    if packageSummary.headerBytes.length ≠ 96 then
      .error "Invalid header data for package"
    else
      .ok { filePath := "", header := packageSummary.headerBytes,
            resources := packageResources, indexTable := [], totalSize := 0,
            sha256 := [], dataStartOffset := mergedStructure.dataStartOffset,
            indexOffset := 0, indexSize := 0,
            indexFlags := mergedStructure.indexFlags }

/-- Offset pass of `recalculateResourceOffsets`. -/
def recalcGo : Nat → List BinaryResource → List BinaryResource
  | _, [] => []
  | cur, r :: rest => { r with offset := cur } :: recalcGo (cur + r.size) rest

/-- `recalculateResourceOffsets`: sequential placement from the data-start
offset. -/
def recalculateResourceOffsets (s : DbpfBinaryStructure) : DbpfBinaryStructure :=
  { s with resources := recalcGo s.dataStartOffset s.resources }

/-- Candidate output name number `i` for a base name (`base`, `base_1`,
`base_2`, …). -/
def nameCandidate (base : String) (i : Nat) : String :=
  if i = 0 then base else base ++ "_" ++ toString i

/-- The `while (usedNames.has(packageName))` suffix search; `used.length + 1`
candidates always contain a free one, so the fuel never runs out. -/
def findFreeNameGo (base : String) (used : List String) : Nat → Nat → String
  | i, 0 => nameCandidate base i
  | i, fuel + 1 =>
    if nameCandidate base i ∈ used then findFreeNameGo base used (i + 1) fuel
    else nameCandidate base i

/-- Duplicate-name disambiguation of the unmerge loop. -/
def findFreeName (base : String) (used : List String) : String :=
  findFreeNameGo base used 0 (used.length + 1)

/-- Outcome of the unmerge reconstruction loop: the files written so far (in
order, name and bytes) and the error that aborted the loop, if any.  A
thrown `UnmergeError` propagates out of `unmergePackage`, so files written
before it remain on disk and later packages are never attempted. -/
structure UnmergeRun where
  written : List (String × List Nat)
  err : Option String
deriving DecidableEq, Repr

/-- Per-package loop of `unmergePackage` (deduplication format): reconstruct,
disambiguate the name, refuse (by throwing) to overwrite an existing output
file — one already present in the output directory (`existing`) or written
earlier in this same run — then recalculate offsets and write. -/
def unmergeLoopGo (metadata : RuntimeDedupMetadata)
    (mergedStructure : DbpfBinaryStructure)
    (tgiMap : List (Tgi × BinaryResource)) (existing : List String) :
    List PackageSummary → List String → List (String × List Nat) → UnmergeRun
  | [], _, written => { written, err := none }
  | pkg :: rest, usedNames, written =>
    match reconstructPackage pkg metadata mergedStructure tgiMap with
    | .error e => { written, err := some e }
    | .ok reconstructedStructure =>
      let packageName := findFreeName pkg.filename usedNames
      let outputFileName := packageName
      if outputFileName ∈ existing ∨ outputFileName ∈ written.map Prod.fst then
        { written, err := some "Output file already exists" }
      else
        match dbpfWrite (recalculateResourceOffsets reconstructedStructure) with
        | .error e => { written, err := some e }
        | .ok bytes =>
          unmergeLoopGo metadata mergedStructure tgiMap existing rest
            (usedNames ++ [packageName]) (written ++ [(outputFileName, bytes)])

/-- The deduplication-format body of `unmergePackage` after metadata
extraction: build the TGI lookup (empty lookup is fatal), then run the
reconstruction loop over the recorded original packages. -/
def unmergeDedupRun (metadata : RuntimeDedupMetadata)
    (mergedStructure : DbpfBinaryStructure) (existing : List String) : UnmergeRun :=
  let tgiMap := createTgiToResourceMap mergedStructure
  if tgiMap.isEmpty then
    { written := [], err := some "No resources found in merged package" }
  else
    unmergeLoopGo metadata mergedStructure tgiMap existing
      metadata.originalPackages [] []

/-! ## Standard manifest serializer (`src/utils/standard-binary-serializer.ts`,
`src/types/standard-metadata.ts`)

Names are carried as their UTF-8 byte sequences (`Buffer.from(str, 'utf8')`
and `buffer.toString('utf8')` are mutually inverse on valid encodings).
`BigInt(instanceString)` is `decToNat` (canonical decimal strings; invalid
strings are a SyntaxError in the source and are excluded by the
well-formedness hypotheses below). -/

/-- `writeBigUInt64LE`'s byte image (low 64 bits). -/
def u64Bytes (v : Nat) : List Nat :=
  u32Bytes v ++ u32Bytes (v / 2 ^ 32)

/-- `StandardMergedPackage`: a name, the owned identity triples, and the two
optional reconstruction-fidelity fields. -/
structure StandardMergedPackage where
  name : List Nat
  resources : List SerializableTgi
  headerBytes : Option (List Nat) := none
  totalSize : Option Nat := none
deriving DecidableEq, Repr

/-- `StandardMergedFolder`: name, subfolders, packages. -/
inductive StandardMergedFolder where
  | mk (name : List Nat) (folders : List StandardMergedFolder)
       (packages : List StandardMergedPackage)
deriving Repr

/-- Folder name. -/
def StandardMergedFolder.name : StandardMergedFolder → List Nat
  | .mk n _ _ => n

/-- Subfolders. -/
def StandardMergedFolder.folders : StandardMergedFolder → List StandardMergedFolder
  | .mk _ f _ => f

/-- Packages. -/
def StandardMergedFolder.packages : StandardMergedFolder → List StandardMergedPackage
  | .mk _ _ p => p

/-- `StandardMergeManifest`: version and root folder. -/
structure StandardMergeManifest where
  version : Nat
  root : StandardMergedFolder
deriving Repr

/-- `writePascalString32`: 32-bit length prefix then the UTF-8 bytes. -/
def writePascalString32 (s : List Nat) : List Nat :=
  u32Bytes s.length ++ s

/-- One resource record of the package encoding: `u64 instance, u32 type,
u32 group`. -/
def encodeTgi (r : SerializableTgi) : List Nat :=
  u64Bytes (decToNat r.inst) ++ u32Bytes r.type ++ u32Bytes r.group

/-- `writePackage`: name, resource count, then one record per resource. -/
def writePackage (p : StandardMergedPackage) : List Nat :=
  writePascalString32 p.name ++ u32Bytes p.resources.length ++
    (p.resources.map encodeTgi).flatten

mutual

/-- `writeFolder`: name, folder count, folders, package count, packages. -/
def writeFolder : StandardMergedFolder → List Nat
  | .mk name folders packages =>
    writePascalString32 name ++ u32Bytes folders.length ++ writeFolders folders ++
      u32Bytes packages.length ++ (packages.map writePackage).flatten

/-- Depth-first concatenation of sibling folders. -/
def writeFolders : List StandardMergedFolder → List Nat
  | [] => []
  | f :: fs => writeFolder f ++ writeFolders fs

end

/-- `StandardBinarySerializer.serialize`: version then the root folder.  The
source appends into a geometrically grown buffer truncated to the written
length, which is sequential byte emission, i.e. concatenation. -/
def serializeManifest (m : StandardMergeManifest) : List Nat :=
  u32Bytes m.version ++ writeFolder m.root

/-- `readUint32` of the deserializer: consume four bytes
(`readUInt32LE` throws `ERR_OUT_OF_RANGE` past the end). -/
def rdU32 (b : List Nat) : Except String (Nat × List Nat) :=
  if b.length < 4 then .error "Attempt to access memory outside buffer bounds"
  else .ok (readU32 b 0, b.drop 4)

/-- `readUint64` of the deserializer. -/
def rdU64 (b : List Nat) : Except String (Nat × List Nat) :=
  if b.length < 8 then .error "Attempt to access memory outside buffer bounds"
  else .ok (readU32 b 0 + 2 ^ 32 * readU32 b 4, b.drop 8)

/-- `readPascalString32`: length prefix then that many bytes
(`buffer.toString` clamps at the buffer end; the offset still advances by
the full declared length). -/
def rdPascal (b : List Nat) : Except String (List Nat × List Nat) :=
  match rdU32 b with
  | .error e => .error e
  | .ok (n, b1) => .ok (b1.take n, b1.drop n)

/-- `readPackage`'s resource loop: `n` records of `u64 instance, u32 type,
u32 group`, instances re-encoded as decimal strings. -/
def readTgis : Nat → List Nat → Except String (List SerializableTgi × List Nat)
  | 0, b => .ok ([], b)
  | n + 1, b =>
    match rdU64 b with
    | .error e => .error e
    | .ok (instVal, b1) =>
      match rdU32 b1 with
      | .error e => .error e
      | .ok (type, b2) =>
        match rdU32 b2 with
        | .error e => .error e
        | .ok (group, b3) =>
          match readTgis n b3 with
          | .error e => .error e
          | .ok (rest, b4) =>
            .ok ({ type, group, inst := toString instVal } :: rest, b4)

/-- `readPackage`: name, count, resources; the optional `headerBytes` and
`totalSize` fields are not part of the wire format and come back absent. -/
def readPackage (b : List Nat) : Except String (StandardMergedPackage × List Nat) :=
  match rdPascal b with
  | .error e => .error e
  | .ok (name, b1) =>
    match rdU32 b1 with
    | .error e => .error e
    | .ok (resourceCount, b2) =>
      match readTgis resourceCount b2 with
      | .error e => .error e
      | .ok (resources, b3) => .ok ({ name, resources }, b3)

/-- `readPackage` iterated `n` times. -/
def readPackages : Nat → List Nat → Except String (List StandardMergedPackage × List Nat)
  | 0, b => .ok ([], b)
  | n + 1, b =>
    match readPackage b with
    | .error e => .error e
    | .ok (p, b1) =>
      match readPackages n b1 with
      | .error e => .error e
      | .ok (ps, b2) => .ok (p :: ps, b2)

/-- Read `n` sibling folders with the given single-folder reader. -/
def readNFolders (rd : List Nat → Except String (StandardMergedFolder × List Nat)) :
    Nat → List Nat → Except String (List StandardMergedFolder × List Nat)
  | 0, b => .ok ([], b)
  | n + 1, b =>
    match rd b with
    | .error e => .error e
    | .ok (f, b1) =>
      match readNFolders rd n b1 with
      | .error e => .error e
      | .ok (fs, b2) => .ok (f :: fs, b2)

/-- `readFolder`, made total with recursion fuel: each unit of fuel covers
one nesting level (`deserializeManifest` supplies more fuel than any input
can consume, so the fuel case is unreachable there). -/
def readFolderFuel : Nat → List Nat → Except String (StandardMergedFolder × List Nat)
  | 0, _ => .error "recursion fuel exhausted"
  | fuel + 1, b =>
    match rdPascal b with
    | .error e => .error e
    | .ok (name, b1) =>
      match rdU32 b1 with
      | .error e => .error e
      | .ok (folderCount, b2) =>
        match readNFolders (readFolderFuel fuel) folderCount b2 with
        | .error e => .error e
        | .ok (folders, b3) =>
          match rdU32 b3 with
          | .error e => .error e
          | .ok (packageCount, b4) =>
            match readPackages packageCount b4 with
            | .error e => .error e
            | .ok (packages, b5) => .ok (.mk name folders packages, b5)

/-- `StandardBinarySerializer.deserialize`: version then the root folder;
trailing bytes are ignored (the reader is positional with no end check). -/
def deserializeManifest (b : List Nat) : Except String StandardMergeManifest :=
  match rdU32 b with
  | .error e => .error e
  | .ok (version, b1) =>
    match readFolderFuel (b.length + 1) b1 with
    | .error e => .error e
    | .ok (root, _) => .ok { version, root }

/-! ## Shared byte-level lemmas -/

theorem readU32_u32Bytes_append (v : Nat) (rest : List Nat) :
    readU32 (u32Bytes v ++ rest) 0 = v % 2 ^ 32 := by
  simp [readU32, u32Bytes, byteAt]
  omega

theorem byteAt_append (a b : List Nat) (i : Nat) :
    byteAt (a ++ b) i =
      if i < a.length then byteAt a i else byteAt b (i - a.length) := by
  unfold byteAt
  rcases lt_or_le i a.length with h | h
  · rw [List.getD_eq_getElem?_getD, List.getElem?_append_left h, if_pos h]
    exact (List.getD_eq_getElem?_getD ..).symm
  · rw [List.getD_eq_getElem?_getD, List.getElem?_append_right h, if_neg (by omega)]
    exact (List.getD_eq_getElem?_getD ..).symm

theorem readU32_append_right (a b : List Nat) (off : Nat) (h : a.length ≤ off) :
    readU32 (a ++ b) off = readU32 b (off - a.length) := by
  simp only [readU32, byteAt_append]
  rw [if_neg (by omega), if_neg (by omega), if_neg (by omega), if_neg (by omega)]
  have e1 : off + 1 - a.length = off - a.length + 1 := by omega
  have e2 : off + 2 - a.length = off - a.length + 2 := by omega
  have e3 : off + 3 - a.length = off - a.length + 3 := by omega
  rw [e1, e2, e3]

theorem readU32_append_left (a b : List Nat) (off : Nat) (h : off + 4 ≤ a.length) :
    readU32 (a ++ b) off = readU32 a off := by
  simp only [readU32, byteAt_append]
  rw [if_pos (by omega), if_pos (by omega), if_pos (by omega), if_pos (by omega)]

theorem byteAt_lt_of_bytes (b : List Nat) (i : Nat) (hb : ∀ x ∈ b, x < 256) :
    byteAt b i < 256 := by
  rcases lt_or_le i b.length with h | h
  · unfold byteAt
    rw [List.getD_eq_getElem?_getD, List.getElem?_eq_getElem h]
    exact hb _ (List.getElem_mem h)
  · rw [byteAt_eq_zero_of_le b i h]
    omega

theorem readU32_lt_of_bytes (b : List Nat) (off : Nat) (hb : ∀ x ∈ b, x < 256) :
    readU32 b off < 2 ^ 32 := by
  have h0 := byteAt_lt_of_bytes b off hb
  have h1 := byteAt_lt_of_bytes b (off + 1) hb
  have h2 := byteAt_lt_of_bytes b (off + 2) hb
  have h3 := byteAt_lt_of_bytes b (off + 3) hb
  simp only [readU32]
  omega

theorem readU32_writeU32At_same (b : List Nat) (v off : Nat)
    (h : off + 4 ≤ b.length) :
    readU32 (writeU32At b v off) off = v % 2 ^ 32 := by
  simp only [readU32, writeU32At, byteAt_blit, u32Bytes_length]
  rw [if_pos (by omega), if_pos (by omega), if_pos (by omega), if_pos (by omega)]
  rw [if_pos (by omega), if_pos (by omega), if_pos (by omega), if_pos (by omega)]
  have e0 : off - off = 0 := by omega
  have e1 : off + 1 - off = 1 := by omega
  have e2 : off + 2 - off = 2 := by omega
  have e3 : off + 3 - off = 3 := by omega
  rw [e0, e1, e2, e3]
  simp [u32Bytes, byteAt]
  omega

theorem byteAt_writeU32At_outside (b : List Nat) (v off i : Nat)
    (h : i < off ∨ off + 4 ≤ i) :
    byteAt (writeU32At b v off) i = if i < b.length then byteAt b i else 0 := by
  simp only [writeU32At, byteAt_blit, u32Bytes_length]
  rcases lt_or_le i b.length with hl | hl
  · rw [if_pos hl, if_pos hl, if_neg (by omega)]
  · rw [if_neg (by omega), if_neg (by omega)]

theorem orBit31_lt (x : Nat) : orBit31 x < 2 ^ 32 := by
  unfold orBit31
  split <;> omega

/-! ## C7: writer offset-encoding policy -/

theorem encodeIndexEntry_length (r : BinaryResource) (v : Nat) :
    (encodeIndexEntry r v).length = 32 := by
  simp [encodeIndexEntry, u32Bytes, u16Bytes]

theorem readU32_encodeIndexEntry_16 (r : BinaryResource) (v : Nat)
    (rest : List Nat) :
    readU32 (encodeIndexEntry r v ++ rest) 16 = v % 2 ^ 32 := by
  unfold encodeIndexEntry
  simp only [List.append_assoc]
  rw [readU32_append_right _ _ 16 (by simp [u32Bytes])]
  simp only [u32Bytes_length]
  rw [show (16 - 4 : Nat) = 12 from rfl]
  rw [readU32_append_right _ _ 12 (by simp [u32Bytes])]
  simp only [u32Bytes_length]
  rw [show (12 - 4 : Nat) = 8 from rfl]
  rw [readU32_append_right _ _ 8 (by simp [u32Bytes])]
  simp only [u32Bytes_length]
  rw [show (8 - 4 : Nat) = 4 from rfl]
  rw [readU32_append_right _ _ 4 (by simp [u32Bytes])]
  simp only [u32Bytes_length]
  rw [show (4 - 4 : Nat) = 0 from rfl]
  exact readU32_u32Bytes_append v _

theorem rebuildIndexEntries_spec (flags ds : Nat) :
    ∀ (rs : List BinaryResource) (i : Nat) (es : List Nat),
      rebuildIndexEntries flags ds rs i = .ok es →
      es.length = 32 * rs.length ∧
      ∀ j (hj : j < rs.length),
        readU32 es (32 * j + 16) =
          (if flags = 4 then
            (if i + j = 0 then (rs.get ⟨j, hj⟩).offset % 2 ^ 32
             else orBit31 ((rs.get ⟨j, hj⟩).offset - ds))
           else (rs.get ⟨j, hj⟩).offset % 2 ^ 32) := by
  intro rs
  induction rs with
  | nil =>
    intro i es h
    simp only [rebuildIndexEntries, Except.ok.injEq] at h
    subst h
    refine ⟨by simp, ?_⟩
    intro j hj
    exact absurd hj (by simp)
  | cons r rest ih =>
    intro i es h
    unfold rebuildIndexEntries at h
    cases hv : rebuildDataOffsetValue r i flags ds with
    | error e => rw [hv] at h; exact absurd h (by simp)
    | ok v =>
      rw [hv] at h
      cases ht : rebuildIndexEntries flags ds rest (i + 1) with
      | error e => rw [ht] at h; exact absurd h (by simp)
      | ok tail =>
        rw [ht] at h
        simp only [Except.ok.injEq] at h
        subst h
        obtain ⟨hlen, hread⟩ := ih (i + 1) tail ht
        have hv31 : v < 2 ^ 32 := by
          unfold rebuildDataOffsetValue at hv
          by_cases h4 : flags = 4
          · rw [if_pos h4] at hv
            by_cases hlt : r.offset < ds
            · rw [if_pos hlt] at hv; exact absurd hv (by simp)
            · rw [if_neg hlt] at hv
              by_cases hi0 : i = 0
              · rw [if_pos hi0] at hv
                simp only [Except.ok.injEq] at hv
                omega
              · rw [if_neg hi0] at hv
                simp only [Except.ok.injEq] at hv
                have := orBit31_lt (r.offset - ds)
                omega
          · rw [if_neg h4] at hv
            simp only [Except.ok.injEq] at hv
            omega
        constructor
        · simp [encodeIndexEntry_length, hlen, List.length_append]
          ring
        · intro j hj
          cases j with
          | zero =>
            rw [show 32 * 0 + 16 = 16 by norm_num, readU32_encodeIndexEntry_16]
            unfold rebuildDataOffsetValue at hv
            rw [show (r :: rest).get ⟨0, hj⟩ = r from rfl]
            simp only [Nat.add_zero]
            by_cases h4 : flags = 4
            · rw [if_pos h4] at hv ⊢
              by_cases hlt : r.offset < ds
              · rw [if_pos hlt] at hv; exact absurd hv (by simp)
              · rw [if_neg hlt] at hv
                by_cases hi0 : i = 0
                · rw [if_pos hi0] at hv
                  simp only [Except.ok.injEq] at hv
                  rw [if_pos hi0, ← hv]
                  omega
                · rw [if_neg hi0] at hv
                  simp only [Except.ok.injEq] at hv
                  rw [if_neg hi0, ← hv]
                  have hob := orBit31_lt (r.offset - ds)
                  omega
            · rw [if_neg h4] at hv ⊢
              simp only [Except.ok.injEq] at hv
              rw [← hv]
              omega
          | succ j' =>
            have hj' : j' < rest.length := by simpa using hj
            have e1 : 32 * (j' + 1) + 16 = 32 + (32 * j' + 16) := by ring
            rw [e1, readU32_append_right _ _ _ (by rw [encodeIndexEntry_length]; omega)]
            rw [encodeIndexEntry_length]
            have e2 : 32 + (32 * j' + 16) - 32 = 32 * j' + 16 := by omega
            rw [e2]
            have := hread j' hj'
            rw [show (r :: rest).get ⟨j' + 1, hj⟩ = rest.get ⟨j', hj'⟩ from rfl]
            rw [this]
            have e3 : i + 1 + j' = i + (j' + 1) := by ring
            rw [e3]

/-- C7: when `Write` rebuilds the index table, entry offsets are encoded from
the single global index-flags value: with the sentinel value 4, entry 0 is
written as an absolute data offset and every later entry as a
data-start-relative offset with the top bit set; any other flags value
writes absolute offsets for every entry. -/
theorem rebuildIndexTable_offset_policy (resources : List BinaryResource)
    (indexFlags dataStartOffset : Nat) (t : List Nat)
    (h : rebuildIndexTable resources indexFlags dataStartOffset = .ok t) :
    ∀ i (hi : i < resources.length),
      readU32 t (4 + 32 * i + 16) =
        (if indexFlags = 4 then
           (if i = 0 then (resources.get ⟨i, hi⟩).offset % 2 ^ 32
            else orBit31 ((resources.get ⟨i, hi⟩).offset - dataStartOffset))
         else (resources.get ⟨i, hi⟩).offset % 2 ^ 32) := by
  intro i hi
  unfold rebuildIndexTable at h
  cases he : rebuildIndexEntries indexFlags dataStartOffset resources 0 with
  | error e => rw [he] at h; exact absurd h (by simp)
  | ok entries =>
    rw [he] at h
    simp only [Except.ok.injEq] at h
    subst h
    obtain ⟨_, hread⟩ := rebuildIndexEntries_spec indexFlags dataStartOffset resources 0 entries he
    rw [show 4 + 32 * i + 16 = 4 + (32 * i + 16) by ring]
    rw [readU32_append_right _ _ _ (by simp [u32Bytes])]
    simp only [u32Bytes_length]
    rw [show 4 + (32 * i + 16) - 4 = 32 * i + 16 by omega]
    have := hread i hi
    simpa using this

/-- A plain uncompressed resource value, used by concrete examples. -/
def mkPlainResource (t : Tgi) (off sz : Nat) : BinaryResource :=
  { tgi := t, rawData := List.replicate sz 65, offset := off, originalOffset := off,
    compressionFlags := 0, size := sz, uncompressedSize := sz, sizeField := sz,
    isCompressed := false, indexEntry := [] }

/-- Two-resource input of the concrete offset-encoding example. -/
def c7resources : List BinaryResource :=
  [mkPlainResource ⟨1, 2, 3⟩ 96 4, mkPlainResource ⟨4, 5, 6⟩ 100 8]

/-- The index table rebuilt for `c7resources` under the sentinel flags. -/
def c7table : List Nat :=
  match rebuildIndexTable c7resources 4 96 with
  | .ok t => t
  | .error _ => []

/-- Witness for the offset-encoding policy: under sentinel flags 4, entry 0
is absolute (96) and entry 1 relative-with-top-bit (`orBit31 4`). -/
theorem rebuildIndexTable_offset_policy_witness :
    readU32 c7table (4 + 32 * 0 + 16) = 96 % 2 ^ 32 ∧
    readU32 c7table (4 + 32 * 1 + 16) = orBit31 (100 - 96) := by
  have h : rebuildIndexTable c7resources 4 96 = .ok c7table := rfl
  refine ⟨?_, ?_⟩
  · have h0 := rebuildIndexTable_offset_policy c7resources 4 96 c7table h 0 (by decide)
    simpa [c7resources, mkPlainResource] using h0
  · have h1 := rebuildIndexTable_offset_policy c7resources 4 96 c7table h 1 (by decide)
    simpa [c7resources, mkPlainResource] using h1

/-! ## C9: merge-format detection -/

/-- Presence of the reserved standard-manifest triple among a snapshot's
resources (the first `some` check of `detectMergeFormat`). -/
def hasStandardManifestResource (s : DbpfBinaryStructure) : Bool :=
  s.resources.any fun r =>
    r.tgi.type == STANDARD_MANIFEST_TYPE && r.tgi.group == STANDARD_MANIFEST_GROUP &&
      r.tgi.inst == STANDARD_MANIFEST_INSTANCE

/-- Presence of the reserved deduplication-metadata triple among a snapshot's
resources (the second `some` check of `detectMergeFormat`). -/
def hasDedupMetadataResource (s : DbpfBinaryStructure) : Bool :=
  s.resources.any fun r =>
    r.tgi.type == METADATA_TGI.type && r.tgi.group == METADATA_TGI.group &&
      r.tgi.inst == METADATA_TGI.inst

/-- C9: `detectMergeFormat` classifies as deduplication whenever the reserved
deduplication-metadata triple is present (even alongside the standard
triple), as standard when only the standard triple is present, as unknown
when neither is, and it is deterministic on a snapshot. -/
theorem detectMergeFormat_priority_and_idempotent (s : DbpfBinaryStructure) :
    (hasDedupMetadataResource s = true →
      detectMergeFormat s = .deduplication) ∧
    (hasDedupMetadataResource s = false → hasStandardManifestResource s = true →
      detectMergeFormat s = .standard) ∧
    (hasDedupMetadataResource s = false → hasStandardManifestResource s = false →
      detectMergeFormat s = .unknown) ∧
    detectMergeFormat s = detectMergeFormat s := by
  refine ⟨?_, ?_, ?_, rfl⟩
  · intro h1
    unfold hasDedupMetadataResource at h1
    simp only [detectMergeFormat, h1, if_true]
  · intro h1 h2
    unfold hasDedupMetadataResource at h1
    unfold hasStandardManifestResource at h2
    simp only [detectMergeFormat, h1, h2, Bool.false_eq_true, if_false, if_true]
  · intro h1 h2
    unfold hasDedupMetadataResource at h1
    unfold hasStandardManifestResource at h2
    simp only [detectMergeFormat, h1, h2, Bool.false_eq_true, if_false]

/-- A snapshot carrying both reserved triples. -/
def c9bothSnapshot : DbpfBinaryStructure :=
  { filePath := "", sha256 := [], header := [],
    resources := [mkPlainResource METADATA_TGI 96 1,
                  mkPlainResource ⟨STANDARD_MANIFEST_TYPE, STANDARD_MANIFEST_GROUP,
                                   STANDARD_MANIFEST_INSTANCE⟩ 97 1],
    indexTable := [], totalSize := 0, indexOffset := 0, indexSize := 0,
    indexFlags := 0, dataStartOffset := 96 }

/-- Witness: with both triples present the deduplication format wins. -/
theorem detectMergeFormat_priority_witness :
    detectMergeFormat c9bothSnapshot = .deduplication :=
  (detectMergeFormat_priority_and_idempotent c9bothSnapshot).1 (by decide)

/-! ## C10: extractResource -/

theorem find?_first_of_prefix {α : Type} (p : α → Bool) (l1 : List α) (r : α)
    (l2 : List α) (hnone : ∀ x ∈ l1, p x = false) (hr : p r = true) :
    (l1 ++ r :: l2).find? p = some r := by
  induction l1 with
  | nil => exact List.find?_cons_of_pos _ hr
  | cons x xs ih =>
    rw [List.cons_append,
      List.find?_cons_of_neg _ (by simp [hnone x (List.mem_cons_self x xs)])]
    exact ih fun y hy => hnone y (List.mem_cons_of_mem x hy)

theorem tgi_match_iff (r : BinaryResource) (t : Tgi) :
    (r.tgi.type == t.type && r.tgi.group == t.group && r.tgi.inst == t.inst) = true ↔
      r.tgi = t := by
  cases ht : r.tgi
  cases t
  simp [Tgi.mk.injEq]
  tauto

/-- C10: `extractResource` returns `none` exactly when no resource matches
the triple on all three fields, and otherwise the payload of the first
match in index order (a fresh copy in the source, indistinguishable from
the payload under value semantics). -/
theorem extractResource_first_match (s : DbpfBinaryStructure) (t : Tgi) :
    (extractResource s t = none ↔ ∀ r ∈ s.resources, r.tgi ≠ t) ∧
    (∀ (l1 : List BinaryResource) (r : BinaryResource) (l2 : List BinaryResource),
      s.resources = l1 ++ r :: l2 → (∀ r' ∈ l1, r'.tgi ≠ t) → r.tgi = t →
      extractResource s t = some r.rawData) := by
  constructor
  · unfold extractResource
    rw [Option.map_eq_none', List.find?_eq_none]
    constructor
    · intro h r hr he
      exact absurd ((tgi_match_iff r t).mpr he) (by simpa using h r hr)
    · intro h r hr hp
      exact h r hr ((tgi_match_iff r t).mp hp)
  · intro l1 r l2 hsplit hnone hmatch
    unfold extractResource
    rw [hsplit]
    have h1 : (l1 ++ r :: l2).find? (fun r' =>
        r'.tgi.type == t.type && r'.tgi.group == t.group && r'.tgi.inst == t.inst) =
        some r := by
      apply find?_first_of_prefix
      · intro x hx
        cases hb : (x.tgi.type == t.type && x.tgi.group == t.group &&
            x.tgi.inst == t.inst) with
        | false => rfl
        | true => exact absurd ((tgi_match_iff x t).mp hb) (hnone x hx)
      · exact (tgi_match_iff r t).mpr hmatch
    rw [h1]
    rfl

/-- Witness for `extractResource`: in a snapshot whose second resource is the
first match, the returned bytes are that resource's payload. -/
theorem extractResource_first_match_witness :
    extractResource c9bothSnapshot ⟨STANDARD_MANIFEST_TYPE, STANDARD_MANIFEST_GROUP,
        STANDARD_MANIFEST_INSTANCE⟩ = some [65] := by
  have h := (extractResource_first_match c9bothSnapshot
    ⟨STANDARD_MANIFEST_TYPE, STANDARD_MANIFEST_GROUP, STANDARD_MANIFEST_INSTANCE⟩).2
    [mkPlainResource METADATA_TGI 96 1]
    (mkPlainResource ⟨STANDARD_MANIFEST_TYPE, STANDARD_MANIFEST_GROUP,
                      STANDARD_MANIFEST_INSTANCE⟩ 97 1)
    [] rfl (by decide) rfl
  simpa [mkPlainResource] using h

/-! ## C6: early index truncation and header entry-count patching -/

theorem readIndexMetadata_ok_inv (b : List Nat) (m : IndexMetadata)
    (h : readIndexMetadata b = .ok m) :
    m.entryCount = readU32 b INDEX_ENTRY_COUNT_OFFSET ∧
    m.indexSize = readU32 b INDEX_SIZE_OFFSET ∧
    m.indexOffset = readU32 b INDEX_OFFSET_LOW + readU32 b INDEX_OFFSET_HIGH * 2 ^ 32 ∧
    m.dataStartOffset =
      (if readU32 b DATA_OFFSET = 0 then 0x60 else readU32 b DATA_OFFSET) ∧
    m.indexFlags = readU32 b m.indexOffset ∧
    m.indexOffset + 4 ≤ b.length ∧ 4 ≤ m.indexSize ∧
    m.indexOffset + m.indexSize ≤ b.length := by
  unfold readIndexMetadata at h
  dsimp only at h
  split at h
  · exact absurd h (by simp)
  · split at h
    · exact absurd h (by simp)
    · split at h
      · exact absurd h (by simp)
      · simp only [Except.ok.injEq] at h
        subst h
        dsimp only
        refine ⟨rfl, rfl, rfl, rfl, rfl, ?_, ?_, ?_⟩ <;> omega

theorem dbpfRead_ok_inv (H : List Nat → List Nat) (b : List Nat)
    (s : DbpfBinaryStructure) (h : dbpfRead H b = .ok s) :
    ∃ m, readIndexMetadata b = .ok m ∧ parseResources b m = .ok s.resources ∧
      s.header = writeU32At (subarray b 0 HEADER_SIZE) s.resources.length
        INDEX_ENTRY_COUNT_OFFSET ∧
      s.indexOffset = m.indexOffset ∧ s.indexSize = m.indexSize ∧
      s.indexFlags = m.indexFlags ∧ s.dataStartOffset = m.dataStartOffset ∧
      s.totalSize = b.length ∧ s.sha256 = H b ∧
      s.indexTable = subarray b m.indexOffset (m.indexOffset + m.indexSize) ∧
      HEADER_SIZE ≤ b.length ∧ ensureMagic b = true := by
  unfold dbpfRead at h
  split at h
  · exact absurd h (by simp)
  · unfold buildStructure at h
    split at h
    · exact absurd h (by simp)
    · rename_i hlen hmagic
      cases hm : readIndexMetadata b with
      | error e => rw [hm] at h; exact absurd h (by simp)
      | ok m =>
        rw [hm] at h
        dsimp only at h
        cases hp : parseResources b m with
        | error e => rw [hp] at h; exact absurd h (by simp)
        | ok resources =>
          rw [hp] at h
          dsimp only at h
          simp only [Except.ok.injEq] at h
          subst h
          exact ⟨m, rfl, hp, rfl, rfl, rfl, rfl, rfl, rfl, rfl, rfl, by omega,
            by simpa using hmagic⟩

theorem parseResourcesFrom_length (b : List Nat) (m : IndexMetadata)
    (hsz : 4 ≤ m.indexSize) :
    ∀ (fuel i : Nat) (rs : List BinaryResource), m.entryCount ≤ i + fuel →
      parseResourcesFrom b m i fuel = .ok rs →
      rs.length = min m.entryCount ((m.indexSize - 4) / 32) - i := by
  intro fuel
  induction fuel with
  | zero =>
    intro i rs hle h
    simp only [parseResourcesFrom, Except.ok.injEq] at h
    subst h
    simp only [List.length_nil]
    omega
  | succ fuel ih =>
    intro i rs hle h
    unfold parseResourcesFrom at h
    by_cases hcnt : i < m.entryCount
    · rw [if_pos hcnt] at h
      by_cases hbreak : m.indexOffset + m.indexSize <
          m.indexOffset + 4 + i * INDEX_ENTRY_SIZE + INDEX_ENTRY_SIZE
      · rw [if_pos hbreak] at h
        simp only [Except.ok.injEq] at h
        subst h
        simp only [List.length_nil, INDEX_ENTRY_SIZE] at hbreak ⊢
        omega
      · rw [if_neg hbreak] at h
        split at h
        · exact absurd h (by simp)
        · cases hpr : parseResource b (m.indexOffset + 4 + i * INDEX_ENTRY_SIZE)
              m.dataStartOffset with
          | error e => rw [hpr] at h; exact absurd h (by simp)
          | ok r =>
            rw [hpr] at h
            cases hrest : parseResourcesFrom b m (i + 1) fuel with
            | error e => rw [hrest] at h; exact absurd h (by simp)
            | ok rest =>
              rw [hrest] at h
              simp only [Except.ok.injEq] at h
              subst h
              have := ih (i + 1) rest (by omega) hrest
              simp only [List.length_cons, this, INDEX_ENTRY_SIZE] at hbreak ⊢
              omega
    · rw [if_neg hcnt] at h
      simp only [Except.ok.injEq] at h
      subst h
      simp only [List.length_nil]
      omega

/-- C6: whenever `Read` accepts a buffer, the number of resources parsed is
the declared entry count truncated to how many 32-byte entries fit inside
the declared index byte size (the loop stops early with a warning rather
than failing), and the returned header's declared entry-count field is
overwritten with that number. -/
theorem dbpfRead_truncates_and_patches_count (H : List Nat → List Nat)
    (b : List Nat) (s : DbpfBinaryStructure) (hb : ∀ x ∈ b, x < 256)
    (h : dbpfRead H b = .ok s) :
    s.resources.length =
      min (readU32 b INDEX_ENTRY_COUNT_OFFSET)
        ((readU32 b INDEX_SIZE_OFFSET - 4) / 32) ∧
    readU32 s.header INDEX_ENTRY_COUNT_OFFSET = s.resources.length := by
  obtain ⟨m, hm, hp, hhdr, -, -, -, -, hlen96, -, -, hblen, -⟩ :=
    dbpfRead_ok_inv H b s h
  obtain ⟨hcnt, hsz, -, -, -, -, hsz4, -⟩ := readIndexMetadata_ok_inv b m hm
  have hcount : s.resources.length =
      min m.entryCount ((m.indexSize - 4) / 32) - 0 :=
    parseResourcesFrom_length b m hsz4 m.entryCount 0 s.resources (by omega) hp
  have hcap : (m.indexSize - 4) / 32 < 2 ^ 32 := by
    have := readU32_lt_of_bytes b INDEX_SIZE_OFFSET hb
    omega
  constructor
  · rw [hcount, ← hcnt, ← hsz]
    omega
  · rw [hhdr]
    have hsub : (subarray b 0 HEADER_SIZE).length = HEADER_SIZE := by
      rw [subarray_length b 0 HEADER_SIZE hblen]
      rfl
    rw [readU32_writeU32At_same _ _ _ (by rw [hsub]; unfold HEADER_SIZE INDEX_ENTRY_COUNT_OFFSET; omega)]
    have : s.resources.length < 2 ^ 32 := by omega
    omega

/-- Concrete container whose header declares five index entries while its
index byte size only fits one. -/
def c6buf : List Nat :=
  writeU32At (writeU32At (writeU32At (blit (List.replicate 96 0) dbpfMagic 0)
      5 0x24) 36 0x2c) 100 0x40 ++
    [65, 66, 67, 68] ++ u32Bytes 0 ++
    (u32Bytes 0x11 ++ u32Bytes 0x22 ++ u32Bytes 0 ++ u32Bytes 0x33 ++ u32Bytes 96 ++
      u32Bytes 4 ++ u32Bytes 4 ++ u16Bytes 0 ++ [0, 0])

/-- The snapshot `Read` produces for `c6buf`. -/
def c6s : DbpfBinaryStructure :=
  match dbpfRead (fun b => b) c6buf with
  | .ok s => s
  | .error _ =>
    { filePath := "", sha256 := [], header := [], resources := [], indexTable := [],
      totalSize := 0, indexOffset := 0, indexSize := 0, indexFlags := 0,
      dataStartOffset := 0 }

set_option maxRecDepth 8000 in
/-- Witness: `c6buf` is accepted (warning, not error), exactly one entry is
parsed of the five declared, and the header is patched accordingly. -/
theorem dbpfRead_truncates_and_patches_count_witness :
    c6s.resources.length =
      min (readU32 c6buf INDEX_ENTRY_COUNT_OFFSET)
        ((readU32 c6buf INDEX_SIZE_OFFSET - 4) / 32) ∧
    readU32 c6s.header INDEX_ENTRY_COUNT_OFFSET = c6s.resources.length :=
  dbpfRead_truncates_and_patches_count (fun b => b) c6buf c6s (by decide) rfl

/-! ## C8: analyzer counting invariants -/

/-- Total length of all occurrence lists in the analyzer's working map. -/
def mapOccSum (m : List (List Nat × DedupEntry)) : Nat :=
  (m.map fun ke => ke.2.occurrences.length).sum

theorem dedupInsert_occSum (m : List (List Nat × DedupEntry)) (key : List Nat)
    (cf : Nat) (fn : String) (tgi : SerializableTgi) :
    mapOccSum (dedupInsert m key cf fn tgi) = mapOccSum m + 1 := by
  induction m with
  | nil => simp [dedupInsert, mapOccSum]
  | cons ke rest ih =>
    obtain ⟨k, e⟩ := ke
    by_cases hk : k = key
    · simp only [dedupInsert, if_pos hk, mapOccSum, List.map_cons, List.sum_cons]
      simp
      omega
    · simp only [dedupInsert, if_neg hk, mapOccSum, List.map_cons, List.sum_cons]
      have := ih
      simp only [mapOccSum] at this
      omega

theorem dedupInsert_length_le (m : List (List Nat × DedupEntry)) (key : List Nat)
    (cf : Nat) (fn : String) (tgi : SerializableTgi) :
    (dedupInsert m key cf fn tgi).length ≤ m.length + 1 := by
  induction m with
  | nil => simp [dedupInsert]
  | cons ke rest ih =>
    obtain ⟨k, e⟩ := ke
    by_cases hk : k = key
    · simp [dedupInsert, if_pos hk]
    · simp only [dedupInsert, if_neg hk, List.length_cons]
      omega

theorem analyzePackage_occSum (pkg : OriginalPackageInfo) :
    ∀ m, mapOccSum (analyzePackage m pkg) =
      mapOccSum m + (pkg.resources.filter fun ri => !(isReservedMetadataTgi ri.tgi)).length := by
  unfold analyzePackage
  generalize pkg.resources = l
  induction l with
  | nil => intro m; simp
  | cons ri rest ih =>
    intro m
    rw [List.foldl_cons, List.filter_cons]
    by_cases hres : isReservedMetadataTgi ri.tgi
    · rw [if_pos hres, if_neg (by simp [hres])]
      exact ih m
    · rw [if_neg hres, if_pos (by simp [hres])]
      rw [ih _, dedupInsert_occSum]
      simp only [List.length_cons]
      omega

theorem analyzePackage_length_le (pkg : OriginalPackageInfo) :
    ∀ m, (analyzePackage m pkg).length ≤
      m.length + (pkg.resources.filter fun ri => !(isReservedMetadataTgi ri.tgi)).length := by
  unfold analyzePackage
  generalize pkg.resources = l
  induction l with
  | nil => intro m; simp
  | cons ri rest ih =>
    intro m
    rw [List.foldl_cons, List.filter_cons]
    by_cases hres : isReservedMetadataTgi ri.tgi
    · rw [if_pos hres, if_neg (by simp [hres])]
      exact ih m
    · rw [if_neg hres, if_pos (by simp [hres])]
      have h1 := ih (dedupInsert m ri.rawDataHash ri.compressionFlags pkg.filename
        { type := ri.tgi.type, group := ri.tgi.group, inst := toString ri.tgi.inst })
      have h2 := dedupInsert_length_le m ri.rawDataHash ri.compressionFlags pkg.filename
        { type := ri.tgi.type, group := ri.tgi.group, inst := toString ri.tgi.inst }
      simp only [List.length_cons]
      omega

/-- Number of resources across the collected packages that carry the reserved
metadata TGI (excluded by the analyzer). -/
def excludedCount (pkgs : List OriginalPackageInfo) : Nat :=
  (pkgs.map fun p => (p.resources.filter fun ri => isReservedMetadataTgi ri.tgi).length).sum

theorem length_filter_split {α : Type} (p : α → Bool) (l : List α) :
    (l.filter fun a => !(p a)).length + (l.filter p).length = l.length := by
  induction l with
  | nil => simp
  | cons a l ih =>
    by_cases h : p a <;> simp only [List.filter_cons, h] <;> simp <;> omega

theorem analyzeFold_counts (pkgs : List OriginalPackageInfo) :
    ∀ m, mapOccSum (pkgs.foldl analyzePackage m) =
        mapOccSum m + ((pkgs.map fun p => p.resources.length).sum - excludedCount pkgs) ∧
      excludedCount pkgs ≤ (pkgs.map fun p => p.resources.length).sum ∧
      (pkgs.foldl analyzePackage m).length ≤
        m.length + ((pkgs.map fun p => p.resources.length).sum - excludedCount pkgs) := by
  induction pkgs with
  | nil => intro m; refine ⟨by simp, by simp [excludedCount], by simp⟩
  | cons pkg rest ih =>
    intro m
    rw [List.foldl_cons]
    obtain ⟨ih1, ih2, ih3⟩ := ih (analyzePackage m pkg)
    have hocc := analyzePackage_occSum pkg m
    have hlen := analyzePackage_length_le pkg m
    have hsplit : (pkg.resources.filter fun ri => !(isReservedMetadataTgi ri.tgi)).length +
        (pkg.resources.filter fun ri => isReservedMetadataTgi ri.tgi).length =
        pkg.resources.length := by
      exact length_filter_split (fun ri => isReservedMetadataTgi ri.tgi) pkg.resources
    have hex : excludedCount (pkg :: rest) =
        (pkg.resources.filter fun ri => isReservedMetadataTgi ri.tgi).length +
          excludedCount rest := by
      simp [excludedCount]
    have hsum : ((pkg :: rest).map fun p => p.resources.length).sum =
        pkg.resources.length + ((rest.map fun p => p.resources.length).sum) := by
      simp
    refine ⟨?_, ?_, ?_⟩ <;> rw [hex, hsum] <;> omega

/-- C8 (amended): for any set of source containers the analyzer accepts,
`uniqueResourceCount ≤ totalOriginalResources`, and the occurrence lists sum
to `totalOriginalResources` minus the resources excluded for carrying the
reserved metadata TGI (the source increments the total before the skip). -/
theorem analyzePackagesForDeduplication_counts (H : List Nat → List Nat)
    (files : List (String × List Nat)) (t : String)
    (meta : DeduplicatedMergeMetadata) (pkgs : List OriginalPackageInfo)
    (hc : collectPackagesMetadata H files = .ok pkgs)
    (h : analyzePackagesForDeduplication H files t = .ok meta) :
    meta.uniqueResourceCount ≤ meta.totalOriginalResources ∧
    (meta.uniqueResources.map fun u => u.occurrences.length).sum =
      meta.totalOriginalResources - excludedCount pkgs ∧
    excludedCount pkgs ≤ meta.totalOriginalResources := by
  unfold analyzePackagesForDeduplication at h
  rw [hc] at h
  simp only [Except.map, Except.ok.injEq] at h
  subst h
  unfold analyzeCore
  dsimp only
  obtain ⟨hocc, hex, hlen⟩ := analyzeFold_counts pkgs []
  have hmm : ((pkgs.foldl analyzePackage []).map fun ke =>
      ({ tgi := ke.2.occurrences.headI.tgi, contentHash := ke.1,
         compressionFlags := ke.2.compressionFlags,
         sourcePackages := ke.2.sourcePackages,
         occurrences := ke.2.occurrences } : UniqueResourceInfo)).map
        (fun u => u.occurrences.length) =
      (pkgs.foldl analyzePackage []).map fun ke => ke.2.occurrences.length := by
    rw [List.map_map]
    rfl
  simp only [mapOccSum, List.map_nil, List.sum_nil, List.length_nil] at hocc hlen
  refine ⟨?_, ?_, ?_⟩
  · simp only [List.length_map]
    omega
  · rw [hmm]
    omega
  · omega

/-- A container whose only resource carries the reserved metadata TGI. -/
def c8buf : List Nat :=
  writeU32At (writeU32At (writeU32At (blit (List.replicate 96 0) dbpfMagic 0)
      1 0x24) 36 0x2c) 100 0x40 ++
    [65, 66, 67, 68] ++ u32Bytes 0 ++
    (u32Bytes 0x12345678 ++ u32Bytes 0x87654321 ++ u32Bytes 0 ++ u32Bytes 0 ++
      u32Bytes 96 ++ u32Bytes 4 ++ u32Bytes 4 ++ u16Bytes 0 ++ [0, 0])

/-- The metadata the analyzer produces for the single container `c8buf`. -/
def c8meta : DeduplicatedMergeMetadata :=
  match analyzePackagesForDeduplication (fun b => b) [("a.package", c8buf)] "t" with
  | .ok m => m
  | .error _ =>
    { version := "", originalPackages := [], uniqueResources := [],
      totalOriginalResources := 0, uniqueResourceCount := 0, mergedAt := "" }

/-- The collected package metadata for `c8buf`. -/
def c8pkgs : List OriginalPackageInfo :=
  match collectPackagesMetadata (fun b => b) [("a.package", c8buf)] with
  | .ok p => p
  | .error _ => []

set_option maxRecDepth 8000 in
/-- Counterexample to C8 as stated: for `c8buf` the analyzer succeeds with
`totalOriginalResources = 1` but an occurrence sum of 0, because the
reserved-TGI resource is counted in the total yet excluded from the table. -/
theorem analyzer_occurrence_sum_counterexample :
    analyzePackagesForDeduplication (fun b => b) [("a.package", c8buf)] "t" =
      .ok c8meta ∧
    (c8meta.uniqueResources.map fun u => u.occurrences.length).sum ≠
      c8meta.totalOriginalResources := by
  refine ⟨rfl, ?_⟩
  decide

set_option maxRecDepth 8000 in
/-- Witness for the amended C8 at the concrete input `c8buf`. -/
theorem analyzePackagesForDeduplication_counts_witness :
    c8meta.uniqueResourceCount ≤ c8meta.totalOriginalResources ∧
    (c8meta.uniqueResources.map fun u => u.occurrences.length).sum =
      c8meta.totalOriginalResources - excludedCount c8pkgs ∧
    excludedCount c8pkgs ≤ c8meta.totalOriginalResources :=
  analyzePackagesForDeduplication_counts (fun b => b) [("a.package", c8buf)] "t"
    c8meta c8pkgs rfl rfl

/-! ## C2: occurrence resolution during deduplication unmerge -/

theorem foldlM_reconstruct_empty (packageSha256 : List Nat)
    (tgiMap : List (Tgi × BinaryResource)) (l : List RuntimeUniqueResource) :
    ∀ acc : List BinaryResource,
      l.foldlM (fun acc u =>
        match resolveOccurrences tgiMap
            (u.occurrences.filter (occurrenceMatchesPackage · packageSha256)) with
        | .error e => .error e
        | .ok rs => .ok (acc ++ rs)) acc = (.ok acc : Except String _) := by
  induction l with
  | nil => intro acc; rfl
  | cons u rest ih =>
    intro acc
    rw [List.foldlM_cons]
    have hfilter : u.occurrences.filter (occurrenceMatchesPackage · packageSha256) = [] := by
      simp [occurrenceMatchesPackage, occurrencePackageSha256]
    rw [hfilter]
    have h0 : resolveOccurrences tgiMap [] =
        (.ok [] : Except String (List BinaryResource)) := rfl
    rw [h0]
    have h1 : (match (.ok [] : Except String (List BinaryResource)) with
        | Except.error e => (Except.error e : Except String (List BinaryResource))
        | Except.ok rs => Except.ok (acc ++ rs)) = .ok acc := by
      simp
    rw [h1]
    exact ih acc

/-- C2 (code evaluation): `reconstructPackage` resolves *no* occurrences for
any package of any deduplication metadata — its filter compares the
occurrence's nonexistent `packageSha256` property (`undefined`) to the
summary's hash — so every reconstructed snapshot is empty instead of
containing one resource per occurrence recorded under the package's
filename. -/
theorem reconstructPackage_always_empty (packageSummary : PackageSummary)
    (metadata : RuntimeDedupMetadata) (mergedStructure : DbpfBinaryStructure)
    (tgiMap : List (Tgi × BinaryResource))
    (hh : packageSummary.headerBytes.length = 96) :
    reconstructPackage packageSummary metadata mergedStructure tgiMap =
      .ok { filePath := "", header := packageSummary.headerBytes, resources := [],
            indexTable := [], totalSize := 0, sha256 := [],
            dataStartOffset := mergedStructure.dataStartOffset, indexOffset := 0,
            indexSize := 0, indexFlags := mergedStructure.indexFlags } := by
  unfold reconstructPackage
  dsimp only
  rw [foldlM_reconstruct_empty packageSummary.sha256 tgiMap
    metadata.uniqueResources []]
  dsimp only
  rw [if_neg (by omega)]

/-- Identity triple used by the concrete unmerge example. -/
def c2tgi : Tgi := { type := 0x11, group := 0x22, inst := 0x33 }

/-- Summary of the original package `a.package`, which owned one resource. -/
def c2summary : PackageSummary :=
  { filename := "a.package", sha256 := [1, 2], headerBytes := List.replicate 96 0,
    resourceCount := 1, totalSize := 136 }

/-- Deduplication metadata recording that `a.package` contained the unique
resource under `c2tgi` (one occurrence listed under its filename). -/
def c2metadata : RuntimeDedupMetadata :=
  { version := "2.0-deduped", originalPackages := [c2summary],
    uniqueResources := [{ tgi := c2tgi, contentHash := [9], compressionFlags := 0,
                          sourcePackages := ["a.package"],
                          occurrences := [{ filename := "a.package", tgi := c2tgi }] }],
    totalOriginalResources := 1, uniqueResourceCount := 1, mergedAt := "t" }

/-- A merged container actually holding the resource for `c2tgi`. -/
def c2merged : DbpfBinaryStructure :=
  { filePath := "", sha256 := [], header := List.replicate 96 0,
    resources := [mkPlainResource c2tgi 96 4, mkPlainResource METADATA_TGI 100 2],
    indexTable := [], totalSize := 138, indexOffset := 102, indexSize := 36,
    indexFlags := 0, dataStartOffset := 96 }

/-- Witness: for `a.package`, whose occurrence list names it once, the
reconstruction comes back with zero resources. -/
theorem reconstructPackage_always_empty_witness :
    reconstructPackage c2summary c2metadata c2merged
        (createTgiToResourceMap c2merged) =
      .ok { filePath := "", header := c2summary.headerBytes, resources := [],
            indexTable := [], totalSize := 0, sha256 := [],
            dataStartOffset := c2merged.dataStartOffset, indexOffset := 0,
            indexSize := 0, indexFlags := c2merged.indexFlags } :=
  reconstructPackage_always_empty c2summary c2metadata c2merged
    (createTgiToResourceMap c2merged) (by decide)

/-! ## C5: overwrite refusal during unmerge -/

/-- C5 (amended): when a package's output file already exists — in the output
directory or written earlier in the same run — the loop raises the overwrite
error and stops: files written before remain, and no later package is
reconstructed or written, whatever the rest of the package list is. -/
theorem unmergeLoop_conflict_fatal (metadata : RuntimeDedupMetadata)
    (mergedStructure : DbpfBinaryStructure)
    (tgiMap : List (Tgi × BinaryResource)) (existing : List String)
    (pkg : PackageSummary) (usedNames : List String)
    (written : List (String × List Nat)) (rs : DbpfBinaryStructure)
    (hrec : reconstructPackage pkg metadata mergedStructure tgiMap = .ok rs)
    (hconflict : findFreeName pkg.filename usedNames ∈ existing ∨
      findFreeName pkg.filename usedNames ∈ written.map Prod.fst) :
    ∀ rest, unmergeLoopGo metadata mergedStructure tgiMap existing
        (pkg :: rest) usedNames written =
      { written := written, err := some "Output file already exists" } := by
  intro rest
  unfold unmergeLoopGo
  rw [hrec]
  dsimp only
  rw [if_pos hconflict]

/-- Summary of a second original package `b.package`. -/
def c5summaryB : PackageSummary :=
  { filename := "b.package", sha256 := [3, 4], headerBytes := List.replicate 96 0,
    resourceCount := 1, totalSize := 136 }

/-- Metadata recording two original packages. -/
def c5metadata : RuntimeDedupMetadata :=
  { c2metadata with originalPackages := [c2summary, c5summaryB] }

/-- Counterexample to C5 as stated: with `a.package` already present in the
output directory, the whole unmerge aborts — `b.package`, which has no
conflict of its own, is never written. -/
theorem unmerge_overwrite_aborts_remaining :
    (unmergeDedupRun c5metadata c2merged ["a.package"]).err =
      some "Output file already exists" ∧
    (unmergeDedupRun c5metadata c2merged ["a.package"]).written = [] := by
  constructor <;> rfl

/-- Witness for the amended C5 at the concrete two-package input. -/
theorem unmergeLoop_conflict_fatal_witness :
    unmergeLoopGo c5metadata c2merged (createTgiToResourceMap c2merged)
        ["a.package"] [c2summary, c5summaryB] [] [] =
      { written := [], err := some "Output file already exists" } :=
  unmergeLoop_conflict_fatal c5metadata c2merged (createTgiToResourceMap c2merged)
    ["a.package"] c2summary [] []
    { filePath := "", header := c2summary.headerBytes, resources := [],
      indexTable := [], totalSize := 0, sha256 := [],
      dataStartOffset := c2merged.dataStartOffset, indexOffset := 0,
      indexSize := 0, indexFlags := c2merged.indexFlags }
    (by rfl) (by decide) [c5summaryB]

/-! ## C4: standard manifest round trip -/

mutual

/-- Nesting depth of a folder tree (1 for a leaf folder). -/
def folderDepth : StandardMergedFolder → Nat
  | .mk _ folders _ => foldersDepth folders + 1

/-- Maximum depth over sibling folders. -/
def foldersDepth : List StandardMergedFolder → Nat
  | [] => 0
  | f :: fs => max (folderDepth f) (foldersDepth fs)

end

/-- A package with its optional (non-serialized) fields erased. -/
def stripPackage (p : StandardMergedPackage) : StandardMergedPackage :=
  { name := p.name, resources := p.resources }

mutual

/-- A folder tree with every package's optional fields erased. -/
def stripFolder : StandardMergedFolder → StandardMergedFolder
  | .mk name folders packages =>
    .mk name (stripFolders folders) (packages.map stripPackage)

/-- `stripFolder` over siblings. -/
def stripFolders : List StandardMergedFolder → List StandardMergedFolder
  | [] => []
  | f :: fs => stripFolder f :: stripFolders fs

end

/-- A manifest with every package's optional fields erased. -/
def stripManifest (m : StandardMergeManifest) : StandardMergeManifest :=
  { version := m.version, root := stripFolder m.root }

/-- Well-formed serializable TGI: 32-bit type and group, and an instance
string that is the canonical decimal of a 64-bit value (what the analyzer
and merger always produce; anything else would throw in `BigInt`). -/
def wfTgiB (r : SerializableTgi) : Bool :=
  decide (r.type < 2 ^ 32) && decide (r.group < 2 ^ 32) &&
    decide (decToNat r.inst < 2 ^ 64) && (toString (decToNat r.inst) == r.inst)

/-- Well-formed package: name and resource count fit 32 bits, resources
well formed. -/
def wfPackageB (p : StandardMergedPackage) : Bool :=
  decide (p.name.length < 2 ^ 32) && decide (p.resources.length < 2 ^ 32) &&
    p.resources.all wfTgiB

mutual

/-- Well-formed folder tree: all length-prefixed counts fit 32 bits. -/
def wfFolderB : StandardMergedFolder → Bool
  | .mk name folders packages =>
    decide (name.length < 2 ^ 32) && decide (folders.length < 2 ^ 32) &&
      decide (packages.length < 2 ^ 32) && wfFoldersB folders &&
      packages.all wfPackageB

/-- `wfFolderB` over siblings. -/
def wfFoldersB : List StandardMergedFolder → Bool
  | [] => true
  | f :: fs => wfFolderB f && wfFoldersB fs

end

theorem rdU32_roundtrip (v : Nat) (rest : List Nat) (hv : v < 2 ^ 32) :
    rdU32 (u32Bytes v ++ rest) = .ok (v, rest) := by
  unfold rdU32
  rw [if_neg (by simp [u32Bytes])]
  rw [readU32_u32Bytes_append, Nat.mod_eq_of_lt hv]
  rw [show (u32Bytes v ++ rest).drop 4 = rest from by
    rw [show (4 : Nat) = (u32Bytes v).length from rfl, List.drop_left]]

theorem rdU64_roundtrip (v : Nat) (rest : List Nat) (hv : v < 2 ^ 64) :
    rdU64 (u64Bytes v ++ rest) = .ok (v, rest) := by
  unfold rdU64 u64Bytes
  rw [if_neg (by simp [u32Bytes])]
  simp only [List.append_assoc]
  rw [readU32_u32Bytes_append]
  rw [readU32_append_right _ _ 4 (by simp [u32Bytes])]
  simp only [u32Bytes_length]
  rw [show (4 - 4 : Nat) = 0 from rfl, readU32_u32Bytes_append]
  have hd : v / 2 ^ 32 % 2 ^ 32 = v / 2 ^ 32 := by omega
  rw [hd]
  have hv32 : v % 2 ^ 32 + 2 ^ 32 * (v / 2 ^ 32) = v := by omega
  rw [hv32]
  rw [show (8 : Nat) = (u32Bytes v ++ u32Bytes (v / 2 ^ 32)).length from rfl]
  rw [← List.append_assoc, List.drop_left]

theorem rdPascal_roundtrip (s rest : List Nat) (hs : s.length < 2 ^ 32) :
    rdPascal (writePascalString32 s ++ rest) = .ok (s, rest) := by
  unfold rdPascal writePascalString32
  rw [List.append_assoc, rdU32_roundtrip s.length (s ++ rest) hs]
  dsimp only
  rw [List.take_left, List.drop_left]

theorem readTgis_roundtrip (l : List SerializableTgi) (rest : List Nat)
    (hwf : l.all wfTgiB = true) :
    readTgis l.length ((l.map encodeTgi).flatten ++ rest) = .ok (l, rest) := by
  induction l with
  | nil => rfl
  | cons r l ih =>
    simp only [List.all_cons, Bool.and_eq_true] at hwf
    obtain ⟨hr, hl⟩ := hwf
    simp only [wfTgiB, Bool.and_eq_true, decide_eq_true_eq, beq_iff_eq] at hr
    obtain ⟨⟨⟨hty, hgr⟩, hin⟩, hcanon⟩ := hr
    simp only [List.length_cons, List.map_cons, List.flatten_cons, encodeTgi,
      List.append_assoc]
    unfold readTgis
    rw [rdU64_roundtrip _ _ hin]
    dsimp only
    rw [rdU32_roundtrip r.type _ hty]
    dsimp only
    rw [rdU32_roundtrip r.group _ hgr]
    dsimp only
    rw [ih hl]
    dsimp only
    rw [hcanon]

theorem readPackage_roundtrip (p : StandardMergedPackage) (rest : List Nat)
    (hwf : wfPackageB p = true) :
    readPackage (writePackage p ++ rest) = .ok (stripPackage p, rest) := by
  simp only [wfPackageB, Bool.and_eq_true, decide_eq_true_eq] at hwf
  obtain ⟨⟨hname, hcount⟩, hres⟩ := hwf
  unfold readPackage writePackage
  simp only [List.append_assoc]
  rw [rdPascal_roundtrip p.name _ hname]
  dsimp only
  rw [rdU32_roundtrip p.resources.length _ hcount]
  dsimp only
  rw [readTgis_roundtrip p.resources rest hres]
  rfl

theorem readPackages_roundtrip (ps : List StandardMergedPackage)
    (rest : List Nat) (hwf : ps.all wfPackageB = true) :
    readPackages ps.length ((ps.map writePackage).flatten ++ rest) =
      .ok (ps.map stripPackage, rest) := by
  induction ps with
  | nil => rfl
  | cons p ps ih =>
    simp only [List.all_cons, Bool.and_eq_true] at hwf
    obtain ⟨hp, hps⟩ := hwf
    simp only [List.length_cons, List.map_cons, List.flatten_cons, List.append_assoc]
    unfold readPackages
    rw [readPackage_roundtrip p _ hp]
    dsimp only
    rw [ih hps]

theorem readFolderFuel_roundtrip :
    ∀ (fuel : Nat) (f : StandardMergedFolder) (rest : List Nat),
      wfFolderB f = true → folderDepth f ≤ fuel →
      readFolderFuel fuel (writeFolder f ++ rest) = .ok (stripFolder f, rest) := by
  intro fuel
  induction fuel with
  | zero =>
    intro f rest hwf hd
    obtain ⟨name, folders, packages⟩ := f
    simp [folderDepth] at hd
  | succ fuel ih =>
    intro f rest hwf hd
    obtain ⟨name, folders, packages⟩ := f
    simp only [wfFolderB, Bool.and_eq_true, decide_eq_true_eq] at hwf
    obtain ⟨⟨⟨⟨hname, hfl⟩, hpl⟩, hwfs⟩, hwps⟩ := hwf
    unfold writeFolder readFolderFuel
    simp only [List.append_assoc]
    rw [rdPascal_roundtrip name _ hname]
    dsimp only
    rw [rdU32_roundtrip folders.length _ hfl]
    dsimp only
    have hsib : ∀ (fs : List StandardMergedFolder) (rest' : List Nat),
        wfFoldersB fs = true → foldersDepth fs ≤ fuel →
        readNFolders (readFolderFuel fuel) fs.length (writeFolders fs ++ rest') =
          .ok (stripFolders fs, rest') := by
      intro fs
      induction fs with
      | nil => intro rest' _ _; rfl
      | cons g gs ihg =>
        intro rest' hw hdep
        simp only [wfFoldersB, Bool.and_eq_true] at hw
        obtain ⟨hg, hgs⟩ := hw
        have hdg : folderDepth g ≤ fuel := by
          simp only [foldersDepth] at hdep
          omega
        have hdgs : foldersDepth gs ≤ fuel := by
          simp only [foldersDepth] at hdep
          omega
        simp only [writeFolders, List.length_cons, List.append_assoc]
        unfold readNFolders
        rw [ih g _ hg hdg]
        dsimp only
        rw [ihg _ hgs hdgs]
        rfl
    have hdf : foldersDepth folders ≤ fuel := by
      simp only [folderDepth] at hd
      omega
    rw [hsib folders _ hwfs hdf]
    dsimp only
    rw [rdU32_roundtrip packages.length _ hpl]
    dsimp only
    rw [readPackages_roundtrip packages rest hwps]
    rfl

mutual

theorem folderDepth_le_length : ∀ f : StandardMergedFolder,
    folderDepth f ≤ (writeFolder f).length
  | .mk name folders packages => by
    have h := foldersDepth_le_length folders
    simp only [folderDepth, writeFolder, List.length_append, writePascalString32,
      u32Bytes, List.length_cons]
    simp
    omega

theorem foldersDepth_le_length : ∀ fs : List StandardMergedFolder,
    foldersDepth fs ≤ (writeFolders fs).length
  | [] => by simp [foldersDepth, writeFolders]
  | f :: fs => by
    have h1 := folderDepth_le_length f
    have h2 := foldersDepth_le_length fs
    simp only [foldersDepth, writeFolders, List.length_append]
    omega

end

/-- C4 (amended): deserializing the serialized bytes of a well-formed
manifest yields the manifest with every package's optional `headerBytes`
and `totalSize` erased, since those fields are not part of the wire
format; manifests without those fields round-trip identically. -/
theorem serializeManifest_roundtrip (m : StandardMergeManifest)
    (hv : m.version < 2 ^ 32) (hwf : wfFolderB m.root = true) :
    deserializeManifest (serializeManifest m) = .ok (stripManifest m) := by
  unfold deserializeManifest serializeManifest
  rw [rdU32_roundtrip m.version _ hv]
  dsimp only
  have hfull : readFolderFuel ((u32Bytes m.version ++ writeFolder m.root).length + 1)
      (writeFolder m.root ++ []) = .ok (stripFolder m.root, []) := by
    apply readFolderFuel_roundtrip _ m.root [] hwf
    have := folderDepth_le_length m.root
    simp [u32Bytes]
    omega
  rw [List.append_nil] at hfull
  rw [hfull]
  rfl

/-- A package carrying the optional original-header and size fields. -/
def c4pkg : StandardMergedPackage :=
  { name := [97], resources := [{ type := 3, group := 4, inst := "5" }],
    headerBytes := some (List.replicate 96 0), totalSize := some 136 }

/-- A well-formed manifest whose single package is `c4pkg`. -/
def c4manifest : StandardMergeManifest :=
  { version := 1, root := .mk [] [] [c4pkg] }

/-- The bytes `serializeManifest` emits for `c4manifest`, spelled with the
computable encoders. -/
def c4bytes : List Nat :=
  u32Bytes 1 ++ (writePascalString32 [] ++ (u32Bytes 0 ++ ([] ++
    (u32Bytes 1 ++ (List.map writePackage [c4pkg]).flatten))))

theorem serializeManifest_c4 : serializeManifest c4manifest = c4bytes := by
  simp only [serializeManifest, c4manifest, writeFolder, writeFolders, c4bytes]
  decide

/-- Counterexample to C4 as stated: the wire format has no fields for a
package's optional original header and size, so decoding the encoding of
`c4manifest` does not give back `c4manifest`. -/
theorem serializer_drops_optional_fields :
    deserializeManifest (serializeManifest c4manifest) ≠ .ok c4manifest := by
  intro h
  rw [serializeManifest_c4] at h
  have hd : deserializeManifest c4bytes =
      .ok { version := 1, root := .mk [] [] [stripPackage c4pkg] } := by
    have hsp : stripPackage c4pkg =
        { name := [97], resources := [{ type := 3, group := 4, inst := "5" }] } := rfl
    rw [hsp]
    rfl
  rw [hd] at h
  injection h with h5
  have h6 := congrArg
    (fun mm : StandardMergeManifest =>
      mm.root.packages.map StandardMergedPackage.headerBytes) h5
  simp [c4manifest, c4pkg, stripPackage, StandardMergedFolder.packages] at h6

/-- Witness for the amended C4 at the concrete manifest `c4manifest`. -/
theorem serializeManifest_roundtrip_witness :
    deserializeManifest (serializeManifest c4manifest) =
      .ok (stripManifest c4manifest) :=
  serializeManifest_roundtrip c4manifest (by decide)
    (by simp only [c4manifest, wfFolderB, wfFoldersB]; decide)

/-! ## C1: merge-then-unmerge round trip -/

theorem assembleUniqueResources_ok
    (packageStructures : List (String × DbpfBinaryStructure))
    (us : List UniqueResourceInfo) (off : Nat) (rs : List BinaryResource)
    (h : assembleUniqueResources packageStructures us off = .ok rs) :
    us = [] ∧ rs = [] := by
  cases us with
  | nil =>
    simp only [assembleUniqueResources, Except.ok.injEq] at h
    exact ⟨rfl, h.symm⟩
  | cons u rest =>
    unfold assembleUniqueResources at h
    dsimp only at h
    cases hl : packageStructures.lookup u.sourcePackages.headI with
    | none => rw [hl] at h; exact absurd h (by simp)
    | some sourceStructure =>
      rw [hl] at h
      dsimp only at h
      have hfind : sourceStructure.resources.find? (fun r =>
          r.tgi.type == u.tgi.type && r.tgi.group == u.tgi.group &&
          bigintEqDecString r.tgi.inst u.tgi.inst) = none := by
        rw [List.find?_eq_none]
        intro r _
        simp [bigintEqDecString]
      rw [hfind] at h
      exact absurd h (by simp)

/-- The single-resource source container of the concrete merge example. -/
def c1buf : List Nat :=
  writeU32At (writeU32At (writeU32At (blit (List.replicate 96 0) dbpfMagic 0)
      1 0x24) 36 0x2c) 100 0x40 ++
    [65, 66, 67, 68] ++ u32Bytes 0 ++
    (u32Bytes 0x11 ++ u32Bytes 0x22 ++ u32Bytes 0 ++ u32Bytes 0x33 ++ u32Bytes 96 ++
      u32Bytes 4 ++ u32Bytes 4 ++ u16Bytes 0 ++ [0, 0])

set_option maxRecDepth 8000 in
/-- C1 (code evaluation): the deduplication merge pipeline can never produce
a merged container — `assembleDeduplicatedStructure` looks every unique
resource up by comparing the source resource's bigint instance against the
metadata's decimal-string instance with `===`, which is false across types,
so any non-empty analysis aborts with "Resource not found in source
package" (and an empty one aborts reading `lastResource.offset` of an empty
list); hence the merge-then-unmerge scenario cannot complete.  Shown
universally over every digest function, metadata encoder, input set and
timestamp, and concretely on the single-resource container `c1buf`. -/
theorem mergePackages_dedup_never_succeeds :
    (∀ (H : List Nat → List Nat) (J : DeduplicatedMergeMetadata → List Nat)
       (files : List (String × List Nat)) (mergedAt : String),
       ∃ e, mergePackagesCore H J files mergedAt = .error e) ∧
    mergePackagesCore (fun b => b) (fun _ => []) [("a.package", c1buf)] "t" =
      .error "Resource not found in source package" := by
  constructor
  · intro H J files mergedAt
    unfold mergePackagesCore
    by_cases hemp : files.isEmpty
    · rw [if_pos hemp]
      exact ⟨_, rfl⟩
    · rw [if_neg hemp]
      cases ha : analyzePackagesForDeduplication H files mergedAt with
      | error e => exact ⟨e, by dsimp only⟩
      | ok dedupMetadata =>
        dsimp only
        cases hs : files.mapM (fun nb => (dbpfRead H nb.2).map ((nb.1, ·))) with
        | error e => exact ⟨e, by dsimp only⟩
        | ok packageStructures =>
          dsimp only
          cases hasm : assembleDeduplicatedStructure packageStructures dedupMetadata with
          | error e => exact ⟨e, by dsimp only⟩
          | ok mergedStructure =>
            dsimp only
            have hempty : mergedStructure.resources = [] := by
              unfold assembleDeduplicatedStructure at hasm
              cases packageStructures with
              | nil => exact absurd hasm (by simp)
              | cons nb t =>
                obtain ⟨n0, base⟩ := nb
                dsimp only at hasm
                cases hau : assembleUniqueResources ((n0, base) :: t)
                    dedupMetadata.uniqueResources base.dataStartOffset with
                | error e => rw [hau] at hasm; exact absurd hasm (by simp)
                | ok mr =>
                  rw [hau] at hasm
                  obtain ⟨-, hmr⟩ := assembleUniqueResources_ok _ _ _ _ hau
                  simp only [Except.ok.injEq] at hasm
                  subst hasm
                  simpa using hmr
            rw [hempty]
            exact ⟨_, rfl⟩
  · rfl

/-! ## C3: read–write–read round trip.  Supporting byte-level lemmas. -/

theorem byteAt_eq_getElem (l : List Nat) (i : Nat) (h : i < l.length) :
    byteAt l i = l[i] := by
  unfold byteAt
  rw [List.getD_eq_getElem?_getD, List.getElem?_eq_getElem h]
  rfl

theorem list_eq_of_byteAt_eq (l1 l2 : List Nat) (hlen : l1.length = l2.length)
    (h : ∀ i, i < l1.length → byteAt l1 i = byteAt l2 i) : l1 = l2 := by
  apply List.ext_getElem hlen
  intro i h1 h2
  rw [← byteAt_eq_getElem _ _ h1, ← byteAt_eq_getElem _ _ h2]
  exact h i h1

theorem readU32_congr (x y : List Nat) (ox oy : Nat)
    (h : ∀ k, k < 4 → byteAt x (ox + k) = byteAt y (oy + k)) :
    readU32 x ox = readU32 y oy := by
  have h0 := h 0 (by omega)
  have h1 := h 1 (by omega)
  have h2 := h 2 (by omega)
  have h3 := h 3 (by omega)
  simp only [Nat.add_zero] at h0
  simp only [readU32, h0, h1, h2, h3]

theorem readU16_congr (x y : List Nat) (ox oy : Nat)
    (h : ∀ k, k < 2 → byteAt x (ox + k) = byteAt y (oy + k)) :
    readU16 x ox = readU16 y oy := by
  have h0 := h 0 (by omega)
  have h1 := h 1 (by omega)
  simp only [Nat.add_zero] at h0
  simp only [readU16, h0, h1]

theorem byteAt_writeU32At (b : List Nat) (v off p : Nat) :
    byteAt (writeU32At b v off) p =
      if p < b.length then
        (if off ≤ p ∧ p < off + 4 then byteAt (u32Bytes v) (p - off) else byteAt b p)
      else 0 := by
  rw [writeU32At, byteAt_blit, u32Bytes_length]

theorem byteAt_take (l : List Nat) (k p : Nat) :
    byteAt (l.take k) p = if p < k then byteAt l p else 0 := by
  unfold byteAt
  rcases lt_or_le p k with h | h
  · rw [List.getD_eq_getElem?_getD, List.getElem?_take, if_pos h, if_pos h]
    exact (List.getD_eq_getElem?_getD ..).symm
  · rw [List.getD_eq_getElem?_getD, List.getElem?_take, if_neg (by omega),
      if_neg (by omega)]
    rfl

theorem foldl_blit_length (rs : List BinaryResource) :
    ∀ init : List Nat,
      (rs.foldl (fun acc r => blit acc r.rawData r.offset) init).length =
        init.length := by
  induction rs with
  | nil => intro init; rfl
  | cons r rest ih =>
    intro init
    rw [List.foldl_cons, ih, blit_length]

theorem byteAt_foldl_blit_uncovered (rs : List BinaryResource) (p : Nat) :
    ∀ init : List Nat,
      (∀ r ∈ rs, ¬(r.offset ≤ p ∧ p < r.offset + r.rawData.length)) →
      byteAt (rs.foldl (fun acc r => blit acc r.rawData r.offset) init) p =
        byteAt init p := by
  induction rs with
  | nil => intro init _; rfl
  | cons r rest ih =>
    intro init hnc
    rw [List.foldl_cons, ih _ (fun r' hr' => hnc r' (List.mem_cons_of_mem r hr'))]
    rw [byteAt_blit]
    rcases lt_or_le p init.length with hl | hl
    · rw [if_pos hl, if_neg (hnc r (List.mem_cons_self r rest))]
    · rw [if_neg (by omega), byteAt_eq_zero_of_le init p hl]

theorem byteAt_foldl_blit_covered (rs : List BinaryResource) (f : Nat → Nat) (p : Nat) :
    ∀ init : List Nat,
      (∀ r ∈ rs, ∀ j, j < r.rawData.length →
        byteAt r.rawData j = f (r.offset + j)) →
      (∃ r ∈ rs, r.offset ≤ p ∧ p < r.offset + r.rawData.length) →
      p < init.length →
      byteAt (rs.foldl (fun acc r => blit acc r.rawData r.offset) init) p = f p := by
  induction rs with
  | nil =>
    intro init _ hc _
    obtain ⟨r, hr, -⟩ := hc
    exact absurd hr (by simp)
  | cons r rest ih =>
    intro init hagree hc hp
    rw [List.foldl_cons]
    by_cases hrest : ∃ r' ∈ rest, r'.offset ≤ p ∧ p < r'.offset + r'.rawData.length
    · exact ih _ (fun r' hr' => hagree r' (List.mem_cons_of_mem r hr')) hrest
        (by rw [blit_length]; exact hp)
    · have hcov : r.offset ≤ p ∧ p < r.offset + r.rawData.length := by
        obtain ⟨r', hr', hc'⟩ := hc
        rcases List.mem_cons.mp hr' with he | hm
        · subst he; exact hc'
        · exact absurd ⟨r', hm, hc'⟩ hrest
      rw [byteAt_foldl_blit_uncovered rest p _ (fun r' hr' h' => hrest ⟨r', hr', h'⟩)]
      rw [byteAt_blit, if_pos hp, if_pos hcov]
      rw [hagree r (List.mem_cons_self r rest) (p - r.offset) (by omega)]
      congr 1
      omega

theorem readU16_lt_of_bytes (b : List Nat) (off : Nat) (hb : ∀ x ∈ b, x < 256) :
    readU16 b off < 2 ^ 16 := by
  have h0 := byteAt_lt_of_bytes b off hb
  have h1 := byteAt_lt_of_bytes b (off + 1) hb
  simp only [readU16]
  omega

theorem byteAt_u32Bytes_of_readU32 (b : List Nat) (off v k : Nat)
    (hb : ∀ x ∈ b, x < 256) (hv : readU32 b off = v) (hk : k < 4) :
    byteAt b (off + k) = byteAt (u32Bytes v) k := by
  have h0 := byteAt_lt_of_bytes b off hb
  have h1 := byteAt_lt_of_bytes b (off + 1) hb
  have h2 := byteAt_lt_of_bytes b (off + 2) hb
  have h3 := byteAt_lt_of_bytes b (off + 3) hb
  simp only [readU32] at hv
  match k, hk with
  | 0, _ =>
    rw [Nat.add_zero, show byteAt (u32Bytes v) 0 = v % 2 ^ 8 from rfl]
    omega
  | 1, _ =>
    rw [show byteAt (u32Bytes v) 1 = v / 2 ^ 8 % 2 ^ 8 from rfl]
    omega
  | 2, _ =>
    rw [show byteAt (u32Bytes v) 2 = v / 2 ^ 16 % 2 ^ 8 from rfl]
    omega
  | 3, _ =>
    rw [show byteAt (u32Bytes v) 3 = v / 2 ^ 24 % 2 ^ 8 from rfl]
    omega

theorem readU32_writeU32At_outside (b : List Nat) (v off o : Nat)
    (h : o + 4 ≤ off ∨ off + 4 ≤ o) (hlen : o + 4 ≤ b.length) :
    readU32 (writeU32At b v off) o = readU32 b o := by
  apply readU32_congr
  intro k hk
  rw [byteAt_writeU32At_outside b v off (o + k) (by omega), if_pos (by omega)]

theorem foldl_max_init_le (l : List BinaryResource) :
    ∀ init : Nat, init ≤ l.foldl (fun m r => max m (r.offset + r.size)) init := by
  induction l with
  | nil => intro init; exact Nat.le_refl _
  | cons r rest ih =>
    intro init
    exact le_trans (le_max_left _ _) (ih (max init (r.offset + r.size)))

theorem foldl_max_mem_le (l : List BinaryResource) (r : BinaryResource)
    (h : r ∈ l) :
    ∀ init : Nat,
      r.offset + r.size ≤ l.foldl (fun m r => max m (r.offset + r.size)) init := by
  induction l with
  | nil => exact absurd h (by simp)
  | cons r' rest ih =>
    intro init
    rcases List.mem_cons.mp h with he | hm
    · subst he
      exact le_trans (le_max_right init _) (foldl_max_init_le rest _)
    · exact ih hm _

theorem foldl_max_lt (l : List BinaryResource) (B : Nat)
    (h : ∀ r ∈ l, r.offset + r.size < B) :
    ∀ init : Nat, init < B →
      l.foldl (fun m r => max m (r.offset + r.size)) init < B := by
  induction l with
  | nil => intro init hi; exact hi
  | cons r rest ih =>
    intro init hi
    exact ih (fun r' hr' => h r' (List.mem_cons_of_mem r hr')) _
      (max_lt hi (h r (List.mem_cons_self r rest)))

theorem writeDataEnd_init_le (s : DbpfBinaryStructure) :
    s.dataStartOffset ≤ writeDataEnd s := foldl_max_init_le s.resources _

theorem le_writeDataEnd_of_mem (s : DbpfBinaryStructure) (r : BinaryResource)
    (h : r ∈ s.resources) : r.offset + r.size ≤ writeDataEnd s :=
  foldl_max_mem_le s.resources r h _

theorem writeDataEnd_lt (s : DbpfBinaryStructure) (B : Nat)
    (hds : s.dataStartOffset < B)
    (h : ∀ r ∈ s.resources, r.offset + r.size < B) : writeDataEnd s < B :=
  foldl_max_lt s.resources B h _ hds

theorem parseResource_ok_inv (b : List Nat) (eo ds : Nat) (r : BinaryResource)
    (h : parseResource b eo ds = .ok r) :
    r.tgi.type = readU32 b eo ∧
    r.tgi.group = readU32 b (eo + 4) ∧
    r.tgi.inst = readU32 b (eo + 8) * 2 ^ 32 + readU32 b (eo + 12) ∧
    r.offset = (if 2 ^ 31 ≤ readU32 b (eo + 16) then
        readU32 b (eo + 16) % 2 ^ 31 + ds else readU32 b (eo + 16)) ∧
    r.originalOffset = r.offset ∧
    r.sizeField = readU32 b (eo + 20) ∧
    r.size = r.sizeField % 2 ^ 31 ∧
    r.uncompressedSize = readU32 b (eo + 24) ∧
    r.compressionFlags = readU16 b (eo + 28) ∧
    r.isCompressed = (r.sizeField / 2 ^ 31 == 1) ∧
    r.rawData = subarray b r.offset (r.offset + r.size) ∧
    r.indexEntry = subarray b eo (eo + INDEX_ENTRY_SIZE) ∧
    r.offset + r.size ≤ b.length := by
  unfold parseResource at h
  dsimp only at h
  split at h
  · rename_i hoffc
    split at h
    · exact absurd h (by simp)
    · rename_i hbound
      simp only [Except.ok.injEq] at h
      subst h
      exact ⟨rfl, rfl, rfl, (if_pos hoffc).symm, rfl, rfl, rfl, rfl, rfl, rfl,
        rfl, rfl, Nat.le_of_not_lt hbound⟩
  · rename_i hoffc
    split at h
    · exact absurd h (by simp)
    · rename_i hbound
      simp only [Except.ok.injEq] at h
      subst h
      exact ⟨rfl, rfl, rfl, (if_neg hoffc).symm, rfl, rfl, rfl, rfl, rfl, rfl,
        rfl, rfl, Nat.le_of_not_lt hbound⟩

theorem parseResourcesFrom_get (b : List Nat) (m : IndexMetadata) :
    ∀ (fuel i : Nat) (rs : List BinaryResource),
      parseResourcesFrom b m i fuel = .ok rs →
      ∀ j (hj : j < rs.length),
        parseResource b (m.indexOffset + 4 + (i + j) * INDEX_ENTRY_SIZE)
            m.dataStartOffset = .ok (rs.get ⟨j, hj⟩) ∧
        m.indexOffset + 4 + (i + j) * INDEX_ENTRY_SIZE + INDEX_ENTRY_SIZE ≤
          m.indexOffset + m.indexSize ∧
        m.indexOffset + 4 + (i + j) * INDEX_ENTRY_SIZE + INDEX_ENTRY_SIZE ≤
          b.length := by
  intro fuel
  induction fuel with
  | zero =>
    intro i rs h j hj
    simp only [parseResourcesFrom, Except.ok.injEq] at h
    subst h
    exact absurd hj (by simp)
  | succ fuel ih =>
    intro i rs h j hj
    unfold parseResourcesFrom at h
    by_cases hcnt : i < m.entryCount
    · rw [if_pos hcnt] at h
      by_cases hbreak : m.indexOffset + m.indexSize <
          m.indexOffset + 4 + i * INDEX_ENTRY_SIZE + INDEX_ENTRY_SIZE
      · rw [if_pos hbreak] at h
        simp only [Except.ok.injEq] at h
        subst h
        exact absurd hj (by simp)
      · rw [if_neg hbreak] at h
        split at h
        · exact absurd h (by simp)
        · rename_i hfit
          cases hpr : parseResource b (m.indexOffset + 4 + i * INDEX_ENTRY_SIZE)
              m.dataStartOffset with
          | error e => rw [hpr] at h; exact absurd h (by simp)
          | ok r =>
            rw [hpr] at h
            cases hrest : parseResourcesFrom b m (i + 1) fuel with
            | error e => rw [hrest] at h; exact absurd h (by simp)
            | ok rest =>
              rw [hrest] at h
              simp only [Except.ok.injEq] at h
              subst h
              cases j with
              | zero =>
                simp only [Nat.add_zero]
                exact ⟨hpr, Nat.le_of_not_lt hbreak, Nat.le_of_not_lt hfit⟩
              | succ j' =>
                have hj' : j' < rest.length := by
                  simp only [List.length_cons] at hj
                  omega
                have := ih (i + 1) rest hrest j' hj'
                rw [show i + (j' + 1) = i + 1 + j' by omega]
                exact this
    · rw [if_neg hcnt] at h
      simp only [Except.ok.injEq] at h
      subst h
      exact absurd hj (by simp)

theorem parseResource_of_fields (b' : List Nat) (eo ds : Nat) (r : BinaryResource)
    (hty : readU32 b' eo = r.tgi.type)
    (hgr : readU32 b' (eo + 4) = r.tgi.group)
    (hih : readU32 b' (eo + 8) = r.tgi.inst / 2 ^ 32)
    (hil : readU32 b' (eo + 12) = r.tgi.inst % 2 ^ 32)
    (hoff : (if 2 ^ 31 ≤ readU32 b' (eo + 16) then
        readU32 b' (eo + 16) % 2 ^ 31 + ds else readU32 b' (eo + 16)) = r.offset)
    (hsf : readU32 b' (eo + 20) = r.sizeField)
    (hus : readU32 b' (eo + 24) = r.uncompressedSize)
    (hcf : readU16 b' (eo + 28) = r.compressionFlags)
    (hsize : r.size = r.sizeField % 2 ^ 31)
    (hic : r.isCompressed = (r.sizeField / 2 ^ 31 == 1))
    (horig : r.originalOffset = r.offset)
    (hbound : r.offset + r.size ≤ b'.length)
    (hraw : subarray b' r.offset (r.offset + r.size) = r.rawData) :
    parseResource b' eo ds =
      .ok { r with indexEntry := subarray b' eo (eo + INDEX_ENTRY_SIZE) } := by
  obtain ⟨⟨ty, gr, inst⟩, raw, off, oo, cf, sz, us, sf, ic, ie⟩ := r
  dsimp only at hty hgr hih hil hoff hsf hus hcf hsize hic horig hbound hraw ⊢
  rw [hsize] at hbound hraw
  subst horig
  unfold parseResource
  dsimp only
  rw [hty, hgr, hih, hil, hsf, hus, hcf, hoff]
  rw [if_neg (by omega)]
  rw [hraw, ← hsize, ← hic,
    show inst / 2 ^ 32 * 2 ^ 32 + inst % 2 ^ 32 = inst by omega]

theorem parseResourcesFrom_range_map (b' : List Nat) (m : IndexMetadata)
    (g : Nat → BinaryResource)
    (hsz : m.indexSize = 4 + m.entryCount * INDEX_ENTRY_SIZE)
    (hfit : m.indexOffset + m.indexSize ≤ b'.length)
    (hparse : ∀ j, j < m.entryCount →
      parseResource b' (m.indexOffset + 4 + j * INDEX_ENTRY_SIZE)
        m.dataStartOffset = .ok (g j)) :
    ∀ (fuel i : Nat), i + fuel = m.entryCount →
      parseResourcesFrom b' m i fuel = .ok ((List.range' i fuel).map g) := by
  intro fuel
  induction fuel with
  | zero =>
    intro i hi
    rfl
  | succ fuel ih =>
    intro i hi
    unfold parseResourcesFrom
    rw [if_pos (show i < m.entryCount by omega)]
    rw [if_neg (show ¬(m.indexOffset + m.indexSize <
        m.indexOffset + 4 + i * INDEX_ENTRY_SIZE + INDEX_ENTRY_SIZE) by
      rw [hsz]; simp only [INDEX_ENTRY_SIZE]; omega)]
    rw [if_neg (show ¬(b'.length <
        m.indexOffset + 4 + i * INDEX_ENTRY_SIZE + INDEX_ENTRY_SIZE) by
      rw [hsz] at hfit; simp only [INDEX_ENTRY_SIZE] at hfit ⊢; omega)]
    rw [hparse i (by omega)]
    rw [ih (i + 1) (by omega)]
    rfl

theorem readU32_encodeIndexEntry_0 (r : BinaryResource) (v : Nat) :
    readU32 (encodeIndexEntry r v) 0 = r.tgi.type % 2 ^ 32 := by
  simp only [readU32,
    show byteAt (encodeIndexEntry r v) 0 = r.tgi.type % 2 ^ 8 from rfl,
    show byteAt (encodeIndexEntry r v) (0 + 1) = r.tgi.type / 2 ^ 8 % 2 ^ 8 from rfl,
    show byteAt (encodeIndexEntry r v) (0 + 2) = r.tgi.type / 2 ^ 16 % 2 ^ 8 from rfl,
    show byteAt (encodeIndexEntry r v) (0 + 3) = r.tgi.type / 2 ^ 24 % 2 ^ 8 from rfl]
  omega

theorem readU32_encodeIndexEntry_4 (r : BinaryResource) (v : Nat) :
    readU32 (encodeIndexEntry r v) 4 = r.tgi.group % 2 ^ 32 := by
  simp only [readU32,
    show byteAt (encodeIndexEntry r v) 4 = r.tgi.group % 2 ^ 8 from rfl,
    show byteAt (encodeIndexEntry r v) (4 + 1) = r.tgi.group / 2 ^ 8 % 2 ^ 8 from rfl,
    show byteAt (encodeIndexEntry r v) (4 + 2) = r.tgi.group / 2 ^ 16 % 2 ^ 8 from rfl,
    show byteAt (encodeIndexEntry r v) (4 + 3) = r.tgi.group / 2 ^ 24 % 2 ^ 8 from rfl]
  omega

theorem readU32_encodeIndexEntry_8 (r : BinaryResource) (v : Nat) :
    readU32 (encodeIndexEntry r v) 8 = r.tgi.inst / 2 ^ 32 % 2 ^ 32 := by
  simp only [readU32,
    show byteAt (encodeIndexEntry r v) 8 = r.tgi.inst / 2 ^ 32 % 2 ^ 8 from rfl,
    show byteAt (encodeIndexEntry r v) (8 + 1) =
      r.tgi.inst / 2 ^ 32 / 2 ^ 8 % 2 ^ 8 from rfl,
    show byteAt (encodeIndexEntry r v) (8 + 2) =
      r.tgi.inst / 2 ^ 32 / 2 ^ 16 % 2 ^ 8 from rfl,
    show byteAt (encodeIndexEntry r v) (8 + 3) =
      r.tgi.inst / 2 ^ 32 / 2 ^ 24 % 2 ^ 8 from rfl]
  omega

theorem readU32_encodeIndexEntry_12 (r : BinaryResource) (v : Nat) :
    readU32 (encodeIndexEntry r v) 12 = r.tgi.inst % 2 ^ 32 := by
  simp only [readU32,
    show byteAt (encodeIndexEntry r v) 12 = r.tgi.inst % 2 ^ 32 % 2 ^ 8 from rfl,
    show byteAt (encodeIndexEntry r v) (12 + 1) =
      r.tgi.inst % 2 ^ 32 / 2 ^ 8 % 2 ^ 8 from rfl,
    show byteAt (encodeIndexEntry r v) (12 + 2) =
      r.tgi.inst % 2 ^ 32 / 2 ^ 16 % 2 ^ 8 from rfl,
    show byteAt (encodeIndexEntry r v) (12 + 3) =
      r.tgi.inst % 2 ^ 32 / 2 ^ 24 % 2 ^ 8 from rfl]
  omega

theorem readU32_encodeIndexEntry_16' (r : BinaryResource) (v : Nat) :
    readU32 (encodeIndexEntry r v) 16 = v % 2 ^ 32 := by
  simp only [readU32,
    show byteAt (encodeIndexEntry r v) 16 = v % 2 ^ 8 from rfl,
    show byteAt (encodeIndexEntry r v) (16 + 1) = v / 2 ^ 8 % 2 ^ 8 from rfl,
    show byteAt (encodeIndexEntry r v) (16 + 2) = v / 2 ^ 16 % 2 ^ 8 from rfl,
    show byteAt (encodeIndexEntry r v) (16 + 3) = v / 2 ^ 24 % 2 ^ 8 from rfl]
  omega

theorem readU32_encodeIndexEntry_20 (r : BinaryResource) (v : Nat) :
    readU32 (encodeIndexEntry r v) 20 = r.sizeField % 2 ^ 32 := by
  simp only [readU32,
    show byteAt (encodeIndexEntry r v) 20 = r.sizeField % 2 ^ 8 from rfl,
    show byteAt (encodeIndexEntry r v) (20 + 1) = r.sizeField / 2 ^ 8 % 2 ^ 8 from rfl,
    show byteAt (encodeIndexEntry r v) (20 + 2) = r.sizeField / 2 ^ 16 % 2 ^ 8 from rfl,
    show byteAt (encodeIndexEntry r v) (20 + 3) = r.sizeField / 2 ^ 24 % 2 ^ 8 from rfl]
  omega

theorem readU32_encodeIndexEntry_24 (r : BinaryResource) (v : Nat) :
    readU32 (encodeIndexEntry r v) 24 = r.uncompressedSize % 2 ^ 32 := by
  simp only [readU32,
    show byteAt (encodeIndexEntry r v) 24 = r.uncompressedSize % 2 ^ 8 from rfl,
    show byteAt (encodeIndexEntry r v) (24 + 1) =
      r.uncompressedSize / 2 ^ 8 % 2 ^ 8 from rfl,
    show byteAt (encodeIndexEntry r v) (24 + 2) =
      r.uncompressedSize / 2 ^ 16 % 2 ^ 8 from rfl,
    show byteAt (encodeIndexEntry r v) (24 + 3) =
      r.uncompressedSize / 2 ^ 24 % 2 ^ 8 from rfl]
  omega

theorem readU16_encodeIndexEntry_28 (r : BinaryResource) (v : Nat) :
    readU16 (encodeIndexEntry r v) 28 = r.compressionFlags % 2 ^ 16 := by
  simp only [readU16,
    show byteAt (encodeIndexEntry r v) 28 = r.compressionFlags % 2 ^ 8 from rfl,
    show byteAt (encodeIndexEntry r v) (28 + 1) =
      r.compressionFlags / 2 ^ 8 % 2 ^ 8 from rfl]
  omega

theorem rebuildDataOffsetValue_ok (r : BinaryResource) (i flags ds : Nat)
    (hge : ds ≤ r.offset) :
    rebuildDataOffsetValue r i flags ds =
      .ok (if flags = 4 then
        (if i = 0 then r.offset % 2 ^ 32 else orBit31 (r.offset - ds))
       else r.offset % 2 ^ 32) := by
  unfold rebuildDataOffsetValue
  by_cases hf : flags = 4
  · rw [if_pos hf, if_pos hf, if_neg (Nat.not_lt.mpr hge)]
    by_cases hi : i = 0
    · rw [if_pos hi, if_pos hi]
    · rw [if_neg hi, if_neg hi]
  · rw [if_neg hf, if_neg hf]

theorem rebuildIndexEntries_decomp (flags ds : Nat) :
    ∀ (rs : List BinaryResource) (i : Nat),
      (∀ r ∈ rs, ds ≤ r.offset) →
      ∃ es, rebuildIndexEntries flags ds rs i = .ok es ∧
        es.length = 32 * rs.length ∧
        ∀ j (hj : j < rs.length),
          ∃ v, rebuildDataOffsetValue (rs.get ⟨j, hj⟩) (i + j) flags ds = .ok v ∧
            ∀ k, k < 32 →
              byteAt es (32 * j + k) =
                byteAt (encodeIndexEntry (rs.get ⟨j, hj⟩) v) k := by
  intro rs
  induction rs with
  | nil =>
    intro i _
    exact ⟨[], rfl, rfl, fun j hj => absurd hj (by simp)⟩
  | cons r rest ih =>
    intro i hge
    obtain ⟨tail, htail, htlen, hent⟩ :=
      ih (i + 1) (fun r' hr' => hge r' (List.mem_cons_of_mem r hr'))
    have hv0 := rebuildDataOffsetValue_ok r i flags ds
      (hge r (List.mem_cons_self r rest))
    refine ⟨encodeIndexEntry r
      (if flags = 4 then
        (if i = 0 then r.offset % 2 ^ 32 else orBit31 (r.offset - ds))
       else r.offset % 2 ^ 32) ++ tail, ?_, ?_, ?_⟩
    · unfold rebuildIndexEntries
      rw [hv0, htail]
    · rw [List.length_append, encodeIndexEntry_length, htlen, List.length_cons]
      omega
    · intro j hj
      cases j with
      | zero =>
        refine ⟨(if flags = 4 then
            (if i = 0 then r.offset % 2 ^ 32 else orBit31 (r.offset - ds))
           else r.offset % 2 ^ 32), ?_, ?_⟩
        · rw [show i + 0 = i from rfl]
          exact hv0
        · intro k hk
          simp only [Nat.mul_zero, Nat.zero_add]
          rw [byteAt_append, encodeIndexEntry_length, if_pos hk]
          rfl
      | succ j' =>
        have hj' : j' < rest.length := by
          simp only [List.length_cons] at hj
          omega
        obtain ⟨v, hvok, hbytes⟩ := hent j' hj'
        refine ⟨v, ?_, ?_⟩
        · rw [show i + (j' + 1) = i + 1 + j' by omega]
          exact hvok
        · intro k hk
          rw [byteAt_append, encodeIndexEntry_length,
            if_neg (show ¬(32 * (j' + 1) + k < 32) by omega),
            show 32 * (j' + 1) + k - 32 = 32 * j' + k by omega]
          exact hbytes k hk

/-- The first `HEADER_SIZE` bytes `DbpfBinary.write` produces: the snapshot's
header with the entry count, index size and 64-bit index offset patched at
their fixed offsets. -/
def patchedHeader (s : DbpfBinaryStructure) (t : List Nat) : List Nat :=
  writeU32At (writeU32At (writeU32At (writeU32At s.header s.resources.length
    INDEX_ENTRY_COUNT_OFFSET) t.length INDEX_SIZE_OFFSET)
    (writeDataEnd s % 2 ^ 32) INDEX_OFFSET_LOW)
    (writeDataEnd s / 2 ^ 32) INDEX_OFFSET_HIGH

theorem patchedHeader_length (s : DbpfBinaryStructure) (t : List Nat) :
    (patchedHeader s t).length = s.header.length := by
  simp only [patchedHeader, writeU32At_length]

theorem byteAt_replicate_zero (n p : Nat) :
    byteAt (List.replicate n 0) p = 0 := by
  unfold byteAt
  rcases lt_or_le p n with h | h
  · rw [List.getD_eq_getElem?_getD,
      List.getElem?_eq_getElem (by simpa using h), List.getElem_replicate]
    rfl
  · exact byteAt_eq_zero_of_le _ p (by simpa using h)

theorem assembleWrittenBuffer_length (s : DbpfBinaryStructure) (t : List Nat) :
    (assembleWrittenBuffer s t).length = writeDataEnd s + t.length := by
  unfold assembleWrittenBuffer
  dsimp only
  rw [blit_length, foldl_blit_length, writeU32At_length, writeU32At_length,
    writeU32At_length, writeU32At_length, blit_length, List.length_replicate]

theorem byteAt_assemble_table (s : DbpfBinaryStructure) (t : List Nat) (p : Nat)
    (h1 : writeDataEnd s ≤ p) (h2 : p < writeDataEnd s + t.length) :
    byteAt (assembleWrittenBuffer s t) p = byteAt t (p - writeDataEnd s) := by
  unfold assembleWrittenBuffer
  dsimp only
  rw [byteAt_blit, foldl_blit_length, writeU32At_length, writeU32At_length,
    writeU32At_length, writeU32At_length, blit_length, List.length_replicate]
  rw [if_pos h2, if_pos ⟨h1, h2⟩]

theorem byteAt_assemble_data_covered (s : DbpfBinaryStructure) (t : List Nat)
    (f : Nat → Nat)
    (hagree : ∀ r ∈ s.resources, ∀ j, j < r.rawData.length →
      byteAt r.rawData j = f (r.offset + j))
    (p : Nat)
    (hc : ∃ r ∈ s.resources, r.offset ≤ p ∧ p < r.offset + r.rawData.length)
    (hp : p < writeDataEnd s) :
    byteAt (assembleWrittenBuffer s t) p = f p := by
  unfold assembleWrittenBuffer
  dsimp only
  rw [byteAt_blit, foldl_blit_length, writeU32At_length, writeU32At_length,
    writeU32At_length, writeU32At_length, blit_length, List.length_replicate]
  rw [if_pos (by omega), if_neg (by omega)]
  exact byteAt_foldl_blit_covered _ f p _ hagree hc
    (by rw [writeU32At_length, writeU32At_length, writeU32At_length,
      writeU32At_length, blit_length, List.length_replicate]; omega)

theorem byteAt_assemble_data_uncovered (s : DbpfBinaryStructure) (t : List Nat)
    (p : Nat)
    (hnc : ∀ r ∈ s.resources, ¬(r.offset ≤ p ∧ p < r.offset + r.rawData.length))
    (hhdr : HEADER_SIZE ≤ p) (hp : p < writeDataEnd s) :
    byteAt (assembleWrittenBuffer s t) p = 0 := by
  unfold assembleWrittenBuffer
  dsimp only
  rw [byteAt_blit, foldl_blit_length, writeU32At_length, writeU32At_length,
    writeU32At_length, writeU32At_length, blit_length, List.length_replicate]
  rw [if_pos (by omega), if_neg (by omega)]
  rw [byteAt_foldl_blit_uncovered _ p _ hnc]
  have hh : (0x48 : Nat) ≤ p := by
    simp only [HEADER_SIZE] at hhdr
    omega
  rw [byteAt_writeU32At_outside _ _ _ _
    (Or.inr (by simp only [INDEX_OFFSET_HIGH]; omega))]
  rw [if_pos (by rw [writeU32At_length, writeU32At_length, writeU32At_length,
    blit_length, List.length_replicate]; omega)]
  rw [byteAt_writeU32At_outside _ _ _ _
    (Or.inr (by simp only [INDEX_OFFSET_LOW]; omega))]
  rw [if_pos (by rw [writeU32At_length, writeU32At_length,
    blit_length, List.length_replicate]; omega)]
  rw [byteAt_writeU32At_outside _ _ _ _
    (Or.inr (by simp only [INDEX_SIZE_OFFSET]; omega))]
  rw [if_pos (by rw [writeU32At_length,
    blit_length, List.length_replicate]; omega)]
  rw [byteAt_writeU32At_outside _ _ _ _
    (Or.inr (by simp only [INDEX_ENTRY_COUNT_OFFSET]; omega))]
  rw [if_pos (by rw [blit_length, List.length_replicate]; omega)]
  rw [byteAt_blit]
  rw [if_pos (by rw [List.length_replicate]; omega)]
  rw [if_neg (by
    have : (s.header.take HEADER_SIZE).length ≤ HEADER_SIZE := by
      rw [List.length_take]; omega
    omega)]
  exact byteAt_replicate_zero _ _

theorem byteAt_writeU32At_congr (b c : List Nat) (v off p : Nat)
    (hpb : p < b.length) (hpc : p < c.length)
    (h : byteAt b p = byteAt c p) :
    byteAt (writeU32At b v off) p = byteAt (writeU32At c v off) p := by
  rw [byteAt_writeU32At, byteAt_writeU32At, if_pos hpb, if_pos hpc]
  by_cases hw : off ≤ p ∧ p < off + 4
  · rw [if_pos hw, if_pos hw]
  · rw [if_neg hw, if_neg hw, h]

theorem byteAt_assemble_header (s : DbpfBinaryStructure) (t : List Nat) (p : Nat)
    (hp96 : p < HEADER_SIZE)
    (hhl : s.header.length = HEADER_SIZE)
    (h96wd : HEADER_SIZE ≤ writeDataEnd s)
    (hros : ∀ r ∈ s.resources, HEADER_SIZE ≤ r.offset) :
    byteAt (assembleWrittenBuffer s t) p = byteAt (patchedHeader s t) p := by
  unfold assembleWrittenBuffer patchedHeader
  dsimp only
  rw [byteAt_blit, foldl_blit_length, writeU32At_length, writeU32At_length,
    writeU32At_length, writeU32At_length, blit_length, List.length_replicate]
  rw [if_pos (by omega), if_neg (by omega)]
  rw [byteAt_foldl_blit_uncovered _ p _
    (fun r hr hcov => absurd hcov (by have := hros r hr; omega))]
  have hlen1 : (blit (List.replicate (writeDataEnd s + t.length) 0)
      (s.header.take HEADER_SIZE) 0).length = writeDataEnd s + t.length := by
    rw [blit_length, List.length_replicate]
  have hbase : byteAt (blit (List.replicate (writeDataEnd s + t.length) 0)
      (s.header.take HEADER_SIZE) 0) p = byteAt s.header p := by
    rw [byteAt_blit, List.length_replicate, if_pos (by omega)]
    rw [if_pos (by
      constructor
      · exact Nat.zero_le p
      · rw [List.length_take, hhl, Nat.min_self]
        omega)]
    rw [Nat.sub_zero, byteAt_take, if_pos hp96]
  refine byteAt_writeU32At_congr _ _ _ _ _ ?_ ?_
    (byteAt_writeU32At_congr _ _ _ _ _ ?_ ?_
      (byteAt_writeU32At_congr _ _ _ _ _ ?_ ?_
        (byteAt_writeU32At_congr _ _ _ _ _ ?_ ?_ hbase)))
  · rw [writeU32At_length, writeU32At_length, writeU32At_length, hlen1]; omega
  · rw [writeU32At_length, writeU32At_length, writeU32At_length, hhl]; omega
  · rw [writeU32At_length, writeU32At_length, hlen1]; omega
  · rw [writeU32At_length, writeU32At_length, hhl]; omega
  · rw [writeU32At_length, hlen1]; omega
  · rw [writeU32At_length, hhl]; omega
  · rw [hlen1]; omega
  · rw [hhl]; omega

theorem readU32_patchedHeader_high (s : DbpfBinaryStructure) (t : List Nat)
    (hhl : s.header.length = HEADER_SIZE) :
    readU32 (patchedHeader s t) INDEX_OFFSET_HIGH =
      writeDataEnd s / 2 ^ 32 % 2 ^ 32 := by
  unfold patchedHeader
  apply readU32_writeU32At_same
  rw [writeU32At_length, writeU32At_length, writeU32At_length, hhl]
  decide

theorem readU32_patchedHeader_low (s : DbpfBinaryStructure) (t : List Nat)
    (hhl : s.header.length = HEADER_SIZE) :
    readU32 (patchedHeader s t) INDEX_OFFSET_LOW = writeDataEnd s % 2 ^ 32 := by
  unfold patchedHeader
  rw [readU32_writeU32At_outside _ _ _ _ (Or.inl (by decide))
    (by rw [writeU32At_length, writeU32At_length, writeU32At_length, hhl]; decide)]
  rw [readU32_writeU32At_same _ _ _
    (by rw [writeU32At_length, writeU32At_length, hhl]; decide)]
  omega

theorem readU32_patchedHeader_size (s : DbpfBinaryStructure) (t : List Nat)
    (hhl : s.header.length = HEADER_SIZE) :
    readU32 (patchedHeader s t) INDEX_SIZE_OFFSET = t.length % 2 ^ 32 := by
  unfold patchedHeader
  rw [readU32_writeU32At_outside _ _ _ _ (Or.inl (by decide))
    (by rw [writeU32At_length, writeU32At_length, writeU32At_length, hhl]; decide)]
  rw [readU32_writeU32At_outside _ _ _ _ (Or.inl (by decide))
    (by rw [writeU32At_length, writeU32At_length, hhl]; decide)]
  exact readU32_writeU32At_same _ _ _ (by rw [writeU32At_length, hhl]; decide)

theorem readU32_patchedHeader_count (s : DbpfBinaryStructure) (t : List Nat)
    (hhl : s.header.length = HEADER_SIZE) :
    readU32 (patchedHeader s t) INDEX_ENTRY_COUNT_OFFSET =
      s.resources.length % 2 ^ 32 := by
  unfold patchedHeader
  rw [readU32_writeU32At_outside _ _ _ _ (Or.inl (by decide))
    (by rw [writeU32At_length, writeU32At_length, writeU32At_length, hhl]; decide)]
  rw [readU32_writeU32At_outside _ _ _ _ (Or.inl (by decide))
    (by rw [writeU32At_length, writeU32At_length, hhl]; decide)]
  rw [readU32_writeU32At_outside _ _ _ _ (Or.inl (by decide))
    (by rw [writeU32At_length, hhl]; decide)]
  exact readU32_writeU32At_same _ _ _ (by rw [hhl]; decide)

theorem readU32_patchedHeader_data (s : DbpfBinaryStructure) (t : List Nat)
    (hhl : s.header.length = HEADER_SIZE) :
    readU32 (patchedHeader s t) DATA_OFFSET = readU32 s.header DATA_OFFSET := by
  unfold patchedHeader
  rw [readU32_writeU32At_outside _ _ _ _ (Or.inl (by decide))
    (by rw [writeU32At_length, writeU32At_length, writeU32At_length, hhl]; decide)]
  rw [readU32_writeU32At_outside _ _ _ _ (Or.inl (by decide))
    (by rw [writeU32At_length, writeU32At_length, hhl]; decide)]
  rw [readU32_writeU32At_outside _ _ _ _ (Or.inr (by decide))
    (by rw [writeU32At_length, hhl]; decide)]
  rw [readU32_writeU32At_outside _ _ _ _ (Or.inr (by decide))
    (by rw [hhl]; decide)]

theorem byteAt_patchedHeader_lowbytes (s : DbpfBinaryStructure) (t : List Nat)
    (k : Nat) (hk : k < INDEX_ENTRY_COUNT_OFFSET)
    (hhl : s.header.length = HEADER_SIZE) :
    byteAt (patchedHeader s t) k = byteAt s.header k := by
  unfold patchedHeader
  simp only [INDEX_ENTRY_COUNT_OFFSET] at hk
  have hk96 : k < HEADER_SIZE := lt_of_lt_of_le hk (by decide)
  rw [byteAt_writeU32At_outside _ _ _ _ (Or.inl (by simp only [INDEX_OFFSET_HIGH]; omega))]
  rw [if_pos (by rw [writeU32At_length, writeU32At_length, writeU32At_length, hhl]; exact hk96)]
  rw [byteAt_writeU32At_outside _ _ _ _ (Or.inl (by simp only [INDEX_OFFSET_LOW]; omega))]
  rw [if_pos (by rw [writeU32At_length, writeU32At_length, hhl]; exact hk96)]
  rw [byteAt_writeU32At_outside _ _ _ _ (Or.inl (by simp only [INDEX_SIZE_OFFSET]; omega))]
  rw [if_pos (by rw [writeU32At_length, hhl]; exact hk96)]
  rw [byteAt_writeU32At_outside _ _ _ _ (Or.inl (by simp only [INDEX_ENTRY_COUNT_OFFSET]; omega))]
  rw [if_pos (by rw [hhl]; exact hk96)]

theorem readU32_assemble_header_field (s : DbpfBinaryStructure) (t : List Nat)
    (off : Nat) (hoff96 : off + 4 ≤ HEADER_SIZE)
    (hhl : s.header.length = HEADER_SIZE)
    (h96wd : HEADER_SIZE ≤ writeDataEnd s)
    (hros : ∀ r ∈ s.resources, HEADER_SIZE ≤ r.offset) :
    readU32 (assembleWrittenBuffer s t) off = readU32 (patchedHeader s t) off := by
  apply readU32_congr
  intro k hk
  exact byteAt_assemble_header s t (off + k) (by omega) hhl h96wd hros

theorem assemble_metadata (s : DbpfBinaryStructure)
    (t : List Nat)
    (hhl : s.header.length = HEADER_SIZE)
    (hmag : (s.header.take 4).map (· % 128) = dbpfMagic)
    (hds : (if readU32 s.header DATA_OFFSET = 0 then 0x60
        else readU32 s.header DATA_OFFSET) = s.dataStartOffset)
    (h96wd : HEADER_SIZE ≤ writeDataEnd s)
    (hwd32 : writeDataEnd s < 2 ^ 32)
    (hros : ∀ r ∈ s.resources, HEADER_SIZE ≤ r.offset)
    (htlen : t.length = 4 + s.resources.length * INDEX_ENTRY_SIZE)
    (ht32 : t.length < 2 ^ 32)
    (hn32 : s.resources.length < 2 ^ 32) :
    ensureMagic (assembleWrittenBuffer s t) = true ∧
    readIndexMetadata (assembleWrittenBuffer s t) = .ok
      { indexFlags := readU32 (assembleWrittenBuffer s t) (writeDataEnd s),
        entryCount := s.resources.length, indexSize := t.length,
        indexOffset := writeDataEnd s, dataStartOffset := s.dataStartOffset } := by
  have hlen' := assembleWrittenBuffer_length s t
  have h24 : readU32 (assembleWrittenBuffer s t) INDEX_ENTRY_COUNT_OFFSET =
      s.resources.length := by
    rw [readU32_assemble_header_field s t _ (by decide) hhl h96wd hros]
    rw [readU32_patchedHeader_count s t hhl]
    exact Nat.mod_eq_of_lt hn32
  have h2c : readU32 (assembleWrittenBuffer s t) INDEX_SIZE_OFFSET = t.length := by
    rw [readU32_assemble_header_field s t _ (by decide) hhl h96wd hros]
    rw [readU32_patchedHeader_size s t hhl]
    exact Nat.mod_eq_of_lt ht32
  have h40 : readU32 (assembleWrittenBuffer s t) INDEX_OFFSET_LOW =
      writeDataEnd s := by
    rw [readU32_assemble_header_field s t _ (by decide) hhl h96wd hros]
    rw [readU32_patchedHeader_low s t hhl]
    exact Nat.mod_eq_of_lt hwd32
  have h44 : readU32 (assembleWrittenBuffer s t) INDEX_OFFSET_HIGH = 0 := by
    rw [readU32_assemble_header_field s t _ (by decide) hhl h96wd hros]
    rw [readU32_patchedHeader_high s t hhl]
    rw [Nat.div_eq_of_lt hwd32]
    rfl
  have h30 : readU32 (assembleWrittenBuffer s t) DATA_OFFSET =
      readU32 s.header DATA_OFFSET := by
    rw [readU32_assemble_header_field s t _ (by decide) hhl h96wd hros]
    exact readU32_patchedHeader_data s t hhl
  have htake : (assembleWrittenBuffer s t).take 4 = s.header.take 4 := by
    apply list_eq_of_byteAt_eq
    · rw [List.length_take, List.length_take, hlen', hhl]
      have h4a : (4 : Nat) ≤ HEADER_SIZE := by decide
      omega
    · intro i hi
      rw [List.length_take, hlen'] at hi
      have hi4 : i < 4 := by omega
      rw [byteAt_take, byteAt_take, if_pos hi4, if_pos hi4]
      rw [byteAt_assemble_header s t i (lt_of_lt_of_le hi4 (by decide)) hhl
        h96wd hros]
      exact byteAt_patchedHeader_lowbytes s t i
        (lt_of_lt_of_le hi4 (by decide)) hhl
  have hmag' : ensureMagic (assembleWrittenBuffer s t) = true := by
    unfold ensureMagic
    rw [htake, hmag]
    simp
  refine ⟨hmag', ?_⟩
  unfold readIndexMetadata
  dsimp only
  rw [h24, h2c, h40, h44, h30, hds, assembleWrittenBuffer_length]
  simp only [Nat.zero_mul, Nat.add_zero]
  rw [if_neg (by omega), if_neg (by omega), if_neg (by omega)]

/-- Placeholder resource used only as the default of `List.getD`. -/
def dummyResource : BinaryResource :=
  { tgi := ⟨0, 0, 0⟩, rawData := [], offset := 0, originalOffset := 0,
    compressionFlags := 0, size := 0, uncompressedSize := 0, sizeField := 0,
    isCompressed := false, indexEntry := [] }

set_option maxHeartbeats 1000000 in
theorem assemble_reread (H : List Nat → List Nat) (s : DbpfBinaryStructure)
    (t : List Nat) (f : Nat → Nat)
    (hhl : s.header.length = HEADER_SIZE)
    (hmag : (s.header.take 4).map (· % 128) = dbpfMagic)
    (hds : (if readU32 s.header DATA_OFFSET = 0 then 0x60
        else readU32 s.header DATA_OFFSET) = s.dataStartOffset)
    (h96wd : HEADER_SIZE ≤ writeDataEnd s)
    (hwd32 : writeDataEnd s < 2 ^ 32)
    (hros : ∀ r ∈ s.resources, HEADER_SIZE ≤ r.offset)
    (htlen : t.length = 4 + s.resources.length * INDEX_ENTRY_SIZE)
    (ht32 : t.length < 2 ^ 32)
    (hn32 : s.resources.length < 2 ^ 32)
    (hagree : ∀ r ∈ s.resources, ∀ j, j < r.rawData.length →
      byteAt r.rawData j = f (r.offset + j))
    (hrlen : ∀ r ∈ s.resources, r.rawData.length = r.size)
    (hrf : ∀ r ∈ s.resources, r.size = r.sizeField % 2 ^ 31 ∧
      r.isCompressed = (r.sizeField / 2 ^ 31 == 1) ∧ r.originalOffset = r.offset)
    (hfields : ∀ j (hj : j < s.resources.length),
      readU32 t (4 + j * INDEX_ENTRY_SIZE) = (s.resources.get ⟨j, hj⟩).tgi.type ∧
      readU32 t (4 + j * INDEX_ENTRY_SIZE + 4) =
        (s.resources.get ⟨j, hj⟩).tgi.group ∧
      readU32 t (4 + j * INDEX_ENTRY_SIZE + 8) =
        (s.resources.get ⟨j, hj⟩).tgi.inst / 2 ^ 32 ∧
      readU32 t (4 + j * INDEX_ENTRY_SIZE + 12) =
        (s.resources.get ⟨j, hj⟩).tgi.inst % 2 ^ 32 ∧
      (if 2 ^ 31 ≤ readU32 t (4 + j * INDEX_ENTRY_SIZE + 16) then
        readU32 t (4 + j * INDEX_ENTRY_SIZE + 16) % 2 ^ 31 + s.dataStartOffset
       else readU32 t (4 + j * INDEX_ENTRY_SIZE + 16)) =
        (s.resources.get ⟨j, hj⟩).offset ∧
      readU32 t (4 + j * INDEX_ENTRY_SIZE + 20) =
        (s.resources.get ⟨j, hj⟩).sizeField ∧
      readU32 t (4 + j * INDEX_ENTRY_SIZE + 24) =
        (s.resources.get ⟨j, hj⟩).uncompressedSize ∧
      readU16 t (4 + j * INDEX_ENTRY_SIZE + 28) =
        (s.resources.get ⟨j, hj⟩).compressionFlags) :
    ∃ s', dbpfRead H (assembleWrittenBuffer s t) = .ok s' ∧
      s'.resources.length = s.resources.length ∧
      (∀ j (hj : j < s.resources.length) (hj' : j < s'.resources.length),
        (s'.resources.get ⟨j, hj'⟩).rawData =
          (s.resources.get ⟨j, hj⟩).rawData ∧
        (s'.resources.get ⟨j, hj'⟩).compressionFlags =
          (s.resources.get ⟨j, hj⟩).compressionFlags) := by
  obtain ⟨hmag', hrm⟩ :=
    assemble_metadata s t hhl hmag hds h96wd hwd32 hros htlen ht32 hn32
  have hlen' := assembleWrittenBuffer_length s t
  have htb : ∀ q, q < t.length →
      byteAt (assembleWrittenBuffer s t) (writeDataEnd s + q) = byteAt t q := by
    intro q hq
    rw [byteAt_assemble_table s t _ (by omega) (by omega),
      Nat.add_sub_cancel_left]
  have hrt : ∀ q, q + 4 ≤ t.length →
      readU32 (assembleWrittenBuffer s t) (writeDataEnd s + q) = readU32 t q := by
    intro q hq
    apply readU32_congr
    intro k hk
    rw [Nat.add_assoc]
    exact htb (q + k) (by omega)
  have hrt16 : ∀ q, q + 2 ≤ t.length →
      readU16 (assembleWrittenBuffer s t) (writeDataEnd s + q) = readU16 t q := by
    intro q hq
    apply readU16_congr
    intro k hk
    rw [Nat.add_assoc]
    exact htb (q + k) (by omega)
  have hparse : ∀ j, j < s.resources.length →
      parseResource (assembleWrittenBuffer s t)
        (writeDataEnd s + 4 + j * INDEX_ENTRY_SIZE) s.dataStartOffset =
      .ok { s.resources.getD j dummyResource with
            indexEntry := subarray (assembleWrittenBuffer s t)
              (writeDataEnd s + 4 + j * INDEX_ENTRY_SIZE)
              (writeDataEnd s + 4 + j * INDEX_ENTRY_SIZE + INDEX_ENTRY_SIZE) } := by
    intro j hj
    have hget : s.resources.getD j dummyResource = s.resources.get ⟨j, hj⟩ :=
      List.getD_eq_getElem s.resources dummyResource hj
    rw [hget]
    obtain ⟨hty, hgr, hih, hil, hoff, hsf, hus, hcf⟩ := hfields j hj
    have hmem : s.resources.get ⟨j, hj⟩ ∈ s.resources := List.get_mem ..
    obtain ⟨hsz1, hic1, horig1⟩ := hrf _ hmem
    have hjt : 4 + j * INDEX_ENTRY_SIZE + 32 ≤ t.length := by
      simp only [INDEX_ENTRY_SIZE] at htlen ⊢
      omega
    have e0 : readU32 (assembleWrittenBuffer s t)
        (writeDataEnd s + 4 + j * INDEX_ENTRY_SIZE) =
        readU32 t (4 + j * INDEX_ENTRY_SIZE) := by
      rw [show writeDataEnd s + 4 + j * INDEX_ENTRY_SIZE =
        writeDataEnd s + (4 + j * INDEX_ENTRY_SIZE) by omega]
      exact hrt _ (by omega)
    have e4 : readU32 (assembleWrittenBuffer s t)
        (writeDataEnd s + 4 + j * INDEX_ENTRY_SIZE + 4) =
        readU32 t (4 + j * INDEX_ENTRY_SIZE + 4) := by
      rw [show writeDataEnd s + 4 + j * INDEX_ENTRY_SIZE + 4 =
        writeDataEnd s + (4 + j * INDEX_ENTRY_SIZE + 4) by omega]
      exact hrt _ (by omega)
    have e8 : readU32 (assembleWrittenBuffer s t)
        (writeDataEnd s + 4 + j * INDEX_ENTRY_SIZE + 8) =
        readU32 t (4 + j * INDEX_ENTRY_SIZE + 8) := by
      rw [show writeDataEnd s + 4 + j * INDEX_ENTRY_SIZE + 8 =
        writeDataEnd s + (4 + j * INDEX_ENTRY_SIZE + 8) by omega]
      exact hrt _ (by omega)
    have e12 : readU32 (assembleWrittenBuffer s t)
        (writeDataEnd s + 4 + j * INDEX_ENTRY_SIZE + 12) =
        readU32 t (4 + j * INDEX_ENTRY_SIZE + 12) := by
      rw [show writeDataEnd s + 4 + j * INDEX_ENTRY_SIZE + 12 =
        writeDataEnd s + (4 + j * INDEX_ENTRY_SIZE + 12) by omega]
      exact hrt _ (by omega)
    have e16 : readU32 (assembleWrittenBuffer s t)
        (writeDataEnd s + 4 + j * INDEX_ENTRY_SIZE + 16) =
        readU32 t (4 + j * INDEX_ENTRY_SIZE + 16) := by
      rw [show writeDataEnd s + 4 + j * INDEX_ENTRY_SIZE + 16 =
        writeDataEnd s + (4 + j * INDEX_ENTRY_SIZE + 16) by omega]
      exact hrt _ (by omega)
    have e20 : readU32 (assembleWrittenBuffer s t)
        (writeDataEnd s + 4 + j * INDEX_ENTRY_SIZE + 20) =
        readU32 t (4 + j * INDEX_ENTRY_SIZE + 20) := by
      rw [show writeDataEnd s + 4 + j * INDEX_ENTRY_SIZE + 20 =
        writeDataEnd s + (4 + j * INDEX_ENTRY_SIZE + 20) by omega]
      exact hrt _ (by omega)
    have e24 : readU32 (assembleWrittenBuffer s t)
        (writeDataEnd s + 4 + j * INDEX_ENTRY_SIZE + 24) =
        readU32 t (4 + j * INDEX_ENTRY_SIZE + 24) := by
      rw [show writeDataEnd s + 4 + j * INDEX_ENTRY_SIZE + 24 =
        writeDataEnd s + (4 + j * INDEX_ENTRY_SIZE + 24) by omega]
      exact hrt _ (by omega)
    have e28 : readU16 (assembleWrittenBuffer s t)
        (writeDataEnd s + 4 + j * INDEX_ENTRY_SIZE + 28) =
        readU16 t (4 + j * INDEX_ENTRY_SIZE + 28) := by
      rw [show writeDataEnd s + 4 + j * INDEX_ENTRY_SIZE + 28 =
        writeDataEnd s + (4 + j * INDEX_ENTRY_SIZE + 28) by omega]
      exact hrt16 _ (by omega)
    have hbound : (s.resources.get ⟨j, hj⟩).offset +
        (s.resources.get ⟨j, hj⟩).size ≤ (assembleWrittenBuffer s t).length := by
      have := le_writeDataEnd_of_mem s _ hmem
      omega
    have hraw : subarray (assembleWrittenBuffer s t)
        ((s.resources.get ⟨j, hj⟩).offset)
        ((s.resources.get ⟨j, hj⟩).offset + (s.resources.get ⟨j, hj⟩).size) =
        (s.resources.get ⟨j, hj⟩).rawData := by
      apply list_eq_of_byteAt_eq
      · rw [subarray_length _ _ _ hbound, Nat.add_sub_cancel_left,
          hrlen _ hmem]
      · intro i hilen
        rw [subarray_length _ _ _ hbound, Nat.add_sub_cancel_left] at hilen
        rw [byteAt_subarray, if_pos (by omega)]
        have hwdle := le_writeDataEnd_of_mem s _ hmem
        rw [byteAt_assemble_data_covered s t f hagree _
          ⟨s.resources.get ⟨j, hj⟩, hmem, by
            have := hrlen _ hmem
            omega⟩ (by omega)]
        exact (hagree _ hmem i (by rw [hrlen _ hmem]; omega)).symm
    exact parseResource_of_fields _ _ _ _
      (e0.trans hty) (e4.trans hgr) (e8.trans hih) (e12.trans hil)
      (by rw [e16]; exact hoff) (e20.trans hsf) (e24.trans hus)
      (e28.trans hcf) hsz1 hic1 horig1 hbound hraw
  have hpr : parseResources (assembleWrittenBuffer s t)
      { indexFlags := readU32 (assembleWrittenBuffer s t) (writeDataEnd s),
        entryCount := s.resources.length, indexSize := t.length,
        indexOffset := writeDataEnd s, dataStartOffset := s.dataStartOffset } =
      .ok ((List.range s.resources.length).map (fun j =>
        { s.resources.getD j dummyResource with
          indexEntry := subarray (assembleWrittenBuffer s t)
            (writeDataEnd s + 4 + j * INDEX_ENTRY_SIZE)
            (writeDataEnd s + 4 + j * INDEX_ENTRY_SIZE + INDEX_ENTRY_SIZE) })) := by
    unfold parseResources
    rw [List.range_eq_range']
    exact parseResourcesFrom_range_map (assembleWrittenBuffer s t)
      { indexFlags := readU32 (assembleWrittenBuffer s t) (writeDataEnd s),
        entryCount := s.resources.length, indexSize := t.length,
        indexOffset := writeDataEnd s, dataStartOffset := s.dataStartOffset }
      (fun j =>
        { s.resources.getD j dummyResource with
          indexEntry := subarray (assembleWrittenBuffer s t)
            (writeDataEnd s + 4 + j * INDEX_ENTRY_SIZE)
            (writeDataEnd s + 4 + j * INDEX_ENTRY_SIZE + INDEX_ENTRY_SIZE) })
      htlen (le_of_eq hlen'.symm)
      (fun j hj => hparse j hj) s.resources.length 0 (Nat.zero_add _)
  have hex : ∃ s2, dbpfRead H (assembleWrittenBuffer s t) = .ok s2 := by
    unfold dbpfRead
    rw [if_neg (show ¬((assembleWrittenBuffer s t).length < HEADER_SIZE) by
      omega)]
    unfold buildStructure
    rw [if_neg (not_not_intro hmag')]
    rw [hrm]
    dsimp only
    rw [hpr]
    exact ⟨_, rfl⟩
  obtain ⟨s', hread'⟩ := hex
  obtain ⟨m2, hm2, hpres2, -, -, -, -, -, -, -, -, -⟩ :=
    dbpfRead_ok_inv H _ s' hread'
  rw [hrm] at hm2
  simp only [Except.ok.injEq] at hm2
  subst hm2
  rw [hpr] at hpres2
  simp only [Except.ok.injEq] at hpres2
  refine ⟨s', hread', ?_, ?_⟩
  · rw [← hpres2, List.length_map, List.length_range]
  · intro j hj hj'
    have hget' : s'.resources.get ⟨j, hj'⟩ =
        { s.resources.getD j dummyResource with
          indexEntry := subarray (assembleWrittenBuffer s t)
            (writeDataEnd s + 4 + j * INDEX_ENTRY_SIZE)
            (writeDataEnd s + 4 + j * INDEX_ENTRY_SIZE + INDEX_ENTRY_SIZE) } := by
      rw [List.get_of_eq hpres2.symm ⟨j, hj'⟩, List.get_eq_getElem,
        List.getElem_map, List.getElem_range]
    rw [hget', List.getD_eq_getElem s.resources dummyResource hj]
    exact ⟨rfl, rfl⟩

theorem byteAt_patchedHeader_char (s : DbpfBinaryStructure) (t : List Nat)
    (p : Nat) (hp : p < HEADER_SIZE) (hhl : s.header.length = HEADER_SIZE) :
    byteAt (patchedHeader s t) p =
      if INDEX_OFFSET_HIGH ≤ p ∧ p < INDEX_OFFSET_HIGH + 4 then
        byteAt (u32Bytes (writeDataEnd s / 2 ^ 32)) (p - INDEX_OFFSET_HIGH)
      else if INDEX_OFFSET_LOW ≤ p ∧ p < INDEX_OFFSET_LOW + 4 then
        byteAt (u32Bytes (writeDataEnd s % 2 ^ 32)) (p - INDEX_OFFSET_LOW)
      else if INDEX_SIZE_OFFSET ≤ p ∧ p < INDEX_SIZE_OFFSET + 4 then
        byteAt (u32Bytes t.length) (p - INDEX_SIZE_OFFSET)
      else if INDEX_ENTRY_COUNT_OFFSET ≤ p ∧ p < INDEX_ENTRY_COUNT_OFFSET + 4 then
        byteAt (u32Bytes s.resources.length) (p - INDEX_ENTRY_COUNT_OFFSET)
      else byteAt s.header p := by
  unfold patchedHeader
  rw [byteAt_writeU32At, if_pos (by
    rw [writeU32At_length, writeU32At_length, writeU32At_length, hhl]
    exact hp)]
  by_cases h4 : INDEX_OFFSET_HIGH ≤ p ∧ p < INDEX_OFFSET_HIGH + 4
  · rw [if_pos h4, if_pos h4]
  · rw [if_neg h4, if_neg h4]
    rw [byteAt_writeU32At, if_pos (by
      rw [writeU32At_length, writeU32At_length, hhl]
      exact hp)]
    by_cases h3 : INDEX_OFFSET_LOW ≤ p ∧ p < INDEX_OFFSET_LOW + 4
    · rw [if_pos h3, if_pos h3]
    · rw [if_neg h3, if_neg h3]
      rw [byteAt_writeU32At, if_pos (by rw [writeU32At_length, hhl]; exact hp)]
      by_cases h2 : INDEX_SIZE_OFFSET ≤ p ∧ p < INDEX_SIZE_OFFSET + 4
      · rw [if_pos h2, if_pos h2]
      · rw [if_neg h2, if_neg h2]
        rw [byteAt_writeU32At, if_pos (by rw [hhl]; exact hp)]

set_option maxHeartbeats 1000000 in
theorem assemble_reuse_identity (b : List Nat) (s : DbpfBinaryStructure)
    (hb : ∀ x ∈ b, x < 256)
    (hhl : s.header.length = HEADER_SIZE)
    (h96wd : HEADER_SIZE ≤ writeDataEnd s)
    (hwd32 : writeDataEnd s < 2 ^ 32)
    (hros96 : ∀ r ∈ s.resources, HEADER_SIZE ≤ r.offset)
    (hitable : s.indexTable = subarray b s.indexOffset
      (s.indexOffset + s.indexSize))
    (htlen0 : s.indexTable.length = s.indexSize)
    (hioeq : s.indexOffset = writeDataEnd s)
    (hbl : b.length = s.indexOffset + s.indexSize)
    (hcount : readU32 b INDEX_ENTRY_COUNT_OFFSET = s.resources.length)
    (h40 : readU32 b INDEX_OFFSET_LOW = writeDataEnd s)
    (h44 : readU32 b INDEX_OFFSET_HIGH = 0)
    (h2c : readU32 b INDEX_SIZE_OFFSET = s.indexSize)
    (hheader : s.header = writeU32At (subarray b 0 HEADER_SIZE)
      s.resources.length INDEX_ENTRY_COUNT_OFFSET)
    (hgap : ∀ p, HEADER_SIZE ≤ p → p < writeDataEnd s →
      (∀ r ∈ s.resources, ¬(r.offset ≤ p ∧ p < r.offset + r.size)) →
      byteAt b p = 0)
    (hrlen : ∀ r ∈ s.resources, r.rawData.length = r.size)
    (hagree : ∀ r ∈ s.resources, ∀ i, i < r.rawData.length →
      byteAt r.rawData i = byteAt b (r.offset + i)) :
    assembleWrittenBuffer s s.indexTable = b := by
  have hlen' := assembleWrittenBuffer_length s s.indexTable
  apply list_eq_of_byteAt_eq
  · rw [hlen', htlen0]
    omega
  · intro p hp
    rw [hlen', htlen0] at hp
    rcases lt_or_le p HEADER_SIZE with hpA | hpA
    · rw [byteAt_assemble_header s s.indexTable p hpA hhl h96wd hros96,
        byteAt_patchedHeader_char s s.indexTable p hpA hhl]
      by_cases h4 : INDEX_OFFSET_HIGH ≤ p ∧ p < INDEX_OFFSET_HIGH + 4
      · rw [if_pos h4]
        have hk := byteAt_u32Bytes_of_readU32 b INDEX_OFFSET_HIGH 0
          (p - INDEX_OFFSET_HIGH) hb h44 (by omega)
        rw [show INDEX_OFFSET_HIGH + (p - INDEX_OFFSET_HIGH) = p by omega] at hk
        rw [Nat.div_eq_of_lt hwd32]
        exact hk.symm
      · rw [if_neg h4]
        by_cases h3 : INDEX_OFFSET_LOW ≤ p ∧ p < INDEX_OFFSET_LOW + 4
        · rw [if_pos h3]
          have hk := byteAt_u32Bytes_of_readU32 b INDEX_OFFSET_LOW
            (writeDataEnd s) (p - INDEX_OFFSET_LOW) hb h40 (by omega)
          rw [show INDEX_OFFSET_LOW + (p - INDEX_OFFSET_LOW) = p by omega] at hk
          rw [Nat.mod_eq_of_lt hwd32]
          exact hk.symm
        · rw [if_neg h3]
          by_cases h2 : INDEX_SIZE_OFFSET ≤ p ∧ p < INDEX_SIZE_OFFSET + 4
          · rw [if_pos h2]
            have hk := byteAt_u32Bytes_of_readU32 b INDEX_SIZE_OFFSET
              s.indexSize (p - INDEX_SIZE_OFFSET) hb h2c (by omega)
            rw [show INDEX_SIZE_OFFSET + (p - INDEX_SIZE_OFFSET) = p by omega]
              at hk
            rw [htlen0]
            exact hk.symm
          · rw [if_neg h2]
            by_cases h1 : INDEX_ENTRY_COUNT_OFFSET ≤ p ∧
                p < INDEX_ENTRY_COUNT_OFFSET + 4
            · rw [if_pos h1]
              have hk := byteAt_u32Bytes_of_readU32 b INDEX_ENTRY_COUNT_OFFSET
                s.resources.length (p - INDEX_ENTRY_COUNT_OFFSET) hb hcount
                (by omega)
              rw [show INDEX_ENTRY_COUNT_OFFSET + (p - INDEX_ENTRY_COUNT_OFFSET)
                = p by omega] at hk
              exact hk.symm
            · rw [if_neg h1, hheader]
              rw [byteAt_writeU32At_outside _ _ _ _ (by omega)]
              rw [if_pos (by
                rw [subarray_length b 0 HEADER_SIZE (by omega), Nat.sub_zero]
                exact hpA)]
              rw [byteAt_subarray, if_pos (by omega), Nat.zero_add]
    · rcases lt_or_le p (writeDataEnd s) with hpB | hpC
      · by_cases hcov : ∃ r ∈ s.resources,
            r.offset ≤ p ∧ p < r.offset + r.rawData.length
        · rw [byteAt_assemble_data_covered s s.indexTable (byteAt b) hagree p
            hcov hpB]
        · rw [byteAt_assemble_data_uncovered s s.indexTable p
            (fun r hr h => hcov ⟨r, hr, h⟩) hpA hpB]
          rw [hgap p hpA hpB (fun r hr h => hcov ⟨r, hr,
            ⟨h.1, by rw [hrlen r hr]; exact h.2⟩⟩)]
      · rw [byteAt_assemble_table s s.indexTable p hpC (by rw [htlen0]; omega)]
        rw [hitable, byteAt_subarray]
        rw [if_pos (by omega)]
        rw [show s.indexOffset + (p - writeDataEnd s) = p by omega]

theorem byteAt_append_right' (a b : List Nat) (i : Nat) (h : a.length ≤ i) :
    byteAt (a ++ b) i = byteAt b (i - a.length) := by
  rw [byteAt_append, if_neg (by omega)]

set_option maxHeartbeats 2000000 in
/-- C3: for a container accepted by `Read` whose layout is benign — every
resource sits at or after the data-start offset, which itself is at least the
96-byte header, and all resource extents and the data start lie below `2^31`
— `Write` succeeds and a second `Read` of the written bytes succeeds and
yields exactly as many resources, with byte-identical payloads and identical
compression flags, whether the index table was reused or rebuilt; and if the
table was reused (its length is `4 + 32 × resourceCount`) *and* the original
file already had the writer's canonical layout (index exactly at the data
end, file ending with the index, declared entry count equal to the parsed
count, and zero bytes wherever the data region is not covered by a
resource), then the written bytes are identical to the original file, so the
second snapshot — header and whole-file hash included — equals the first. -/
theorem dbpfWrite_read_roundtrip (H : List Nat → List Nat) (b : List Nat)
    (s : DbpfBinaryStructure)
    (hb : ∀ x ∈ b, x < 256)
    (hread : dbpfRead H b = .ok s)
    (hds96 : HEADER_SIZE ≤ s.dataStartOffset)
    (hds31 : s.dataStartOffset < 2 ^ 31)
    (hres : ∀ r ∈ s.resources, s.dataStartOffset ≤ r.offset ∧
      r.offset + r.size < 2 ^ 31) :
    ∃ b', dbpfWrite s = .ok b' ∧
      ∃ s', dbpfRead H b' = .ok s' ∧
        s'.resources.length = s.resources.length ∧
        (∀ j (hj : j < s.resources.length) (hj' : j < s'.resources.length),
          (s'.resources.get ⟨j, hj'⟩).rawData =
            (s.resources.get ⟨j, hj⟩).rawData ∧
          (s'.resources.get ⟨j, hj'⟩).compressionFlags =
            (s.resources.get ⟨j, hj⟩).compressionFlags) ∧
        (s.indexTable.length = 4 + s.resources.length * INDEX_ENTRY_SIZE →
         s.indexOffset = writeDataEnd s →
         b.length = s.indexOffset + s.indexSize →
         readU32 b INDEX_ENTRY_COUNT_OFFSET = s.resources.length →
         (∀ p, HEADER_SIZE ≤ p → p < writeDataEnd s →
           (∀ r ∈ s.resources, ¬(r.offset ≤ p ∧ p < r.offset + r.size)) →
           byteAt b p = 0) →
         b' = b ∧ s' = s ∧ s'.header = s.header ∧ s'.sha256 = s.sha256) := by
  obtain ⟨m, hm, hpres, hheader, hio, hisz, hifl, hdso, htot, hsha, hitab,
    hblen, hmagb⟩ := dbpfRead_ok_inv H b s hread
  obtain ⟨hecR, hiszR, hioR, hdsR, hiflR, hio4, hisz4, hiiszb⟩ :=
    readIndexMetadata_ok_inv b m hm
  have hpres' : parseResourcesFrom b m 0 m.entryCount = .ok s.resources := hpres
  have hlenres := parseResourcesFrom_length b m hisz4 m.entryCount 0
    s.resources (by omega) hpres'
  have hiszlt : m.indexSize < 2 ^ 32 := by
    rw [hiszR]; exact readU32_lt_of_bytes b _ hb
  have hdiv := Nat.div_mul_le_self (m.indexSize - 4) 32
  have hn32 : 4 + s.resources.length * INDEX_ENTRY_SIZE < 2 ^ 32 := by
    simp only [INDEX_ENTRY_SIZE]
    omega
  have hn32' : s.resources.length < 2 ^ 32 := by
    simp only [INDEX_ENTRY_SIZE] at hn32
    omega
  have hhl : s.header.length = HEADER_SIZE := by
    rw [hheader, writeU32At_length, subarray_length b 0 HEADER_SIZE hblen,
      Nat.sub_zero]
  have hsubhdr : ∀ q, q + 4 ≤ HEADER_SIZE →
      readU32 (subarray b 0 HEADER_SIZE) q = readU32 b q := by
    intro q hq
    apply readU32_congr
    intro k hk
    rw [byteAt_subarray, Nat.sub_zero, if_pos (by omega), Nat.zero_add]
  have hds30 : readU32 s.header DATA_OFFSET = readU32 b DATA_OFFSET := by
    rw [hheader]
    rw [readU32_writeU32At_outside _ _ _ _ (Or.inr (by decide))
      (by rw [subarray_length b 0 HEADER_SIZE hblen, Nat.sub_zero]; decide)]
    exact hsubhdr DATA_OFFSET (by decide)
  have hds' : (if readU32 s.header DATA_OFFSET = 0 then 0x60
      else readU32 s.header DATA_OFFSET) = s.dataStartOffset := by
    rw [hds30, hdso, hdsR]
  have hmag4 : (s.header.take 4).map (· % 128) = dbpfMagic := by
    have htk : s.header.take 4 = b.take 4 := by
      have h4h : (4 : Nat) ≤ HEADER_SIZE := by decide
      apply list_eq_of_byteAt_eq
      · rw [List.length_take, List.length_take, hhl]
        rw [Nat.min_eq_left h4h, Nat.min_eq_left (le_trans h4h hblen)]
      · intro i hi
        rw [List.length_take, hhl, Nat.min_eq_left h4h] at hi
        rw [byteAt_take, byteAt_take, if_pos hi, if_pos hi, hheader]
        rw [byteAt_writeU32At_outside _ _ _ _
          (Or.inl (by simp only [INDEX_ENTRY_COUNT_OFFSET]; omega))]
        have hsl : (subarray b 0 HEADER_SIZE).length = HEADER_SIZE := by
          rw [subarray_length b 0 HEADER_SIZE hblen, Nat.sub_zero]
        rw [if_pos (by rw [hsl]; exact lt_of_lt_of_le hi h4h)]
        rw [byteAt_subarray, Nat.sub_zero,
          if_pos (lt_of_lt_of_le hi h4h), Nat.zero_add]
    rw [htk]
    unfold ensureMagic at hmagb
    simpa using hmagb
  have hprj : ∀ j (hj : j < s.resources.length),
      parseResource b (m.indexOffset + 4 + j * INDEX_ENTRY_SIZE)
        m.dataStartOffset = .ok (s.resources.get ⟨j, hj⟩) := by
    intro j hj
    have h := (parseResourcesFrom_get b m m.entryCount 0 s.resources hpres'
      j hj).1
    rwa [Nat.zero_add] at h
  have hentB : ∀ j, j < s.resources.length →
      m.indexOffset + 4 + j * INDEX_ENTRY_SIZE + INDEX_ENTRY_SIZE ≤
        m.indexOffset + m.indexSize := by
    intro j hj
    have h := (parseResourcesFrom_get b m m.entryCount 0 s.resources hpres'
      j hj).2.1
    rwa [Nat.zero_add] at h
  have hrawsub : ∀ r ∈ s.resources,
      r.rawData = subarray b r.offset (r.offset + r.size) ∧
      r.offset + r.size ≤ b.length ∧
      r.size = r.sizeField % 2 ^ 31 ∧
      r.isCompressed = (r.sizeField / 2 ^ 31 == 1) ∧
      r.originalOffset = r.offset ∧
      r.sizeField < 2 ^ 32 ∧ r.uncompressedSize < 2 ^ 32 ∧
      r.compressionFlags < 2 ^ 16 ∧
      r.tgi.type < 2 ^ 32 ∧ r.tgi.group < 2 ^ 32 ∧
      (∃ hi lo, hi < 2 ^ 32 ∧ lo < 2 ^ 32 ∧ r.tgi.inst = hi * 2 ^ 32 + lo) := by
    intro r hr
    obtain ⟨⟨j, hj⟩, hget⟩ := List.mem_iff_get.mp hr
    have hinv := parseResource_ok_inv b _ _ _ (hprj j hj)
    rw [hget] at hinv
    obtain ⟨hty, hgr, hins, hoffi, horig, hsf, hszi, hus, hcf, hic, hraw,
      hie, hbnd⟩ := hinv
    refine ⟨hraw, hbnd, hszi, hic, horig, ?_, ?_, ?_, ?_, ?_, ?_⟩
    · rw [hsf]; exact readU32_lt_of_bytes b _ hb
    · rw [hus]; exact readU32_lt_of_bytes b _ hb
    · rw [hcf]; exact readU16_lt_of_bytes b _ hb
    · rw [hty]; exact readU32_lt_of_bytes b _ hb
    · rw [hgr]; exact readU32_lt_of_bytes b _ hb
    · exact ⟨readU32 b (m.indexOffset + 4 + j * INDEX_ENTRY_SIZE + 8),
        readU32 b (m.indexOffset + 4 + j * INDEX_ENTRY_SIZE + 12),
        readU32_lt_of_bytes b _ hb, readU32_lt_of_bytes b _ hb, hins⟩
  have hrlen : ∀ r ∈ s.resources, r.rawData.length = r.size := by
    intro r hr
    obtain ⟨hraw, hbnd, -⟩ := hrawsub r hr
    rw [hraw, subarray_length _ _ _ hbnd, Nat.add_sub_cancel_left]
  have hagreeB : ∀ r ∈ s.resources, ∀ i, i < r.rawData.length →
      byteAt r.rawData i = byteAt b (r.offset + i) := by
    intro r hr i hi
    obtain ⟨hraw, hbnd, -⟩ := hrawsub r hr
    rw [hrlen r hr] at hi
    rw [hraw, byteAt_subarray, Nat.add_sub_cancel_left, if_pos hi]
  have hrfB : ∀ r ∈ s.resources, r.size = r.sizeField % 2 ^ 31 ∧
      r.isCompressed = (r.sizeField / 2 ^ 31 == 1) ∧
      r.originalOffset = r.offset := by
    intro r hr
    obtain ⟨-, -, h1, h2, h3, -⟩ := hrawsub r hr
    exact ⟨h1, h2, h3⟩
  have hros96 : ∀ r ∈ s.resources, HEADER_SIZE ≤ r.offset :=
    fun r hr => le_trans hds96 (hres r hr).1
  have h96wd : HEADER_SIZE ≤ writeDataEnd s :=
    le_trans hds96 (writeDataEnd_init_le s)
  have hwd31 : writeDataEnd s < 2 ^ 31 :=
    writeDataEnd_lt s _ hds31 (fun r hr => (hres r hr).2)
  have hwd32 : writeDataEnd s < 2 ^ 32 := by omega
  by_cases hreuse : s.indexTable.length =
      4 + s.resources.length * INDEX_ENTRY_SIZE
  · -- index table reused
    have hwr : dbpfWrite s = .ok (assembleWrittenBuffer s s.indexTable) := by
      unfold dbpfWrite
      dsimp only
      rw [if_pos hreuse]
    have htlen0 : s.indexTable.length = m.indexSize := by
      rw [hitab, subarray_length _ _ _ hiiszb, Nat.add_sub_cancel_left]
    have htread : ∀ q, q < m.indexSize →
        byteAt s.indexTable q = byteAt b (m.indexOffset + q) := by
      intro q hq
      rw [hitab, byteAt_subarray, Nat.add_sub_cancel_left, if_pos hq]
    have htr32 : ∀ q, q + 4 ≤ m.indexSize →
        readU32 s.indexTable q = readU32 b (m.indexOffset + q) := by
      intro q hq
      apply readU32_congr
      intro k hk
      rw [htread (q + k) (by omega), Nat.add_assoc]
    have htr16 : ∀ q, q + 2 ≤ m.indexSize →
        readU16 s.indexTable q = readU16 b (m.indexOffset + q) := by
      intro q hq
      apply readU16_congr
      intro k hk
      rw [htread (q + k) (by omega), Nat.add_assoc]
    have hfieldsR : ∀ j (hj : j < s.resources.length),
        readU32 s.indexTable (4 + j * INDEX_ENTRY_SIZE) =
          (s.resources.get ⟨j, hj⟩).tgi.type ∧
        readU32 s.indexTable (4 + j * INDEX_ENTRY_SIZE + 4) =
          (s.resources.get ⟨j, hj⟩).tgi.group ∧
        readU32 s.indexTable (4 + j * INDEX_ENTRY_SIZE + 8) =
          (s.resources.get ⟨j, hj⟩).tgi.inst / 2 ^ 32 ∧
        readU32 s.indexTable (4 + j * INDEX_ENTRY_SIZE + 12) =
          (s.resources.get ⟨j, hj⟩).tgi.inst % 2 ^ 32 ∧
        (if 2 ^ 31 ≤ readU32 s.indexTable (4 + j * INDEX_ENTRY_SIZE + 16) then
          readU32 s.indexTable (4 + j * INDEX_ENTRY_SIZE + 16) % 2 ^ 31 +
            s.dataStartOffset
         else readU32 s.indexTable (4 + j * INDEX_ENTRY_SIZE + 16)) =
          (s.resources.get ⟨j, hj⟩).offset ∧
        readU32 s.indexTable (4 + j * INDEX_ENTRY_SIZE + 20) =
          (s.resources.get ⟨j, hj⟩).sizeField ∧
        readU32 s.indexTable (4 + j * INDEX_ENTRY_SIZE + 24) =
          (s.resources.get ⟨j, hj⟩).uncompressedSize ∧
        readU16 s.indexTable (4 + j * INDEX_ENTRY_SIZE + 28) =
          (s.resources.get ⟨j, hj⟩).compressionFlags := by
      intro j hj
      obtain ⟨hty, hgr, hins, hoffi, horig, hsf, hszi, hus, hcf, hic, hraw,
        hie, hbnd⟩ := parseResource_ok_inv b _ _ _ (hprj j hj)
      have hEb := hentB j hj
      have hhi := readU32_lt_of_bytes b
        (m.indexOffset + 4 + j * INDEX_ENTRY_SIZE + 8) hb
      have hlo := readU32_lt_of_bytes b
        (m.indexOffset + 4 + j * INDEX_ENTRY_SIZE + 12) hb
      have hc0 : readU32 s.indexTable (4 + j * INDEX_ENTRY_SIZE) =
          readU32 b (m.indexOffset + 4 + j * INDEX_ENTRY_SIZE) := by
        rw [htr32 _ (by simp only [INDEX_ENTRY_SIZE] at hEb ⊢; omega)]
        rw [show m.indexOffset + (4 + j * INDEX_ENTRY_SIZE) =
          m.indexOffset + 4 + j * INDEX_ENTRY_SIZE by omega]
      have hcc : ∀ c, c + 4 ≤ 32 →
          readU32 s.indexTable (4 + j * INDEX_ENTRY_SIZE + c) =
          readU32 b (m.indexOffset + 4 + j * INDEX_ENTRY_SIZE + c) := by
        intro c hc
        rw [htr32 _ (by simp only [INDEX_ENTRY_SIZE] at hEb ⊢; omega)]
        rw [show m.indexOffset + (4 + j * INDEX_ENTRY_SIZE + c) =
          m.indexOffset + 4 + j * INDEX_ENTRY_SIZE + c by omega]
      have hcc16 : readU16 s.indexTable (4 + j * INDEX_ENTRY_SIZE + 28) =
          readU16 b (m.indexOffset + 4 + j * INDEX_ENTRY_SIZE + 28) := by
        rw [htr16 _ (by simp only [INDEX_ENTRY_SIZE] at hEb ⊢; omega)]
        rw [show m.indexOffset + (4 + j * INDEX_ENTRY_SIZE + 28) =
          m.indexOffset + 4 + j * INDEX_ENTRY_SIZE + 28 by omega]
      refine ⟨hc0.trans hty.symm, (hcc 4 (by omega)).trans hgr.symm, ?_, ?_,
        ?_, (hcc 20 (by omega)).trans hsf.symm,
        (hcc 24 (by omega)).trans hus.symm, hcc16.trans hcf.symm⟩
      · rw [hcc 8 (by omega)]
        omega
      · rw [hcc 12 (by omega)]
        omega
      · rw [hcc 16 (by omega), hdso]
        exact hoffi.symm
    obtain ⟨s', hrd', hlens', hcomp⟩ := assemble_reread H s s.indexTable
      (byteAt b) hhl hmag4 hds' h96wd hwd32 hros96 hreuse
      (by rw [htlen0]; exact hiszlt) hn32' hagreeB hrlen hrfB hfieldsR
    refine ⟨_, hwr, s', hrd', hlens', hcomp, ?_⟩
    intro hreuse2 hioeq hbl hcount hgap
    have hlo := readU32_lt_of_bytes b INDEX_OFFSET_LOW hb
    have hhi := readU32_lt_of_bytes b INDEX_OFFSET_HIGH hb
    have h44b : readU32 b INDEX_OFFSET_HIGH = 0 := by omega
    have h40b : readU32 b INDEX_OFFSET_LOW = writeDataEnd s := by omega
    have hbeq := assemble_reuse_identity b s hb hhl h96wd hwd32 hros96
      (by rw [hio, hisz]; exact hitab)
      (by rw [hisz]; exact htlen0)
      hioeq hbl hcount h40b h44b
      (by rw [hisz, hiszR])
      hheader hgap hrlen hagreeB
    have hs'e : s' = s := by
      rw [hbeq] at hrd'
      have h2 := hread.symm.trans hrd'
      simp only [Except.ok.injEq] at h2
      exact h2.symm
    exact ⟨hbeq, hs'e, by rw [hs'e], by rw [hs'e]⟩
  · -- index table rebuilt
    obtain ⟨es, hes, heslen, hent⟩ := rebuildIndexEntries_decomp s.indexFlags
      s.dataStartOffset s.resources 0 (fun r hr => (hres r hr).1)
    have hwr : dbpfWrite s =
        .ok (assembleWrittenBuffer s (u32Bytes s.indexFlags ++ es)) := by
      unfold dbpfWrite
      dsimp only
      rw [if_neg hreuse]
      unfold rebuildIndexTable
      rw [hes]
    have htlenE : (u32Bytes s.indexFlags ++ es).length =
        4 + s.resources.length * INDEX_ENTRY_SIZE := by
      rw [List.length_append, u32Bytes_length, heslen]
      simp only [INDEX_ENTRY_SIZE]
      omega
    have hfieldsR : ∀ j (hj : j < s.resources.length),
        readU32 (u32Bytes s.indexFlags ++ es) (4 + j * INDEX_ENTRY_SIZE) =
          (s.resources.get ⟨j, hj⟩).tgi.type ∧
        readU32 (u32Bytes s.indexFlags ++ es) (4 + j * INDEX_ENTRY_SIZE + 4) =
          (s.resources.get ⟨j, hj⟩).tgi.group ∧
        readU32 (u32Bytes s.indexFlags ++ es) (4 + j * INDEX_ENTRY_SIZE + 8) =
          (s.resources.get ⟨j, hj⟩).tgi.inst / 2 ^ 32 ∧
        readU32 (u32Bytes s.indexFlags ++ es) (4 + j * INDEX_ENTRY_SIZE + 12) =
          (s.resources.get ⟨j, hj⟩).tgi.inst % 2 ^ 32 ∧
        (if 2 ^ 31 ≤ readU32 (u32Bytes s.indexFlags ++ es)
            (4 + j * INDEX_ENTRY_SIZE + 16) then
          readU32 (u32Bytes s.indexFlags ++ es)
            (4 + j * INDEX_ENTRY_SIZE + 16) % 2 ^ 31 + s.dataStartOffset
         else readU32 (u32Bytes s.indexFlags ++ es)
            (4 + j * INDEX_ENTRY_SIZE + 16)) =
          (s.resources.get ⟨j, hj⟩).offset ∧
        readU32 (u32Bytes s.indexFlags ++ es) (4 + j * INDEX_ENTRY_SIZE + 20) =
          (s.resources.get ⟨j, hj⟩).sizeField ∧
        readU32 (u32Bytes s.indexFlags ++ es) (4 + j * INDEX_ENTRY_SIZE + 24) =
          (s.resources.get ⟨j, hj⟩).uncompressedSize ∧
        readU16 (u32Bytes s.indexFlags ++ es) (4 + j * INDEX_ENTRY_SIZE + 28) =
          (s.resources.get ⟨j, hj⟩).compressionFlags := by
      intro j hj
      obtain ⟨v, hvok, hbytes⟩ := hent j hj
      rw [Nat.zero_add] at hvok
      have hmemg : s.resources.get ⟨j, hj⟩ ∈ s.resources := List.get_mem ..
      rw [rebuildDataOffsetValue_ok _ _ _ _ (hres _ hmemg).1] at hvok
      simp only [Except.ok.injEq] at hvok
      obtain ⟨-, -, -, -, -, hsf32, hus32, hcf16, hty32, hgr32, hi, lo, hhi32,
        hlo32, hinste⟩ := hrawsub _ hmemg
      have hoffb := (hres _ hmemg).2
      have hoffds := (hres _ hmemg).1
      have hcc : ∀ c, c + 4 ≤ 32 →
          readU32 (u32Bytes s.indexFlags ++ es)
            (4 + j * INDEX_ENTRY_SIZE + c) =
          readU32 (encodeIndexEntry (s.resources.get ⟨j, hj⟩) v) c := by
        intro c hc
        apply readU32_congr
        intro k hk
        rw [byteAt_append_right' _ _ _ (by rw [u32Bytes_length]; omega),
          u32Bytes_length]
        rw [show 4 + j * INDEX_ENTRY_SIZE + c + k - 4 = 32 * j + (c + k) by
          simp only [INDEX_ENTRY_SIZE]; omega]
        exact hbytes (c + k) (by omega)
      have hc0 : readU32 (u32Bytes s.indexFlags ++ es)
          (4 + j * INDEX_ENTRY_SIZE) =
          readU32 (encodeIndexEntry (s.resources.get ⟨j, hj⟩) v) 0 := by
        have h := hcc 0 (by omega)
        rwa [Nat.add_zero] at h
      have hcc16 : readU16 (u32Bytes s.indexFlags ++ es)
          (4 + j * INDEX_ENTRY_SIZE + 28) =
          readU16 (encodeIndexEntry (s.resources.get ⟨j, hj⟩) v) 28 := by
        apply readU16_congr
        intro k hk
        rw [byteAt_append_right' _ _ _ (by rw [u32Bytes_length]; omega),
          u32Bytes_length]
        rw [show 4 + j * INDEX_ENTRY_SIZE + 28 + k - 4 = 32 * j + (28 + k) by
          simp only [INDEX_ENTRY_SIZE]; omega]
        exact hbytes (28 + k) (by omega)
      refine ⟨?_, ?_, ?_, ?_, ?_, ?_, ?_, ?_⟩
      · rw [hc0, readU32_encodeIndexEntry_0]
        exact Nat.mod_eq_of_lt hty32
      · rw [hcc 4 (by omega), readU32_encodeIndexEntry_4]
        exact Nat.mod_eq_of_lt hgr32
      · rw [hcc 8 (by omega), readU32_encodeIndexEntry_8]
        omega
      · rw [hcc 12 (by omega), readU32_encodeIndexEntry_12]
      · rw [hcc 16 (by omega), readU32_encodeIndexEntry_16']
        by_cases hf : s.indexFlags = 4
        · by_cases hj0 : j = 0
          · rw [if_pos hf, if_pos hj0] at hvok
            rw [← hvok]
            rw [if_neg (by omega)]
            omega
          · rw [if_pos hf, if_neg hj0] at hvok
            have hvv : v = (s.resources.get ⟨j, hj⟩).offset -
                s.dataStartOffset + 2 ^ 31 := by
              rw [← hvok]
              simp only [orBit31]
              rw [Nat.mod_eq_of_lt (by omega), if_pos (by omega)]
            rw [hvv]
            rw [if_pos (by omega)]
            omega
        · rw [if_neg hf] at hvok
          rw [← hvok]
          rw [if_neg (by omega)]
          omega
      · rw [hcc 20 (by omega), readU32_encodeIndexEntry_20]
        exact Nat.mod_eq_of_lt hsf32
      · rw [hcc 24 (by omega), readU32_encodeIndexEntry_24]
        exact Nat.mod_eq_of_lt hus32
      · rw [hcc16, readU16_encodeIndexEntry_28]
        exact Nat.mod_eq_of_lt hcf16
    obtain ⟨s', hrd', hlens', hcomp⟩ := assemble_reread H s
      (u32Bytes s.indexFlags ++ es) (byteAt b) hhl hmag4 hds' h96wd hwd32
      hros96 htlenE (by rw [htlenE]; exact hn32) hn32' hagreeB hrlen hrfB
      hfieldsR
    refine ⟨_, hwr, s', hrd', hlens', hcomp, ?_⟩
    intro hreuse2 _ _ _ _
    exact absurd hreuse2 hreuse

/-- A benign 136-byte container: one 4-byte resource at offset 96 (the data
start), followed by its 36-byte index table at offset 100 (the data end),
with the declared entry count matching. -/
def c3wbuf : List Nat :=
  writeU32At (writeU32At (writeU32At (blit (List.replicate 96 0) dbpfMagic 0)
      1 0x24) 36 0x2c) 100 0x40 ++
    [65, 66, 67, 68] ++ u32Bytes 0 ++
    (u32Bytes 0x11 ++ u32Bytes 0x22 ++ u32Bytes 0 ++ u32Bytes 0x33 ++
      u32Bytes 96 ++ u32Bytes 4 ++ u32Bytes 4 ++ u16Bytes 0 ++ [0, 0])

/-- The snapshot `Read` produces for `c3wbuf`. -/
def c3ws : DbpfBinaryStructure :=
  match dbpfRead (fun l => l) c3wbuf with
  | .ok s => s
  | .error _ =>
    { filePath := "", sha256 := [], header := [], resources := [],
      indexTable := [], totalSize := 0, indexOffset := 0, indexSize := 0,
      indexFlags := 0, dataStartOffset := 0 }

set_option maxRecDepth 8000 in
/-- Witness for C3 on the concrete container `c3wbuf`: all hypotheses hold
and the Read–Write–Read round trip preserves resource count, payload bytes
and compression flags. -/
theorem dbpfWrite_read_roundtrip_witness :
    (∀ x ∈ c3wbuf, x < 256) ∧ HEADER_SIZE ≤ c3ws.dataStartOffset ∧
    (∃ b', dbpfWrite c3ws = .ok b' ∧
      ∃ s', dbpfRead (fun l => l) b' = .ok s' ∧
        s'.resources.length = c3ws.resources.length ∧
        (∀ j (hj : j < c3ws.resources.length)
            (hj' : j < s'.resources.length),
          (s'.resources.get ⟨j, hj'⟩).rawData =
            (c3ws.resources.get ⟨j, hj⟩).rawData ∧
          (s'.resources.get ⟨j, hj'⟩).compressionFlags =
            (c3ws.resources.get ⟨j, hj⟩).compressionFlags) ∧
        (c3ws.indexTable.length =
            4 + c3ws.resources.length * INDEX_ENTRY_SIZE →
         c3ws.indexOffset = writeDataEnd c3ws →
         c3wbuf.length = c3ws.indexOffset + c3ws.indexSize →
         readU32 c3wbuf INDEX_ENTRY_COUNT_OFFSET = c3ws.resources.length →
         (∀ p, HEADER_SIZE ≤ p → p < writeDataEnd c3ws →
           (∀ r ∈ c3ws.resources,
             ¬(r.offset ≤ p ∧ p < r.offset + r.size)) →
           byteAt c3wbuf p = 0) →
         b' = c3wbuf ∧ s' = c3ws ∧ s'.header = c3ws.header ∧
           s'.sha256 = c3ws.sha256)) :=
  ⟨by decide, by decide,
    dbpfWrite_read_roundtrip (fun l => l) c3wbuf c3ws (by decide) rfl
      (by decide) (by decide) (by decide)⟩

/-- A 204-byte container whose index table (4 bytes, zero entries) sits at
offset 200, leaving a gap of nonzero filler bytes at offsets 96–199 that no
resource covers. -/
def c3gap : List Nat :=
  writeU32At (writeU32At (blit (List.replicate 96 0) dbpfMagic 0) 4 0x2c)
      200 0x40 ++
    List.replicate 104 7 ++ u32Bytes 0

/-- The snapshot `Read` produces for `c3gap`. -/
def c3s1 : DbpfBinaryStructure :=
  match dbpfRead (fun l => l) c3gap with
  | .ok s => s
  | .error _ =>
    { filePath := "", sha256 := [], header := [], resources := [],
      indexTable := [], totalSize := 0, indexOffset := 0, indexSize := 0,
      indexFlags := 0, dataStartOffset := 0 }

/-- The bytes `Write` produces for `c3s1`. -/
def c3b2 : List Nat :=
  match dbpfWrite c3s1 with
  | .ok l => l
  | .error _ => []

/-- The snapshot `Read` produces for `c3b2`. -/
def c3s2 : DbpfBinaryStructure :=
  match dbpfRead (fun l => l) c3b2 with
  | .ok s => s
  | .error _ =>
    { filePath := "", sha256 := [], header := [], resources := [],
      indexTable := [], totalSize := 0, indexOffset := 0, indexSize := 0,
      indexFlags := 0, dataStartOffset := 0 }

set_option maxRecDepth 8000 in
/-- Counterexample to the claim's pure-round-trip clause: `c3gap` is read
with its index table reused (length `4 + 32 × 0`), yet `Write` relocates the
index to the data end, dropping the gap — the rewritten file is 100 bytes
instead of 204 — so the second `Read`'s header and whole-file hash (the
identity digest here) differ from the first's. -/
theorem dbpfWrite_reuse_not_hash_preserving :
    dbpfRead (fun l => l) c3gap = .ok c3s1 ∧
    c3s1.indexTable.length = 4 + c3s1.resources.length * INDEX_ENTRY_SIZE ∧
    dbpfWrite c3s1 = .ok c3b2 ∧
    dbpfRead (fun l => l) c3b2 = .ok c3s2 ∧
    c3s2.header ≠ c3s1.header ∧ c3s2.sha256 ≠ c3s1.sha256 := by
  refine ⟨rfl, by decide, rfl, rfl, by decide, by decide⟩
